import Mathlib

/-!
# Konsole profile registry: `SessionManager.cpp`

A shallow embedding of the profile and session registry of Konsole
(`src/konsole/SessionManager.cpp`) together with machine-checked statements about it.

Modelling conventions

* A C++ pointer is a natural number, `0` being the null pointer.  Objects reached through
  pointers (`Profile*`, `Session*`) live in an explicit heap; dereferencing the null pointer
  or a deleted object is the fault `Fault.nullDereference`.
* `QHash` and `QSet` are association lists / lists.  Qt leaves their iteration order
  unspecified, so every statement below only uses membership, never the position of an entry.
* `Q_ASSERT` is compiled out, as in a release build of Qt (`QT_NO_DEBUG`): the asserted
  condition is neither evaluated nor enforced.
* A member function that can run into undefined behaviour returns `Except Fault _`.
-/

namespace Konsole

/-! ## Pointers, faults and the heap -/

/-- A C++ pointer; `0` is the null pointer. -/
abbrev Ptr := Nat

/-- Ways in which a call can fail to return normally. -/
inductive Fault where
  /-- Member access through a null pointer or through a pointer to a deleted object. -/
  | nullDereference
  /-- A recursion or loop that never returns. -/
  | diverges
  /-- The call `QList::first()` on an empty list. -/
  | firstOfEmptyList
  deriving DecidableEq, Repr

/-- Objects allocated with `new`, by address.  `next` is the last address handed out, so that
addresses of deleted objects are never reused. -/
structure Heap (α : Type) where
  cells : List (Ptr × α)
  next : Ptr
  deriving DecidableEq, Repr

namespace Heap

variable {α : Type}

/-- The heap before any allocation. -/
def empty : Heap α := ⟨[], 0⟩

/-- Dereference `p`. -/
def get (h : Heap α) (p : Ptr) : Except Fault α :=
  if p = 0 then .error .nullDereference
  else match h.cells.lookup p with
    | some a => .ok a
    | none => .error .nullDereference

/-- Overwrite the object stored at `p`. -/
def set (h : Heap α) (p : Ptr) (a : α) : Heap α :=
  { h with cells := h.cells.map (fun c => if c.1 = p then (p, a) else c) }

/-- The expression `new T(...)`: the object is stored at a fresh, non-null address. -/
def alloc (h : Heap α) (a : α) : Ptr × Heap α :=
  (h.next + 1, ⟨(h.next + 1, a) :: h.cells, h.next + 1⟩)

/-- The statement `delete p`. -/
def free (h : Heap α) (p : Ptr) : Heap α :=
  { h with cells := h.cells.filter (fun c => !decide (c.1 = p)) }

end Heap

/-! ## Qt containers and values -/

/-- The container `QHash<K,V>` as an association list. -/
abbrev QHash (κ : Type) (ν : Type) := List (κ × ν)

namespace QHash

variable {κ ν : Type} [DecidableEq κ]

/-- The method `QHash::contains`. -/
def contains (h : QHash κ ν) (k : κ) : Bool := (List.lookup k h).isSome

/-- The method `QHash::value(key)` and the const `operator[]`: the stored value, or a default-constructed
one when the key is absent. -/
def value (h : QHash κ ν) (k : κ) (dflt : ν) : ν := (List.lookup k h).getD dflt

/-- The method `QHash::remove`. -/
def remove (h : QHash κ ν) (k : κ) : QHash κ ν := h.filter (fun e => !decide (e.1 = k))

/-- The method `QHash::insert`: the value of an existing key is replaced. -/
def insert (h : QHash κ ν) (k : κ) (v : ν) : QHash κ ν := (k, v) :: remove h k

/-- The method `QHash::keys()`. -/
def keys (h : QHash κ ν) : List κ := h.map Prod.fst

/-- The method `QHash::values()`. -/
def values (h : QHash κ ν) : List ν := h.map Prod.snd

/-- The method `QHash::isEmpty`. -/
def isEmpty (h : QHash κ ν) : Bool := List.isEmpty h

/-- The method `QHash::count()`. -/
def count (h : QHash κ ν) : Nat := List.length h

/-- The method `QHash::key(value)`: some key mapped to `v`, or a default-constructed key. -/
def key [DecidableEq ν] (h : QHash κ ν) (v : ν) (dflt : κ) : κ :=
  match h.find? (fun e => decide (e.2 = v)) with
  | some e => e.1
  | none => dflt

end QHash

/-- Digits of `n` in base ten, least significant first; `fuel` bounds the number of digits. -/
def decimalDigits : Nat → Nat → List Nat
  | 0, _ => []
  | fuel + 1, n => if n < 10 then [n] else (n % 10) :: decimalDigits fuel (n / 10)

/-- The character of a decimal digit. -/
def digitChar (d : Nat) : Char :=
  match d with
  | 0 => '0' | 1 => '1' | 2 => '2' | 3 => '3' | 4 => '4'
  | 5 => '5' | 6 => '6' | 7 => '7' | 8 => '8' | _ => '9'

/-- The digit a character stands for. -/
def charDigit (c : Char) : Nat :=
  if c = '0' then 0 else if c = '1' then 1 else if c = '2' then 2 else if c = '3' then 3
  else if c = '4' then 4 else if c = '5' then 5 else if c = '6' then 6 else if c = '7' then 7
  else if c = '8' then 8 else 9

/-- The function `QString::number(int)` for the non-negative values a counter takes: the decimal form. -/
def QString.number (n : Nat) : String :=
  String.mk ((decimalDigits (n + 1) n).reverse.map digitChar)

/-- The method `QString::isEmpty`; the null string is the empty string. -/
def QString.isEmpty (s : String) : Bool := decide (s = "")

/-- The method `QString::endsWith`. -/
def QString.endsWith (s : String) (suffix : String) : Bool :=
  suffix.data.isSuffixOf s.data

/-- The method `QFileInfo::fileName()`: the part of the path after the last slash. -/
def QFileInfo.fileName (path : String) : String :=
  String.mk (path.data.foldl (fun acc c => if c = '/' then [] else acc ++ [c]) [])

/-- The method `QFileInfo::isAbsolute()`. -/
def QFileInfo.isAbsolute (path : String) : Bool :=
  match path.data with
  | c :: _ => decide (c = '/')
  | [] => false

/-- Gettext lookup `i18n`, in a session without a translation catalogue: the message itself. -/
def i18n (message : String) : String := message

/-- The class `QVariant`, restricted to the types of value the profile code stores. -/
inductive QVariant where
  /-- The invalid variant `QVariant()`, the "unset" result of a lookup. -/
  | invalid
  | string (s : String)
  | stringList (l : List String)
  /-- A `QFont`, by family name. -/
  | font (family : String)
  deriving DecidableEq, Repr

/-- The conversion `QVariant::value<QString>()`. -/
def QVariant.toQString : QVariant → String
  | .invalid => ""
  | .string s => s
  | .stringList [s] => s
  | .stringList _ => ""
  | .font family => family

/-- The conversion `QVariant::value<QStringList>()`. -/
def QVariant.toQStringList : QVariant → List String
  | .invalid => []
  | .string s => [s]
  | .stringList l => l
  | .font family => [family]

/-! ## Profile -/

/-- Modelled from the spec: the enumeration `Profile::Property` is declared in
`SessionManager.h`; these are the identifiers the spec lists and the source uses. -/
inductive Property where
  | Path | Name | Command | Arguments | Icon | Font | ColorScheme | KeyBindings
  | Environment | Directory | LocalTabTitleFormat | RemoteTabTitleFormat
  deriving DecidableEq, Repr

/-- The data members of `Profile`. -/
structure Profile where
  _propertyValues : QHash Property QVariant
  _parent : Ptr
  _hidden : Bool
  deriving DecidableEq, Repr

namespace Profile

/-- The constructor `Profile::Profile(Profile* parent)`. -/
def new (parent : Ptr) : Profile := ⟨[], parent, false⟩

/-- The method `Profile::isHidden`. -/
def isHidden (P : Profile) : Bool := P._hidden

/-- The method `Profile::setHidden`. -/
def setHidden (P : Profile) (hidden : Bool) : Profile := { P with _hidden := hidden }

/-- The method `Profile::setParent`. -/
def setParent (P : Profile) (parent : Ptr) : Profile := { P with _parent := parent }

/-- The method `Profile::parent`. -/
def parent (P : Profile) : Ptr := P._parent

/-- The method `Profile::isEmpty`. -/
def isEmpty (P : Profile) : Bool := QHash.isEmpty P._propertyValues

/-- The method `Profile::setProperties`: the locally set properties. -/
def setProperties (P : Profile) : QHash Property QVariant := P._propertyValues

/-- The method `Profile::setProperty`, on the object itself. -/
def setProperty (P : Profile) (property : Property) (value : QVariant) : Profile :=
  { P with _propertyValues := QHash.insert P._propertyValues property value }

/-- The method `Profile::isPropertySet`. -/
def isPropertySet (P : Profile) (property : Property) : Bool :=
  QHash.contains P._propertyValues property

/-- The method `Profile::property` with a bound `depth` on the number of nested calls: the local map
first, then the parent, then the invalid variant. -/
def propertyFuel (h : Heap Profile) : Nat → Ptr → Property → Except Fault QVariant
  | 0, _, _ => .error .diverges
  | depth + 1, this, property =>
    match h.get this with
    | .error f => .error f
    | .ok P =>
      if QHash.contains P._propertyValues property then
        .ok (QHash.value P._propertyValues property .invalid)
      else if P._parent ≠ 0 then
        propertyFuel h depth P._parent property
      else
        .ok .invalid

/-- The method `Profile::property`, called on the object at address `this`.  A chain of
parents that returns at all does so within one call more than there are objects
(`propertyFuel_succ`), so the bound on the depth loses nothing; a cyclic chain, on which
the C++ recursion never returns, gives `Fault.diverges`. -/
def property (h : Heap Profile) (this : Ptr) (property : Property) : Except Fault QVariant :=
  propertyFuel h (h.cells.length + 2) this property

/-- The call `this->setProperty(property, value)` on the heap. -/
def setPropertyAt (h : Heap Profile) (this : Ptr) (property : Property) (value : QVariant) :
    Except Fault (Heap Profile) :=
  match h.get this with
  | .error f => .error f
  | .ok P => .ok (h.set this (P.setProperty property value))

/-- The call `this->isPropertySet(property)` on the heap. -/
def isPropertySetAt (h : Heap Profile) (this : Ptr) (property : Property) :
    Except Fault Bool :=
  match h.get this with
  | .error f => .error f
  | .ok P => .ok (P.isPropertySet property)

/-- The addresses a lookup that finds nothing visits from `this` upwards. -/
def ancestors (h : Heap Profile) : Nat → Ptr → List Ptr
  | 0, _ => []
  | depth + 1, this =>
    match h.get this with
    | .error _ => []
    | .ok P => this :: (if P._parent ≠ 0 then ancestors h depth P._parent else [])

/-- A sequence of `setProperty` calls on one object, first call first. -/
def setPropertyCalls (P : Profile) (calls : List (Property × QVariant)) : Profile :=
  calls.foldl (fun Q c => Q.setProperty c.1 c.2) P

/-- A sequence of calls `this->setProperty(property, value)` on the heap, first call first. -/
def setPropertyCallsAt (h : Heap Profile) (this : Ptr) :
    List (Property × QVariant) → Except Fault (Heap Profile)
  | [] => .ok h
  | c :: rest =>
    match setPropertyAt h this c.1 c.2 with
    | .error f => .error f
    | .ok h1 => setPropertyCallsAt h1 this rest

/-- Modelled from the spec: the inline accessors `path()`, `name()`, `command()`,
`arguments()`, `defaultWorkingDirectory()`, `icon()`, `colorScheme()` and `font()` are
declared in `SessionManager.h`; each looks up the property of that name with
`Profile::property` (the stored source location is the property `Path`) and converts the
variant to a string. -/
def stringProperty (h : Heap Profile) (this : Ptr) (property : Property) :
    Except Fault String :=
  match Profile.property h this property with
  | .error f => .error f
  | .ok v => .ok v.toQString

/-- The accessor `Profile::path()`. -/
def path (h : Heap Profile) (this : Ptr) : Except Fault String :=
  stringProperty h this .Path

/-- The accessor `Profile::name()`. -/
def name (h : Heap Profile) (this : Ptr) : Except Fault String :=
  stringProperty h this .Name

/-- The accessor `Profile::command()`. -/
def command (h : Heap Profile) (this : Ptr) : Except Fault String :=
  stringProperty h this .Command

/-- The accessor `Profile::arguments()`, a string list. -/
def arguments (h : Heap Profile) (this : Ptr) : Except Fault (List String) :=
  match Profile.property h this .Arguments with
  | .error f => .error f
  | .ok v => .ok v.toQStringList

/-- The accessor `Profile::defaultWorkingDirectory()`. -/
def defaultWorkingDirectory (h : Heap Profile) (this : Ptr) : Except Fault String :=
  stringProperty h this .Directory

/-- The accessor `Profile::icon()`. -/
def icon (h : Heap Profile) (this : Ptr) : Except Fault String :=
  stringProperty h this .Icon

/-- The accessor `Profile::colorScheme()`. -/
def colorScheme (h : Heap Profile) (this : Ptr) : Except Fault String :=
  stringProperty h this .ColorScheme

/-- The accessor `Profile::font()`, as the string written to a configuration file. -/
def font (h : Heap Profile) (this : Ptr) : Except Fault String :=
  stringProperty h this .Font

end Profile

/-- The constructor `FallbackProfile::FallbackProfile()`; `shell` is `getenv("SHELL")`. -/
def FallbackProfile.new (shell : String) : Profile :=
  (((((Profile.new 0).setProperty .Name (.string (i18n "Shell"))).setProperty
    .Command (.string shell)).setProperty
    .Arguments (.stringList [shell])).setProperty
    .Font (.font "Monospace")).setHidden true

/-! ## Configuration files and the platform -/

/-- The entries of a `KConfig` file: group and key to value. -/
abbrev KConfig := QHash (String × String) String

/-- The method `KConfigGroup::hasKey`. -/
def KConfig.hasKey (config : KConfig) (group key : String) : Bool :=
  QHash.contains config (group, key)

/-- The method `KConfigGroup::readEntry(key)`: the empty string when the key is absent. -/
def KConfig.readEntry (config : KConfig) (group key : String) : String :=
  QHash.value config (group, key) ""

/-- The method `KConfigGroup::writeEntry`. -/
def KConfig.writeEntry (config : KConfig) (group key value : String) : KConfig :=
  QHash.insert config (group, key) value

/-- What the code takes from outside the repository's sources: the process environment,
`KStandardDirs` and the class `ShellCommand` (declared in `ShellCommand.h`). -/
structure Platform where
  /-- The value of `getenv("SHELL")`. -/
  shell : String
  /-- The lookup `KStandardDirs::findResource("data", name)`: empty when nothing is found. -/
  findResource : String → String
  /-- The directory `KStandardDirs::saveLocation("data","konsole/")`. -/
  saveLocation : String
  /-- The result of `ShellCommand(fullCommand).command()`. -/
  shellCommandCommand : String → String
  /-- The result of `ShellCommand(fullCommand).arguments()`. -/
  shellCommandArguments : String → List String
  /-- The result of `ShellCommand(command, arguments).fullCommand()`. -/
  shellCommandFullCommand : String → List String → String

/-- The application configuration `KGlobal::config()`, by the two entries the registry uses:
`DefaultProfile` in group `Desktop Entry` and `Favorites` in group `Favorite Profiles`
(`none` when the key is absent). -/
structure AppConfig where
  defaultProfile : Option String
  favorites : Option (List String)
  deriving DecidableEq, Repr

/-- The files and configuration the registry reads and writes. -/
structure World where
  /-- Existing files, with their configuration entries. -/
  files : QHash String KConfig
  /-- Paths on which `QFile::remove` fails. -/
  undeletable : List String
  appConfig : AppConfig
  deriving DecidableEq, Repr

/-- The statement `if ( group.hasKey(key) ) profile->setProperty(property,
group.readEntry(entry))` of the readers. -/
def readEntryIf (config : KConfig) (group key entry : String) (property : Property)
    (profile : Profile) : Profile :=
  if config.hasKey group key then
    profile.setProperty property (.string (config.readEntry group entry))
  else profile

/-- The block of `KDE4ProfileReader::readProfile` for the key `Command`: the command line is
taken apart by `ShellCommand`. -/
def KDE4ProfileReader.readCommand (env : Platform) (config : KConfig) (profile : Profile) :
    Profile :=
  if config.hasKey "General" "Command" then
    (profile.setProperty .Command
      (.string (env.shellCommandCommand (config.readEntry "General" "Command")))).setProperty
      .Arguments (.stringList (env.shellCommandArguments (config.readEntry "General" "Command")))
  else profile

/-- The reader `KDE4ProfileReader::readProfile`, on the entries of the file at the path.
The colour scheme is tested under the key `ColorScheme` and read under `Color Scheme`. -/
def KDE4ProfileReader.readProfile (env : Platform) (config : KConfig) (profile : Profile) :
    Bool × Profile :=
  if config.hasKey "General" "Name" then
    (true,
      readEntryIf config "Appearence" "Font" "Font" .Font
        (readEntryIf config "Appearence" "ColorScheme" "Color Scheme" .ColorScheme
          (readEntryIf config "General" "RemoteTabTitleFormat" "RemoteTabTitleFormat"
            .RemoteTabTitleFormat
            (readEntryIf config "General" "LocalTabTitleFormat" "LocalTabTitleFormat"
              .LocalTabTitleFormat
              (readEntryIf config "General" "Icon" "Icon" .Icon
                (KDE4ProfileReader.readCommand env config
                  (profile.setProperty .Name
                    (.string (config.readEntry "General" "Name")))))))))
  else
    (false, profile)

/-- The method `KDE4ProfileWriter::getPath`. -/
def KDE4ProfileWriter.getPath (env : Platform) (h : Heap Profile) (info : Ptr) :
    Except Fault String := do
  let set ← Profile.isPropertySetAt h info .Path
  let newPath ← if set then Profile.path h info else pure ""
  let newPath ← if QString.isEmpty newPath then (do
      let n ← Profile.name h info
      pure (n ++ ".profile"))
    else pure newPath
  if QFileInfo.isAbsolute newPath then pure newPath else pure (env.saveLocation ++ newPath)

/-- The entries `KDE4ProfileWriter::writeProfile` passes to `writeEntry`, in the order of
the calls: group, key and value. -/
def KDE4ProfileWriter.entries (env : Platform) (h : Heap Profile) (profile : Ptr) :
    Except Fault (List ((String × String) × String)) := do
  let P ← h.get profile
  let e1 ← if P.isPropertySet .Name then (do
      let v ← Profile.name h profile
      pure [(("General", "Name"), v)])
    else pure []
  let e2 ← if P.isPropertySet .Command || P.isPropertySet .Arguments then (do
      let c ← Profile.command h profile
      let a ← Profile.arguments h profile
      pure [(("General", "Command"), env.shellCommandFullCommand c a)])
    else pure []
  let e3 ← if P.isPropertySet .Icon then (do
      let v ← Profile.icon h profile
      pure [(("General", "Icon"), v)])
    else pure []
  let e4 ← if P.isPropertySet .LocalTabTitleFormat then (do
      let v ← Profile.stringProperty h profile .LocalTabTitleFormat
      pure [(("General", "LocalTabTitleFormat"), v)])
    else pure []
  let e5 ← if P.isPropertySet .RemoteTabTitleFormat then (do
      let v ← Profile.stringProperty h profile .RemoteTabTitleFormat
      pure [(("General", "RemoteTabTitleFormat"), v)])
    else pure []
  let e6 ← if P.isPropertySet .ColorScheme then (do
      let v ← Profile.colorScheme h profile
      pure [(("Appearence", "ColorScheme"), v)])
    else pure []
  let e7 ← if P.isPropertySet .Font then (do
      let v ← Profile.font h profile
      pure [(("Appearence", "Font"), v)])
    else pure []
  pure (e1 ++ e2 ++ e3 ++ e4 ++ e5 ++ e6 ++ e7)

/-- The method `KDE4ProfileWriter::writeProfile`: the entries are written into the
configuration at the path; the result is always `true`. -/
def KDE4ProfileWriter.writeProfile (env : Platform) (h : Heap Profile) (config : KConfig)
    (profile : Ptr) : Except Fault (Bool × KConfig) := do
  let es ← KDE4ProfileWriter.entries env h profile
  pure (true, es.foldl (fun c e => KConfig.writeEntry c e.1.1 e.1.2 e.2) config)

/-! ## Session -/

/-- Modelled from the spec: the class `Session` is declared in `Session.h`; it is the bound
type plus the six settings behind the setters the registry calls. -/
structure Session where
  type : String
  program : String
  arguments : List String
  initialWorkingDirectory : String
  iconName : String
  keymap : String
  localTabTitleFormat : String
  remoteTabTitleFormat : String
  deriving DecidableEq, Repr

/-- The constructor `Session::Session()`. -/
def Session.new : Session := ⟨"", "", [], "", "", "", "", ""⟩

/-- The signals of `SessionManager`. -/
inductive Signal where
  | profileAdded (key : String)
  | profileRemoved (key : String)
  | profileChanged (key : String)
  | favoriteStatusChanged (key : String) (favorite : Bool)
  deriving DecidableEq, Repr

/-! ## SessionManager -/

/-- The data members of `SessionManager`, followed by what its member functions reach
through them: the two heaps, the files and configuration, and the signals emitted so far. -/
structure SessionManager where
  _types : QHash String Ptr
  _sessions : List Ptr
  _defaultProfile : String
  _favorites : List String
  _loadedAllProfiles : Bool
  profiles : Heap Profile
  sessionObjects : Heap Session
  world : World
  emitted : List Signal
  deriving DecidableEq, Repr

namespace SessionManager

/-- The method `SessionManager::defaultProfile`. -/
def defaultProfile (s : SessionManager) : Ptr :=
  QHash.value s._types s._defaultProfile 0

/-- The method `SessionManager::defaultProfileKey`. -/
def defaultProfileKey (s : SessionManager) : String := s._defaultProfile

/-- The method `SessionManager::availableProfiles`. -/
def availableProfiles (s : SessionManager) : List String := QHash.keys s._types

/-- The method `SessionManager::profile`. -/
def profile (s : SessionManager) (key : String) : Ptr :=
  if QString.isEmpty key then defaultProfile s
  else if QHash.contains s._types key then QHash.value s._types key 0
  else 0

/-- The loop of `SessionManager::addProfile`: the first counter from `counter` on for which
`path + QString::number(counter)` is not a key; `fuel` bounds the number of iterations. -/
def addProfileCounter (types : QHash String Ptr) (path : String) : Nat → Nat → Option Nat
  | 0, _ => none
  | fuel + 1, counter =>
    if !QHash.contains types (path ++ QString.number counter) then some counter
    else addProfileCounter types path fuel (counter + 1)

/-- The method `SessionManager::addProfile`.  The loop is run for at most one iteration more
than there are entries, which is as far as it can get (`addProfileCounter_isSome`). -/
def addProfile (s : SessionManager) (type : Ptr) : Except Fault (String × SessionManager) := do
  let path ← Profile.path s.profiles type
  match addProfileCounter s._types path (QHash.count s._types + 1) 0 with
  | none => .error .diverges
  | some counter =>
    let key := path ++ QString.number counter
    let s1 := if QHash.isEmpty s._types then { s with _defaultProfile := key } else s
    pure (key, { s1 with _types := QHash.insert s1._types key type,
                         emitted := s1.emitted ++ [.profileAdded key] })

/-- The first loop of `SessionManager::loadProfile`: is there a registered profile whose
path is `path`? -/
def alreadyLoaded (h : Heap Profile) (path : String) : List (String × Ptr) → Except Fault Bool
  | [] => pure false
  | e :: rest => do
    let p ← Profile.path h e.2
    if p = path then pure true else alreadyLoaded h path rest

/-- The profile object `SessionManager::loadProfile` builds before it is registered:
`new Profile(defaultProfile())`, then `setProperty(Profile::Path, path)`, then
`KDE4ProfileReader::readProfile` on the file at `path`.  The first component is the result
of the reader. -/
def loadProfileRead (env : Platform) (s : SessionManager) (path : String) : Bool × Profile :=
  KDE4ProfileReader.readProfile env (QHash.value s.world.files path [])
    ((Profile.new (defaultProfile s)).setProperty .Path (.string path))

/-- The method `SessionManager::loadProfile`; the null string is the empty string.  No reader
is created for a path ending in `.desktop`. -/
def loadProfile (env : Platform) (s : SessionManager) (path : String) :
    Except Fault (String × SessionManager) := do
  let found ← alreadyLoaded s.profiles path s._types
  if found then pure ("", s)
  else if QString.endsWith path ".desktop" then pure ("", s)
  else
    let read := loadProfileRead env s path
    let newProfile := s.profiles.alloc read.2
    if read.1 then addProfile { s with profiles := newProfile.2 } newProfile.1
    else pure ("", { s with profiles := Heap.free newProfile.2 newProfile.1 })

/-- The constructor `SessionManager::SessionManager`, in the given world. -/
def new (env : Platform) (world : World) : Except Fault SessionManager := do
  let s0 : SessionManager :=
    { _types := [], _sessions := [], _defaultProfile := "", _favorites := [],
      _loadedAllProfiles := false, profiles := Heap.empty, sessionObjects := Heap.empty,
      world := world, emitted := [] }
  let (fallback, h) := s0.profiles.alloc (FallbackProfile.new env.shell)
  let (_, s1) ← addProfile { s0 with profiles := h } fallback
  let defaultSessionFilename := s1.world.appConfig.defaultProfile.getD "Shell.profile"
  let path := env.findResource ("konsole/" ++ defaultSessionFilename)
  if !(QString.isEmpty path) then
    let (key, s2) ← loadProfile env s1 path
    if !(QString.isEmpty key) then pure { s2 with _defaultProfile := key } else pure s2
  else pure s1

/-- The method `SessionManager::saveProfile`. -/
def saveProfile (env : Platform) (s : SessionManager) (path : String) (info : Ptr) :
    Except Fault SessionManager := do
  let newPath ← if QString.isEmpty path then KDE4ProfileWriter.getPath env s.profiles info else pure path
  let (_, config) ←
    KDE4ProfileWriter.writeProfile env s.profiles (QHash.value s.world.files newPath []) info
  pure { s with world := { s.world with files := QHash.insert s.world.files newPath config } }

/-- Does `applyProfile` push this property?  `!modifiedPropertiesOnly ||
info->isPropertySet(property)`. -/
def applies (h : Heap Profile) (info : Ptr) (modifiedPropertiesOnly : Bool)
    (property : Property) : Except Fault Bool :=
  if !modifiedPropertiesOnly then pure true else Profile.isPropertySetAt h info property

/-- The body of `SessionManager::applyProfile(Session*, const Profile*, bool)`: the setters
called on the session, in order, starting with `setType`. -/
def applyProfileFields (types : QHash String Ptr) (h : Heap Profile) (info : Ptr)
    (modifiedPropertiesOnly : Bool) (session : Session) : Except Fault Session := do
  let S := { session with type := QHash.key types info "" }
  let S ← if ← applies h info modifiedPropertiesOnly .Command then (do
      let v ← Profile.command h info
      pure { S with program := v })
    else pure S
  let S ← if ← applies h info modifiedPropertiesOnly .Arguments then (do
      let v ← Profile.arguments h info
      pure { S with arguments := v })
    else pure S
  let S ← if ← applies h info modifiedPropertiesOnly .Directory then (do
      let v ← Profile.defaultWorkingDirectory h info
      pure { S with initialWorkingDirectory := v })
    else pure S
  let S ← if ← applies h info modifiedPropertiesOnly .Icon then (do
      let v ← Profile.icon h info
      pure { S with iconName := v })
    else pure S
  let S ← if ← applies h info modifiedPropertiesOnly .KeyBindings then (do
      let v ← Profile.stringProperty h info .KeyBindings
      pure { S with keymap := v })
    else pure S
  let S ← if ← applies h info modifiedPropertiesOnly .LocalTabTitleFormat then (do
      let v ← Profile.stringProperty h info .LocalTabTitleFormat
      pure { S with localTabTitleFormat := v })
    else pure S
  let S ← if ← applies h info modifiedPropertiesOnly .RemoteTabTitleFormat then (do
      let v ← Profile.stringProperty h info .RemoteTabTitleFormat
      pure { S with remoteTabTitleFormat := v })
    else pure S
  pure S

/-- The method `SessionManager::applyProfile(Session*, const Profile*, bool)`, on the
session object at address `session`. -/
def applyProfileToSession (s : SessionManager) (session : Ptr) (info : Ptr)
    (modifiedPropertiesOnly : Bool) : Except Fault SessionManager := do
  let S ← s.sessionObjects.get session
  let S1 ← applyProfileFields s._types s.profiles info modifiedPropertiesOnly S
  pure { s with sessionObjects := s.sessionObjects.set session S1 }

/-- The loop of `SessionManager::applyProfile(const QString&, bool)` over the sessions. -/
def applyProfileLoop (key : String) (info : Ptr) (modifiedPropertiesOnly : Bool) :
    SessionManager → List Ptr → Except Fault SessionManager
  | s, [] => pure s
  | s, next :: rest => do
    let S ← s.sessionObjects.get next
    let s1 ← if S.type = key then applyProfileToSession s next info modifiedPropertiesOnly
      else pure s
    applyProfileLoop key info modifiedPropertiesOnly s1 rest

/-- The method `SessionManager::applyProfile(const QString&, bool)`. -/
def applyProfile (s : SessionManager) (key : String) (modifiedPropertiesOnly : Bool) :
    Except Fault SessionManager :=
  applyProfileLoop key (profile s key) modifiedPropertiesOnly s s._sessions

/-- The loop of `SessionManager::changeProfile`: one `setProperty` for each key of the map. -/
def changeProfileLoop (propertyMap : QHash Property QVariant) (info : Ptr) :
    Heap Profile → List Property → Except Fault (Heap Profile)
  | h, [] => pure h
  | h, property :: rest => do
    let h1 ← Profile.setPropertyAt h info property (QHash.value propertyMap property .invalid)
    changeProfileLoop propertyMap info h1 rest

/-- The method `SessionManager::changeProfile`. -/
def changeProfile (env : Platform) (s : SessionManager) (key : String)
    (propertyMap : QHash Property QVariant) : Except Fault SessionManager := do
  let info := profile s key
  if info = 0 || QString.isEmpty key then pure s
  else
    let _ ← Profile.name s.profiles info
    let h ← changeProfileLoop propertyMap info s.profiles (QHash.keys propertyMap)
    let s1 := { s with profiles := h }
    let _ ← Profile.name s1.profiles info
    let s2 ← applyProfile s1 key true
    let s3 := { s2 with emitted := s2.emitted ++ [.profileChanged key] }
    if ← Profile.isPropertySetAt s3.profiles info .Path then
      let p ← Profile.path s3.profiles info
      saveProfile env s3 p info
    else
      saveProfile env s3 "" info

/-- The loop of `SessionManager::saveFavorites`: the path of every favourite. -/
def favoritePaths (s : SessionManager) : List String → Except Fault (List String)
  | [] => pure []
  | key :: rest => do
    let p ← Profile.path s.profiles (profile s key)
    let ps ← favoritePaths s rest
    pure (p :: ps)

/-- The method `SessionManager::saveFavorites`. -/
def saveFavorites (s : SessionManager) : Except Fault SessionManager := do
  let paths ← favoritePaths s s._favorites
  pure { s with world := { s.world with
    appConfig := { s.world.appConfig with favorites := some paths } } }

/-- The method `SessionManager::setFavorite`. -/
def setFavorite (s : SessionManager) (key : String) (favorite : Bool) :
    Except Fault SessionManager :=
  if favorite && !s._favorites.contains key then
    saveFavorites { s with _favorites := key :: s._favorites,
                           emitted := s.emitted ++ [.favoriteStatusChanged key favorite] }
  else if !favorite && s._favorites.contains key then
    saveFavorites { s with _favorites := s._favorites.filter (fun k => !decide (k = key)),
                           emitted := s.emitted ++ [.favoriteStatusChanged key favorite] }
  else pure s

/-- The method `SessionManager::setDefaultProfile`. -/
def setDefaultProfile (s : SessionManager) (key : String) : Except Fault SessionManager := do
  let s1 := { s with _defaultProfile := key }
  let info := profile s1 key
  let p ← Profile.path s1.profiles info
  pure { s1 with world := { s1.world with
    appConfig := { s1.world.appConfig with defaultProfile := some (QFileInfo.fileName p) } } }

/-- The block of `SessionManager::deleteProfile` that tries to delete the configuration file
of the profile at `type`. -/
def deleteProfileFile (s : SessionManager) (type : Ptr) : Except Fault SessionManager := do
  let P ← s.profiles.get type
  if P.isPropertySet .Path then
    let p ← Profile.path s.profiles type
    if QHash.contains s.world.files p && !s.world.undeletable.contains p then
      pure { s with world := { s.world with files := QHash.remove s.world.files p } }
    else pure s
  else pure s

/-- The block `if ( type ) { ... }` of `SessionManager::deleteProfile`: the file is deleted,
the key is removed from `_types` and the profile object is deleted. -/
def deleteProfileRemove (s : SessionManager) (key : String) (type : Ptr) :
    Except Fault SessionManager :=
  if type ≠ 0 then do
    let s1 ← deleteProfileFile s type
    pure { s1 with _types := QHash.remove s1._types key, profiles := s1.profiles.free type }
  else pure s

/-- The block `if ( wasDefault ) { ... }` of `SessionManager::deleteProfile`: the default
becomes `_types.keys().first()`. -/
def deleteProfileDefault (s : SessionManager) (wasDefault : Bool) :
    Except Fault SessionManager :=
  if wasDefault then
    match QHash.keys s._types with
    | [] => .error .firstOfEmptyList
    | first :: _ => setDefaultProfile s first
  else pure s

/-- The method `SessionManager::deleteProfile`. -/
def deleteProfile (s : SessionManager) (key : String) : Except Fault SessionManager := do
  let type := profile s key
  let s1 ← setFavorite s key false
  let wasDefault := decide (type = defaultProfile s1)
  let s2 ← deleteProfileRemove s1 key type
  let s3 ← deleteProfileDefault s2 wasDefault
  pure { s3 with emitted := s3.emitted ++ [.profileRemoved key] }

/-- The method `SessionManager::createSession`; the non-const `_types[key]` inserts a null
entry for an absent key. -/
def createSession (s : SessionManager) (key : String) : Except Fault (Ptr × SessionManager) := do
  let (info, s1) :=
    if QString.isEmpty key then (defaultProfile s, s)
    else if QHash.contains s._types key then (QHash.value s._types key 0, s)
    else (0, { s with _types := QHash.insert s._types key 0 })
  let (session, h) := s1.sessionObjects.alloc { Session.new with type := key }
  let s2 ← applyProfileToSession { s1 with sessionObjects := h } session info false
  pure (session, { s2 with _sessions := s2._sessions ++ [session] })

/-- The first loop of `SessionManager::loadFavorites`: favourites among the profiles
already loaded. -/
def loadFavoritesLoaded (h : Heap Profile) :
    List (String × Ptr) → List String → List String → Except Fault (List String × List String)
  | [], favorites, favoriteSet => pure (favorites, favoriteSet)
  | e :: rest, favorites, favoriteSet => do
    let p ← Profile.path h e.2
    if favoriteSet.contains p then
      loadFavoritesLoaded h rest (if favorites.contains e.1 then favorites else e.1 :: favorites)
        (favoriteSet.filter (fun q => !decide (q = p)))
    else loadFavoritesLoaded h rest favorites favoriteSet

/-- The second loop of `SessionManager::loadFavorites`: load the remaining favourites. -/
def loadFavoritesRemaining (env : Platform) :
    SessionManager → List String → Except Fault SessionManager
  | s, [] => pure s
  | s, p :: rest => do
    let (key, s1) ← loadProfile env s p
    let s2 := if !(QString.isEmpty key) && !s1._favorites.contains key then
        { s1 with _favorites := key :: s1._favorites } else s1
    loadFavoritesRemaining env s2 rest

/-- The method `SessionManager::loadFavorites`. -/
def loadFavorites (env : Platform) (s : SessionManager) : Except Fault SessionManager :=
  match s.world.appConfig.favorites with
  | none => pure s
  | some list => do
    let (favorites, favoriteSet) ←
      loadFavoritesLoaded s.profiles s._types s._favorites list.eraseDups
    loadFavoritesRemaining env { s with _favorites := favorites } favoriteSet

/-- The method `SessionManager::findFavorites`. -/
def findFavorites (env : Platform) (s : SessionManager) :
    Except Fault (List String × SessionManager) := do
  let s1 ← if s._favorites.isEmpty then loadFavorites env s else pure s
  pure (s1._favorites, s1)

/-- The registry in the middle of the constructor, after `addProfile( new FallbackProfile )`:
the fallback at address 1 under the key `0`, which is the default. -/
def fallbackOnly (shell : String) (world : World) : SessionManager :=
  { _types := [("0", 1)], _sessions := [], _defaultProfile := "0", _favorites := [],
    _loadedAllProfiles := false,
    profiles := ⟨[(1, FallbackProfile.new shell)], 1⟩,
    sessionObjects := Heap.empty, world := world, emitted := [.profileAdded "0"] }

/-- The path at which the constructor looks for the stored default profile. -/
def storedDefaultPath (env : Platform) (world : World) : String :=
  env.findResource ("konsole/" ++ world.appConfig.defaultProfile.getD "Shell.profile")

/-- Does the constructor load a stored default profile?  It does when a path is found, the
path does not end in `.desktop` and the file there has a `Name` in group `General`. -/
def loadsStoredDefault (env : Platform) (world : World) : Bool :=
  !(QString.isEmpty (storedDefaultPath env world)) &&
    !(QString.endsWith (storedDefaultPath env world) ".desktop") &&
    KConfig.hasKey (QHash.value world.files (storedDefaultPath env world) []) "General" "Name"

/-- The registry states a program can reach: the constructed registry, then any sequence of
`new Profile` by a caller, `addProfile`, `loadProfile`, `changeProfile`, `setFavorite`,
`setDefaultProfile` with a key of the mapping, and `deleteProfile`, each call having
returned. -/
inductive Reachable (env : Platform) (world : World) : SessionManager → Prop where
  | constructed (s : SessionManager) :
      SessionManager.new env world = .ok s → Reachable env world s
  | newProfile (s : SessionManager) (P : Profile) :
      Reachable env world s →
      Reachable env world { s with profiles := (s.profiles.alloc P).2 }
  | addProfile (s s' : SessionManager) (type : Ptr) (key : String) :
      Reachable env world s → addProfile s type = .ok (key, s') → Reachable env world s'
  | loadProfile (s s' : SessionManager) (path key : String) :
      Reachable env world s → loadProfile env s path = .ok (key, s') → Reachable env world s'
  | changeProfile (s s' : SessionManager) (key : String)
      (propertyMap : QHash Property QVariant) :
      Reachable env world s → changeProfile env s key propertyMap = .ok s' →
      Reachable env world s'
  | setFavorite (s s' : SessionManager) (key : String) (favorite : Bool) :
      Reachable env world s → setFavorite s key favorite = .ok s' → Reachable env world s'
  | setDefaultProfile (s s' : SessionManager) (key : String) :
      Reachable env world s → QHash.contains s._types key = true →
      setDefaultProfile s key = .ok s' → Reachable env world s'
  | deleteProfile (s s' : SessionManager) (key : String) :
      Reachable env world s → deleteProfile s key = .ok s' → Reachable env world s'

end SessionManager

/-! ## Concrete registries -/

namespace Example

/-- A platform on which the constructor finds no stored default profile. -/
def platform : Platform :=
  { shell := "/bin/sh",
    findResource := fun _ => "",
    saveLocation := "/home/user/.kde/share/apps/konsole/",
    shellCommandCommand := fun c => c,
    shellCommandArguments := fun c => [c],
    shellCommandFullCommand := fun c _ => c }

/-- A world without files and without stored configuration. -/
def world : World := { files := [], undeletable := [], appConfig := ⟨none, none⟩ }

/-- A platform on which every resource is found under `/usr/share/apps/`. -/
def platformStored : Platform :=
  { platform with findResource := fun name => "/usr/share/apps/" ++ name }

/-- A world in which the stored default profile `Shell.profile` exists, with the name
`Stored`. -/
def worldStored : World :=
  { files := [("/usr/share/apps/konsole/Shell.profile", [(("General", "Name"), "Stored")])],
    undeletable := [],
    appConfig := ⟨none, none⟩ }

/-- The registry the constructor builds on `platform` in `world`: the fallback alone. -/
def fresh : SessionManager :=
  { _types := [("0", 1)], _sessions := [], _defaultProfile := "0", _favorites := [],
    _loadedAllProfiles := false,
    profiles := ⟨[(1, FallbackProfile.new "/bin/sh")], 1⟩,
    sessionObjects := Heap.empty, world := world, emitted := [.profileAdded "0"] }

/-- The profile of the end-to-end scenario: not hidden, with location `/x/a.profile`, a
child of the fallback. -/
def profileA : Profile := (Profile.new 1).setProperty .Path (.string "/x/a.profile")

/-- The fresh registry after the caller has allocated `profileA`, at address 2. -/
def allocatedA : SessionManager := { fresh with profiles := (fresh.profiles.alloc profileA).2 }

/-- The registry after `addProfile` of `profileA`. -/
def withA : SessionManager :=
  { allocatedA with
    _types := [("/x/a.profile0", 2), ("0", 1)],
    emitted := [.profileAdded "0", .profileAdded "/x/a.profile0"] }

/-- The registry `withA` after `deleteProfile("0")`. -/
def onlyA : SessionManager :=
  { withA with
    _types := [("/x/a.profile0", 2)],
    _defaultProfile := "/x/a.profile0",
    profiles := ⟨[(2, profileA)], 2⟩,
    world := { world with appConfig := ⟨some "a.profile", none⟩ },
    emitted := [.profileAdded "0", .profileAdded "/x/a.profile0", .profileRemoved "0"] }

/-- The registry `withA` after `deleteProfile("")`: both keys are still there, the object of
the fallback is not. -/
def afterEmptyKey : SessionManager :=
  { withA with
    _defaultProfile := "/x/a.profile0",
    profiles := ⟨[(2, profileA)], 2⟩,
    world := { world with appConfig := ⟨some "a.profile", none⟩ },
    emitted := [.profileAdded "0", .profileAdded "/x/a.profile0", .profileRemoved ""] }

/-- The registry the constructor builds on `platformStored` in `worldStored`: the fallback
and the stored default profile, which is the default. -/
def freshStored : SessionManager :=
  { _types := [("/usr/share/apps/konsole/Shell.profile0", 2), ("0", 1)], _sessions := [],
    _defaultProfile := "/usr/share/apps/konsole/Shell.profile0", _favorites := [],
    _loadedAllProfiles := false,
    profiles := ⟨[(2, ((Profile.new 1).setProperty .Path
        (.string "/usr/share/apps/konsole/Shell.profile")).setProperty .Name (.string "Stored")),
      (1, FallbackProfile.new "/bin/sh")], 2⟩,
    sessionObjects := Heap.empty, world := worldStored,
    emitted := [.profileAdded "0", .profileAdded "/usr/share/apps/konsole/Shell.profile0"] }

/-- The registry `freshStored` after the caller has allocated `profileA`, at address 3. -/
def allocatedAStored : SessionManager :=
  { freshStored with profiles := (freshStored.profiles.alloc profileA).2 }

/-- The registry `allocatedAStored` after `addProfile` of `profileA`. -/
def withAStored : SessionManager :=
  { allocatedAStored with
    _types := [("/x/a.profile0", 3), ("/usr/share/apps/konsole/Shell.profile0", 2), ("0", 1)],
    emitted := [.profileAdded "0", .profileAdded "/usr/share/apps/konsole/Shell.profile0",
      .profileAdded "/x/a.profile0"] }

end Example

/-! ## The names of the properties -/

/-- Modelled from the spec: the value-initialised `Profile::Property`, that is the
enumerator with value 0; which enumerator that is, is fixed by `SessionManager.h`. -/
def Property.zero : Property := .Path

namespace Profile

/-- The method `Profile::isNameRegistered`; the static member `_propertyNames` is passed
explicitly. -/
def isNameRegistered (_propertyNames : QHash String Property) (name : String) : Bool :=
  QHash.contains _propertyNames name

/-- The method `Profile::lookupByName`: the non-const `_propertyNames[name]`, which inserts
a default-constructed value for a name that is not a key.  The second component is
`_propertyNames` after the call. -/
def lookupByName (_propertyNames : QHash String Property) (name : String) :
    Property × QHash String Property :=
  if QHash.contains _propertyNames name then
    (QHash.value _propertyNames name Property.zero, _propertyNames)
  else
    (Property.zero, QHash.insert _propertyNames name Property.zero)

/-- The method `Profile::namesForProperty`: `_propertyNames.keys(property)`. -/
def namesForProperty (_propertyNames : QHash String Property) (property : Property) :
    List String :=
  (_propertyNames.filter (fun e => decide (e.2 = property))).map Prod.fst

/-- The method `Profile::registerName`; the result is `_propertyNames` after the call. -/
def registerName (_propertyNames : QHash String Property) (property : Property)
    (name : String) : QHash String Property :=
  QHash.insert _propertyNames name property

/-- The names in `_propertyNames` after a sequence of `registerName` calls on the empty
mapping, first call first. -/
def registerNames (calls : List (Property × String)) : QHash String Property :=
  calls.foldl (fun names c => registerName names c.1 c.2) []

end Profile

namespace SessionManager

/-- What `applyProfile(Session*, const Profile*, bool)` leaves in a session: `local` tells
which properties are locally set on the profile, `resolved` gives the value `property`
returns for each. -/
def boundSession (types : QHash String Ptr) (info : Ptr) (isSet : Property → Bool)
    (resolved : Property → QVariant) (modifiedPropertiesOnly : Bool) (S : Session) : Session :=
  { type := QHash.key types info "",
    program := if !modifiedPropertiesOnly || isSet .Command then
      (resolved .Command).toQString else S.program,
    arguments := if !modifiedPropertiesOnly || isSet .Arguments then
      (resolved .Arguments).toQStringList else S.arguments,
    initialWorkingDirectory := if !modifiedPropertiesOnly || isSet .Directory then
      (resolved .Directory).toQString else S.initialWorkingDirectory,
    iconName := if !modifiedPropertiesOnly || isSet .Icon then
      (resolved .Icon).toQString else S.iconName,
    keymap := if !modifiedPropertiesOnly || isSet .KeyBindings then
      (resolved .KeyBindings).toQString else S.keymap,
    localTabTitleFormat := if !modifiedPropertiesOnly || isSet .LocalTabTitleFormat then
      (resolved .LocalTabTitleFormat).toQString else S.localTabTitleFormat,
    remoteTabTitleFormat := if !modifiedPropertiesOnly || isSet .RemoteTabTitleFormat then
      (resolved .RemoteTabTitleFormat).toQString else S.remoteTabTitleFormat }

end SessionManager

/-- The entries `KDE4ProfileWriter::writeProfile` writes for a profile on which `isSet` tells
the locally set properties and `resolved` gives what `property` returns. -/
def KDE4ProfileWriter.entriesOf (env : Platform) (isSet : Property → Bool)
    (resolved : Property → QVariant) : List ((String × String) × String) :=
  (if isSet .Name then [(("General", "Name"), (resolved .Name).toQString)] else []) ++
  (if isSet .Command || isSet .Arguments then
    [(("General", "Command"), env.shellCommandFullCommand (resolved .Command).toQString
      (resolved .Arguments).toQStringList)] else []) ++
  (if isSet .Icon then [(("General", "Icon"), (resolved .Icon).toQString)] else []) ++
  (if isSet .LocalTabTitleFormat then
    [(("General", "LocalTabTitleFormat"), (resolved .LocalTabTitleFormat).toQString)]
    else []) ++
  (if isSet .RemoteTabTitleFormat then
    [(("General", "RemoteTabTitleFormat"), (resolved .RemoteTabTitleFormat).toQString)]
    else []) ++
  (if isSet .ColorScheme then
    [(("Appearence", "ColorScheme"), (resolved .ColorScheme).toQString)] else []) ++
  (if isSet .Font then [(("Appearence", "Font"), (resolved .Font).toQString)] else [])

/-- The entries a profile would write if every value came from its own property map. -/
def KDE4ProfileWriter.localEntries (env : Platform) (P : Profile) :
    List ((String × String) × String) :=
  KDE4ProfileWriter.entriesOf env P.isPropertySet
    (fun x => QHash.value P._propertyValues x .invalid)

/-! ## Example states with sessions -/

namespace Example

/-- The registry `fresh` after `createSession("0")`: one session, at address 1, bound to the
fallback. -/
def withSession : SessionManager :=
  { fresh with
    _sessions := [1],
    sessionObjects := ⟨[(1, { Session.new with
      type := "0", program := "/bin/sh", arguments := ["/bin/sh"] })], 1⟩ }

/-- The registry `withSession` after the caller has pointed the session at another program
with `Session::setProgram("/usr/bin/top")`. -/
def withProgram : SessionManager :=
  { withSession with
    sessionObjects := withSession.sessionObjects.set 1 { Session.new with
      type := "0", program := "/usr/bin/top", arguments := ["/bin/sh"] } }

/-- The registry `withA` after a second `addProfile` of the same profile object: the object
at address 2 is now registered under two keys. -/
def twiceA : SessionManager :=
  { withA with
    _types := [("/x/a.profile1", 2), ("/x/a.profile0", 2), ("0", 1)],
    emitted := [.profileAdded "0", .profileAdded "/x/a.profile0",
      .profileAdded "/x/a.profile1"] }

/-- The registry `twiceA` with the two keys of the object at address 2 met in the other
order. -/
def twiceASwapped : SessionManager :=
  { twiceA with _types := [("/x/a.profile0", 2), ("/x/a.profile1", 2), ("0", 1)] }

/-- The registry `fresh` after the caller has allocated a child of the fallback with no
property of its own, at address 2. -/
def allocatedB : SessionManager :=
  { fresh with profiles := (fresh.profiles.alloc (Profile.new 1)).2 }

/-- The registry `allocatedB` after `addProfile` of the new profile: it inherits the empty
location of the fallback, so its key is `1`. -/
def withB : SessionManager :=
  { allocatedB with
    _types := [("1", 2), ("0", 1)],
    emitted := [.profileAdded "0", .profileAdded "1"] }

/-- The registry `withB` with the two entries of the mapping met in the other order. -/
def withBSwapped : SessionManager := { withB with _types := [("0", 1), ("1", 2)] }

/-- The registry `withA` after `setFavorite("/x/a.profile0", true)`. -/
def favoriteA : SessionManager :=
  { withA with
    _favorites := ["/x/a.profile0"],
    world := { world with appConfig := ⟨none, some ["/x/a.profile"]⟩ },
    emitted := [.profileAdded "0", .profileAdded "/x/a.profile0",
      .favoriteStatusChanged "/x/a.profile0" true] }

/-- A platform on which `ShellCommand(command, arguments).fullCommand()` is the command
followed by the arguments after the first, with blanks between them. -/
def platformJoin : Platform :=
  { platform with
    shellCommandFullCommand := fun command arguments =>
      String.intercalate " " (command :: arguments.tail) }

/-- A heap with two parents that differ in `Arguments`, at addresses 1 and 2, and two
children with the same property map, `Command` alone, at addresses 3 and 4. -/
def twoParents : Heap Profile :=
  ⟨[(4, (Profile.new 2).setProperty .Command (.string "/bin/zsh")),
    (3, (Profile.new 1).setProperty .Command (.string "/bin/zsh")),
    (2, (FallbackProfile.new "/bin/sh").setProperty .Arguments
      (.stringList ["/bin/sh", "-l"])),
    (1, FallbackProfile.new "/bin/sh")], 4⟩

/-- A profile with `Name`, `Command` and `Arguments` of its own, child of the profile at
address 1. -/
def profileZsh : Profile :=
  (((Profile.new 1).setProperty .Name (.string "Z")).setProperty
    .Command (.string "/bin/zsh")).setProperty .Arguments (.stringList ["/bin/zsh", "-l"])

end Example

namespace SessionManager

/-- The registry states a program can reach when favourites are marked on keys of the
mapping only: the constructed registry, then any sequence of `new Profile` by a caller,
`addProfile`, `loadProfile`, `setFavorite` with a key of the mapping, `loadFavorites`,
`findFavorites`, `changeProfile`, `setDefaultProfile`, `createSession` and `deleteProfile`,
each call having returned. -/
inductive ReachableFavorites (env : Platform) (world : World) : SessionManager → Prop where
  | constructed (s : SessionManager) :
      SessionManager.new env world = .ok s → ReachableFavorites env world s
  | newProfile (s : SessionManager) (P : Profile) :
      ReachableFavorites env world s →
      ReachableFavorites env world { s with profiles := (s.profiles.alloc P).2 }
  | addProfile (s s' : SessionManager) (type : Ptr) (key : String) :
      ReachableFavorites env world s → addProfile s type = .ok (key, s') →
      ReachableFavorites env world s'
  | loadProfile (s s' : SessionManager) (path key : String) :
      ReachableFavorites env world s → loadProfile env s path = .ok (key, s') →
      ReachableFavorites env world s'
  | setFavorite (s s' : SessionManager) (key : String) (favorite : Bool) :
      ReachableFavorites env world s → QHash.contains s._types key = true →
      setFavorite s key favorite = .ok s' → ReachableFavorites env world s'
  | loadFavorites (s s' : SessionManager) :
      ReachableFavorites env world s → loadFavorites env s = .ok s' →
      ReachableFavorites env world s'
  | findFavorites (s s' : SessionManager) (favorites : List String) :
      ReachableFavorites env world s → findFavorites env s = .ok (favorites, s') →
      ReachableFavorites env world s'
  | changeProfile (s s' : SessionManager) (key : String)
      (propertyMap : QHash Property QVariant) :
      ReachableFavorites env world s → changeProfile env s key propertyMap = .ok s' →
      ReachableFavorites env world s'
  | setDefaultProfile (s s' : SessionManager) (key : String) :
      ReachableFavorites env world s → setDefaultProfile s key = .ok s' →
      ReachableFavorites env world s'
  | createSession (s s' : SessionManager) (key : String) (session : Ptr) :
      ReachableFavorites env world s → createSession s key = .ok (session, s') →
      ReachableFavorites env world s'
  | deleteProfile (s s' : SessionManager) (key : String) :
      ReachableFavorites env world s → deleteProfile s key = .ok s' →
      ReachableFavorites env world s'

end SessionManager

/-! ## Example profiles with a colour scheme -/

namespace Example

/-- A profile with `Name` and `ColorScheme` of its own, child of the profile at address 1. -/
def profileLinux : Profile :=
  ((Profile.new 1).setProperty .Name (.string "Dark")).setProperty
    .ColorScheme (.string "Linux")

/-- The heap of `fresh` with `profileLinux` allocated at address 2. -/
def withLinux : Heap Profile := (fresh.profiles.alloc profileLinux).2

end Example

/-! ## Lemmas on the containers and the heap -/

theorem QHash.lookup_cons_if {κ ν : Type} [DecidableEq κ] (t : List (κ × ν)) (k j : κ) (v : ν) :
    List.lookup j ((k, v) :: t) = if j = k then some v else List.lookup j t := by
  by_cases h : j = k
  · subst h
    rw [List.lookup_cons, beq_self_eq_true]
    simp
  · rw [List.lookup_cons, beq_eq_false_iff_ne.mpr h]
    simp [h]

theorem QHash.lookup_remove_self {κ ν : Type} [DecidableEq κ] (h : QHash κ ν) (k : κ) :
    List.lookup k (QHash.remove h k) = none := by
  induction h with
  | nil => rfl
  | cons e t ih =>
    obtain ⟨a, b⟩ := e
    by_cases hk : a = k
    · simpa [QHash.remove, List.filter_cons, hk] using ih
    · have hk2 : ¬ k = a := fun h => hk h.symm
      simp only [QHash.remove] at ih
      simp [QHash.remove, List.filter_cons, hk, QHash.lookup_cons_if, hk2, ih]

theorem QHash.lookup_remove_ne {κ ν : Type} [DecidableEq κ] (h : QHash κ ν) {k j : κ}
    (hjk : j ≠ k) : List.lookup j (QHash.remove h k) = List.lookup j h := by
  induction h with
  | nil => rfl
  | cons e t ih =>
    obtain ⟨a, b⟩ := e
    simp only [QHash.remove] at ih
    by_cases hk : a = k
    · have hj : ¬ j = a := fun h => hjk (h.trans hk)
      simp [QHash.remove, List.filter_cons, hk, QHash.lookup_cons_if, hjk, ih]
    · by_cases hj : j = a
      · simp [QHash.remove, List.filter_cons, hk, QHash.lookup_cons_if, hj]
      · simp [QHash.remove, List.filter_cons, hk, QHash.lookup_cons_if, hj, ih]

theorem QHash.lookup_insert_self {κ ν : Type} [DecidableEq κ] (h : QHash κ ν) (k : κ) (v : ν) :
    List.lookup k (QHash.insert h k v) = some v := by
  simp [QHash.insert, QHash.lookup_cons_if]

theorem QHash.lookup_insert_ne {κ ν : Type} [DecidableEq κ] (h : QHash κ ν) {k j : κ} (v : ν)
    (hjk : j ≠ k) : List.lookup j (QHash.insert h k v) = List.lookup j h := by
  simp [QHash.insert, QHash.lookup_cons_if, hjk, QHash.lookup_remove_ne h hjk]

theorem QHash.contains_iff_mem_keys {κ ν : Type} [DecidableEq κ] (h : QHash κ ν) (k : κ) :
    QHash.contains h k = true ↔ k ∈ QHash.keys h := by
  induction h with
  | nil => simp [QHash.contains, QHash.keys]
  | cons e t ih =>
    obtain ⟨a, b⟩ := e
    simp only [QHash.contains, QHash.keys] at ih
    by_cases hk : k = a
    · simp [QHash.contains, QHash.keys, QHash.lookup_cons_if, hk]
    · simp [QHash.contains, QHash.keys, QHash.lookup_cons_if, hk, ih]

theorem QHash.keys_remove {κ ν : Type} [DecidableEq κ] (h : QHash κ ν) (k j : κ) :
    j ∈ QHash.keys (QHash.remove h k) ↔ j ∈ QHash.keys h ∧ j ≠ k := by
  simp only [QHash.keys, QHash.remove, List.mem_map, List.mem_filter]
  constructor
  · rintro ⟨e, ⟨he, hne⟩, rfl⟩
    exact ⟨⟨e, he, rfl⟩, by simpa using hne⟩
  · rintro ⟨⟨e, he, rfl⟩, hne⟩
    exact ⟨e, ⟨he, by simpa using hne⟩, rfl⟩

theorem QHash.keys_insert {κ ν : Type} [DecidableEq κ] (h : QHash κ ν) (k j : κ) (v : ν) :
    j ∈ QHash.keys (QHash.insert h k v) ↔ j = k ∨ j ∈ QHash.keys h := by
  have h1 := QHash.keys_remove h k j
  simp only [QHash.keys] at h1
  simp only [QHash.insert, QHash.keys, List.map_cons, List.mem_cons, h1]
  by_cases hjk : j = k
  · simp [hjk]
  · simp [hjk]

theorem Heap.get_ok_mem {α : Type} (h : Heap α) (p : Ptr) (a : α) (hg : h.get p = .ok a) :
    p ∈ h.cells.map Prod.fst := by
  unfold Heap.get at hg
  split at hg
  · cases hg
  · split at hg
    · rename_i b hb
      have : QHash.contains h.cells p = true := by simp [QHash.contains, hb]
      exact (QHash.contains_iff_mem_keys h.cells p).mp this
    · cases hg

theorem Heap.get_error {α : Type} (h : Heap α) (p : Ptr) (f : Fault) (hg : h.get p = .error f) :
    f = .nullDereference := by
  unfold Heap.get at hg
  split at hg
  · cases hg; rfl
  · split at hg
    · cases hg
    · cases hg; rfl

theorem Heap.lookup_set {α : Type} (cells : List (Ptr × α)) (p r : Ptr) (a : α) :
    List.lookup r (cells.map (fun c => if c.1 = p then (p, a) else c)) =
      if r = p then (List.lookup p cells).map (fun _ => a) else List.lookup r cells := by
  induction cells with
  | nil => simp
  | cons e t ih =>
    obtain ⟨k, b⟩ := e
    by_cases hk : k = p
    · by_cases hr : r = p
      · simp [hk, hr, QHash.lookup_cons_if]
      · simp [hk, hr, QHash.lookup_cons_if, ih]
    · by_cases hr : r = p
      · have hpk : ¬ p = k := fun h => hk h.symm
        subst hr
        simp only [if_true] at ih
        simp [hk, QHash.lookup_cons_if, hpk, ih]
      · by_cases hrk : r = k
        · simp [hk, hr, QHash.lookup_cons_if, hrk]
        · simp [hk, hr, QHash.lookup_cons_if, hrk, ih]

theorem Heap.get_set_self {α : Type} (h : Heap α) (p : Ptr) (a b : α) (hg : h.get p = .ok b) :
    (h.set p a).get p = .ok a := by
  unfold Heap.get at hg ⊢
  by_cases hp : p = 0
  · simp [hp] at hg
  · simp only [hp, if_false] at hg ⊢
    simp only [Heap.set, Heap.lookup_set, if_true]
    cases hl : List.lookup p h.cells with
    | none => simp [hl] at hg
    | some c => simp

theorem Heap.get_set_ne {α : Type} (h : Heap α) (p r : Ptr) (a : α) (hr : r ≠ p) :
    (h.set p a).get r = h.get r := by
  unfold Heap.get
  simp only [Heap.set, Heap.lookup_set, hr, if_false]

theorem Heap.length_set {α : Type} (h : Heap α) (p : Ptr) (a : α) :
    (h.set p a).cells.length = h.cells.length := by
  simp [Heap.set]

/-! ## Profile: lookup through the parent chain -/

theorem Profile.propertyFuel_succ_of_returns (h : Heap Profile) (x : Property) :
    ∀ (n : Nat) (p : Ptr) (r : Except Fault QVariant),
      Profile.propertyFuel h n p x = r → r ≠ .error .diverges →
      Profile.propertyFuel h (n + 1) p x = r := by
  intro n
  induction n with
  | zero =>
    intro p r hr hne
    exact absurd hr.symm hne
  | succ n ih =>
    intro p r hr hne
    rw [Profile.propertyFuel] at hr ⊢
    cases hg : h.get p with
    | error f => simpa [hg] using hr
    | ok P =>
      simp only [hg] at hr ⊢
      by_cases hc : QHash.contains P._propertyValues x = true
      · simpa [hc] using hr
      · by_cases hp : P._parent = 0
        · simpa [hc, hp] using hr
        · simp only [hc, hp, ne_eq, not_false_eq_true, if_true, if_false] at hr ⊢
          exact ih _ _ hr hne

theorem Profile.propertyFuel_chain (h : Heap Profile) (x : Property)
    (r : Except Fault QVariant) (hne : r ≠ .error .diverges) :
    ∀ (n : Nat) (p : Ptr),
      Profile.propertyFuel h (n + 1) p x = r →
      Profile.propertyFuel h n p x = .error .diverges →
      ∃ L : List Ptr, L.length = n ∧ L.Nodup ∧
        ∀ a ∈ L, a ∈ h.cells.map Prod.fst ∧ Profile.propertyFuel h (n + 1) a x = r := by
  intro n
  induction n with
  | zero =>
    intro p _ _
    exact ⟨[], rfl, List.nodup_nil, by simp⟩
  | succ n ih =>
    intro p h1 h0
    have h1c := h1
    rw [Profile.propertyFuel] at h1 h0
    cases hg : h.get p with
    | error f =>
      simp only [hg] at h0
      have := Heap.get_error h p f hg
      subst this
      cases h0
    | ok P =>
      simp only [hg] at h1 h0
      by_cases hc : QHash.contains P._propertyValues x = true
      · simp [hc] at h0
      · by_cases hp : P._parent = 0
        · simp [hc, hp] at h0
        · simp only [hc, hp, ne_eq, not_false_eq_true, if_true, if_false] at h1 h0
          obtain ⟨L, hlen, hnd, hL⟩ := ih P._parent h1 h0
          refine ⟨p :: L, by simp [hlen], ?_, ?_⟩
          · refine List.nodup_cons.mpr ⟨?_, hnd⟩
            intro hmem
            have h2 := (hL p hmem).2
            have h3 : Profile.propertyFuel h (n + 1) p x = .error .diverges := by
              rw [Profile.propertyFuel]
              simp only [hg, hc, hp, ne_eq, not_false_eq_true, if_true, if_false]
              exact h0
            rw [h3] at h2
            exact hne h2.symm
          · intro a ha
            rcases List.mem_cons.mp ha with rfl | ha
            · exact ⟨Heap.get_ok_mem h a P hg, h1c⟩
            · exact ⟨(hL a ha).1,
                Profile.propertyFuel_succ_of_returns h x _ _ _ (hL a ha).2 hne⟩

/-- Beyond one call more than there are objects, a larger bound on the depth of
`Profile::property` changes nothing. -/
theorem Profile.propertyFuel_succ (h : Heap Profile) (x : Property) (n : Nat) (p : Ptr)
    (hn : h.cells.length + 1 ≤ n) :
    Profile.propertyFuel h n p x = Profile.propertyFuel h (n + 1) p x := by
  by_cases h0 : Profile.propertyFuel h n p x = .error .diverges
  · by_cases h1 : Profile.propertyFuel h (n + 1) p x = .error .diverges
    · rw [h0, h1]
    · exfalso
      obtain ⟨L, hlen, hnd, hL⟩ := Profile.propertyFuel_chain h x _ h1 n p rfl h0
      have hsub : L ⊆ h.cells.map Prod.fst := fun a ha => (hL a ha).1
      have hle := (List.subperm_of_subset hnd hsub).length_le
      simp only [List.length_map] at hle
      omega
  · exact (Profile.propertyFuel_succ_of_returns h x n p _ rfl h0).symm

theorem Profile.propertyFuel_set_other (h : Heap Profile) (p : Ptr) (P : Profile)
    (x y : Property) (v : QVariant) (hP : h.get p = .ok P) (hy : y ≠ x) :
    ∀ (n : Nat) (r : Ptr),
      Profile.propertyFuel (h.set p (P.setProperty x v)) n r y = Profile.propertyFuel h n r y := by
  intro n
  induction n with
  | zero => intro r; rfl
  | succ n ih =>
    intro r
    rw [Profile.propertyFuel, Profile.propertyFuel]
    by_cases hr : r = p
    · subst hr
      rw [Heap.get_set_self h r _ P hP, hP]
      simp only [ih]
      simp only [Profile.setProperty, QHash.contains, QHash.value,
        QHash.lookup_insert_ne _ _ hy]
    · rw [Heap.get_set_ne h p r _ hr]
      cases hg : h.get r with
      | error f => rfl
      | ok R => simp only [ih]

theorem Profile.propertyFuel_set_unreached (h : Heap Profile) (p : Ptr) (P P1 : Profile)
    (z : Property) (hP : h.get p = .ok P) :
    ∀ (n : Nat) (r : Ptr), p ∉ Profile.ancestors h n r →
      Profile.propertyFuel (h.set p P1) n r z = Profile.propertyFuel h n r z := by
  intro n
  induction n with
  | zero => intro r _; rfl
  | succ n ih =>
    intro r hr
    rw [Profile.propertyFuel, Profile.propertyFuel]
    rw [Profile.ancestors] at hr
    have hrp : r ≠ p := by
      intro e
      subst e
      simp [hP] at hr
    rw [Heap.get_set_ne h p r _ hrp]
    cases hg : h.get r with
    | error f => rfl
    | ok R =>
      simp only [hg] at hr
      by_cases hc : QHash.contains R._propertyValues z = true
      · simp [hc]
      · by_cases hp : R._parent = 0
        · simp [hc, hp]
        · simp only [hc, hp, ne_eq, not_false_eq_true, if_true, if_false]
          simp only [hp, ne_eq, not_false_eq_true, if_true, List.mem_cons, not_or] at hr
          exact ih _ hr.2

/-- C1: for every live profile P whose parent pointer is Q (not null) and every property X
that is not in the local property map of P, the call `P.property(X)` has the same outcome
as `Q.property(X)`. -/
theorem C1_property_falls_back_to_parent (h : Heap Profile) (p q : Ptr) (P : Profile)
    (x : Property) (hP : h.get p = .ok P) (hparent : P._parent = q) (hq : q ≠ 0)
    (hx : P.isPropertySet x = false) :
    Profile.property h p x = Profile.property h q x := by
  subst hparent
  unfold Profile.property
  rw [← Profile.propertyFuel_succ h x (h.cells.length + 1) P._parent (le_refl _)]
  rw [Profile.propertyFuel]
  simp only [hP]
  simp only [Profile.isPropertySet] at hx
  simp [hx, hq]

/-- Every bound on the depth from one more than the number of objects plus one on gives the
outcome of `Profile.property`. -/
theorem Profile.propertyFuel_eq_property (h : Heap Profile) (x : Property) (p : Ptr) :
    ∀ n, Profile.propertyFuel h (h.cells.length + 2 + n) p x = Profile.property h p x := by
  intro n
  induction n with
  | zero => rfl
  | succ n ih =>
    rw [← ih]
    exact (Profile.propertyFuel_succ h x (h.cells.length + 2 + n) p
      (Nat.le_add_right_of_le (Nat.le_succ _))).symm

/-- When `Profile.property` reports `Fault.diverges`, no bound on the depth is enough: the
recursion of the C++ method does not return. -/
theorem Profile.property_diverges (h : Heap Profile) (x : Property) (p : Ptr)
    (hd : Profile.property h p x = .error .diverges) (n : Nat) :
    Profile.propertyFuel h n p x = .error .diverges := by
  by_contra hne
  have hmono : ∀ k, Profile.propertyFuel h (n + k) p x = Profile.propertyFuel h n p x := by
    intro k
    induction k with
    | zero => rfl
    | succ k ih => exact Profile.propertyFuel_succ_of_returns h x (n + k) p _ ih hne
  have h1 := hmono (h.cells.length + 2)
  have h2 := Profile.propertyFuel_eq_property h x p n
  rw [Nat.add_comm] at h1
  rw [h1, hd] at h2
  exact hne h2

theorem Profile.isPropertySet_setProperty (P : Profile) (a x : Property) (v : QVariant) :
    (P.setProperty a v).isPropertySet x = (decide (x = a) || P.isPropertySet x) := by
  by_cases hx : x = a
  · subst hx
    simp [Profile.isPropertySet, Profile.setProperty, QHash.contains, QHash.lookup_insert_self]
  · simp [Profile.isPropertySet, Profile.setProperty, QHash.contains,
      QHash.lookup_insert_ne _ _ hx, hx]

theorem Profile.isPropertySet_setPropertyCalls (calls : List (Property × QVariant))
    (x : Property) : ∀ P : Profile,
      (P.setPropertyCalls calls).isPropertySet x =
        (P.isPropertySet x || decide (x ∈ calls.map Prod.fst)) := by
  induction calls with
  | nil => intro P; simp [Profile.setPropertyCalls]
  | cons c rest ih =>
    intro P
    have h1 := ih (P.setProperty c.1 c.2)
    simp only [Profile.setPropertyCalls] at h1 ⊢
    rw [List.foldl_cons, h1, Profile.isPropertySet_setProperty]
    by_cases hx : x = c.1
    · simp [hx]
    · have hb : (x == c.1) = false := beq_eq_false_iff_ne.mpr hx
      simp [hx, hb]

theorem Profile.get_setPropertyCallsAt_other (p q : Ptr) (hq : q ≠ p)
    (callsQ : List (Property × QVariant)) :
    ∀ h h' : Heap Profile, Profile.setPropertyCallsAt h q callsQ = .ok h' →
      h'.get p = h.get p := by
  induction callsQ with
  | nil =>
    intro h h' hc
    simp only [Profile.setPropertyCallsAt] at hc
    cases hc
    rfl
  | cons c rest ih =>
    intro h h' hc
    rw [Profile.setPropertyCallsAt] at hc
    cases hs : Profile.setPropertyAt h q c.1 c.2 with
    | error f => simp [hs] at hc
    | ok h1 =>
      simp only [hs] at hc
      rw [ih h1 h' hc]
      unfold Profile.setPropertyAt at hs
      cases hg : h.get q with
      | error f => simp [hg] at hs
      | ok Q =>
        simp only [hg] at hs
        cases hs
        exact Heap.get_set_ne h q p _ (fun e => hq e.symm)

/-- C2: a profile P built by the constructor (with any parent pointer, null included) and a
sequence of `setProperty` calls answers `isPropertySet(X)` with true exactly when one of
those calls named X; `setProperty` calls on any other profile Q, the parent included,
whatever they set, leave the answer as it is. -/
theorem C2_isPropertySet_is_local (h h' : Heap Profile) (p q parent : Ptr)
    (calls callsQ : List (Property × QVariant)) (x : Property)
    (hP : h.get p = .ok ((Profile.new parent).setPropertyCalls calls))
    (hq : q ≠ p)
    (hQ : Profile.setPropertyCallsAt h q callsQ = .ok h') :
    Profile.isPropertySetAt h' p x = .ok (decide (x ∈ calls.map Prod.fst)) := by
  unfold Profile.isPropertySetAt
  rw [Profile.get_setPropertyCallsAt_other p q hq callsQ h h' hQ, hP]
  simp only [Profile.isPropertySet_setPropertyCalls]
  simp [Profile.isPropertySet, Profile.new, QHash.contains]

/-- C3: for a live profile P that is not among the ancestors of its own parent, the call
`P.setProperty(X, v)` returns, and afterwards `P.property(X)` is v whatever the parent
holds, `P.property(Y)` is what it was for every other Y, and `property` and
`isPropertySet` on the parent return what they returned before. -/
theorem C3_setProperty_frame (h : Heap Profile) (p : Ptr) (P : Profile) (x : Property)
    (v : QVariant) (hP : h.get p = .ok P)
    (hacyclic : p ∉ Profile.ancestors h (h.cells.length + 2) P._parent) :
    ∃ h' : Heap Profile, Profile.setPropertyAt h p x v = .ok h' ∧
      Profile.property h' p x = .ok v ∧
      (∀ y, y ≠ x → Profile.property h' p y = Profile.property h p y) ∧
      (∀ z, Profile.property h' P._parent z = Profile.property h P._parent z) ∧
      (∀ z, Profile.isPropertySetAt h' P._parent z = Profile.isPropertySetAt h P._parent z) := by
  refine ⟨h.set p (P.setProperty x v), by simp [Profile.setPropertyAt, hP], ?_, ?_, ?_, ?_⟩
  · unfold Profile.property
    rw [Profile.propertyFuel, Heap.get_set_self h p _ P hP]
    simp [Profile.setProperty, QHash.contains, QHash.value, QHash.lookup_insert_self]
  · intro y hy
    unfold Profile.property
    rw [Heap.length_set]
    exact Profile.propertyFuel_set_other h p P x y v hP hy _ p
  · intro z
    unfold Profile.property
    rw [Heap.length_set]
    exact Profile.propertyFuel_set_unreached h p P _ z hP _ _ hacyclic
  · intro z
    have hne : P._parent ≠ p := by
      intro e
      rw [e, Profile.ancestors] at hacyclic
      simp [hP] at hacyclic
    unfold Profile.isPropertySetAt
    rw [Heap.get_set_ne h p _ _ hne]

/-! ## Registry: what each member function leaves alone -/

theorem bind_eq_ok {α β : Type} (x : Except Fault α) (f : α → Except Fault β) (b : β) :
    (x >>= f) = .ok b ↔ ∃ a, x = .ok a ∧ f a = .ok b := by
  cases x with
  | error e => simp [bind, Except.bind]
  | ok a => simp [bind, Except.bind]

theorem pure_eq_ok {α : Type} (a b : α) : (pure a : Except Fault α) = .ok b ↔ a = b := by
  simp [pure, Except.pure]

theorem SessionManager.applyProfileToSession_frame (s s' : SessionManager) (session info : Ptr)
    (m : Bool) (hs : SessionManager.applyProfileToSession s session info m = .ok s') :
    s' = { s with sessionObjects := s'.sessionObjects } := by
  unfold SessionManager.applyProfileToSession at hs
  simp only [bind_eq_ok, pure_eq_ok] at hs
  obtain ⟨S, -, S1, -, rfl⟩ := hs
  rfl

theorem SessionManager.applyProfileLoop_frame (key : String) (info : Ptr) (m : Bool)
    (l : List Ptr) : ∀ s s' : SessionManager,
      SessionManager.applyProfileLoop key info m s l = .ok s' →
      s' = { s with sessionObjects := s'.sessionObjects } := by
  induction l with
  | nil =>
    intro s s' hs
    simp only [SessionManager.applyProfileLoop, pure_eq_ok] at hs
    subst hs
    rfl
  | cons next rest ih =>
    intro s s' hs
    simp only [SessionManager.applyProfileLoop, bind_eq_ok] at hs
    obtain ⟨S, -, hs⟩ := hs
    split at hs
    · simp only [bind_eq_ok] at hs
      obtain ⟨s1, h1, h2⟩ := hs
      rw [ih s1 s' h2, SessionManager.applyProfileToSession_frame _ _ _ _ _ h1]
    · simp only [bind_eq_ok, pure_eq_ok] at hs
      obtain ⟨s1, rfl, h2⟩ := hs
      exact ih _ s' h2

theorem SessionManager.saveProfile_frame (env : Platform) (s s' : SessionManager)
    (path : String) (info : Ptr) (hs : SessionManager.saveProfile env s path info = .ok s') :
    s' = { s with world := s'.world } := by
  unfold SessionManager.saveProfile at hs
  split at hs
  · simp only [bind_eq_ok, pure_eq_ok] at hs
    obtain ⟨newPath, -, r, -, rfl⟩ := hs
    rfl
  · simp only [bind_eq_ok, pure_eq_ok] at hs
    obtain ⟨newPath, -, r, -, rfl⟩ := hs
    rfl

theorem SessionManager.changeProfile_frame (env : Platform) (s s' : SessionManager)
    (key : String) (propertyMap : QHash Property QVariant)
    (hs : SessionManager.changeProfile env s key propertyMap = .ok s') :
    s'._types = s._types ∧ s'._defaultProfile = s._defaultProfile ∧
      s'._favorites = s._favorites ∧ s'._sessions = s._sessions := by
  unfold SessionManager.changeProfile at hs
  simp only [bind_eq_ok, pure_eq_ok] at hs
  split at hs
  · simp only [pure_eq_ok] at hs
    subst hs
    exact ⟨rfl, rfl, rfl, rfl⟩
  · simp only [bind_eq_ok] at hs
    obtain ⟨_, -, h, -, _, -, s2, h2, b, -, h3⟩ := hs
    have e2 := SessionManager.applyProfileLoop_frame _ _ _ _ _ _ h2
    have e3 : s' = { ({ s2 with emitted := s2.emitted ++ [.profileChanged key] } :
        SessionManager) with world := s'.world } := by
      split at h3
      · simp only [bind_eq_ok] at h3
        obtain ⟨p, -, h3⟩ := h3
        exact SessionManager.saveProfile_frame _ _ _ _ _ h3
      · exact SessionManager.saveProfile_frame _ _ _ _ _ h3
    rw [e3, e2]
    exact ⟨rfl, rfl, rfl, rfl⟩

theorem SessionManager.saveFavorites_frame (s s' : SessionManager)
    (hs : SessionManager.saveFavorites s = .ok s') :
    s' = { s with world := s'.world } := by
  unfold SessionManager.saveFavorites at hs
  simp only [bind_eq_ok, pure_eq_ok] at hs
  obtain ⟨paths, -, rfl⟩ := hs
  rfl

theorem SessionManager.setFavorite_frame (s s' : SessionManager) (key : String) (b : Bool)
    (hs : SessionManager.setFavorite s key b = .ok s') :
    s'._types = s._types ∧ s'._defaultProfile = s._defaultProfile ∧
      s'.profiles = s.profiles ∧ s'._sessions = s._sessions ∧
      s'.sessionObjects = s.sessionObjects := by
  unfold SessionManager.setFavorite at hs
  split at hs
  · have e := SessionManager.saveFavorites_frame _ _ hs
    rw [e]
    exact ⟨rfl, rfl, rfl, rfl, rfl⟩
  · split at hs
    · have e := SessionManager.saveFavorites_frame _ _ hs
      rw [e]
      exact ⟨rfl, rfl, rfl, rfl, rfl⟩
    · simp only [pure_eq_ok] at hs
      subst hs
      exact ⟨rfl, rfl, rfl, rfl, rfl⟩

theorem SessionManager.setDefaultProfile_frame (s s' : SessionManager) (key : String)
    (hs : SessionManager.setDefaultProfile s key = .ok s') :
    s' = { s with _defaultProfile := key, world := s'.world } := by
  unfold SessionManager.setDefaultProfile at hs
  simp only [bind_eq_ok, pure_eq_ok] at hs
  obtain ⟨p, -, rfl⟩ := hs
  rfl

/-! ## Keys made by `addProfile` -/

theorem decimalDigits_lt (fuel : Nat) : ∀ n d, d ∈ decimalDigits fuel n → d < 10 := by
  induction fuel with
  | zero => intro n d hd; simp [decimalDigits] at hd
  | succ fuel ih =>
    intro n d hd
    rw [decimalDigits] at hd
    split at hd
    · simp only [List.mem_singleton] at hd
      omega
    · rcases List.mem_cons.mp hd with rfl | hd
      · omega
      · exact ih _ _ hd

theorem decimalDigits_value (fuel : Nat) : ∀ n, n < fuel →
    (decimalDigits fuel n).foldr (fun d acc => d + 10 * acc) 0 = n := by
  induction fuel with
  | zero => intro n hn; omega
  | succ fuel ih =>
    intro n hn
    rw [decimalDigits]
    split
    · simp
    · have h := ih (n / 10) (by omega)
      simp only [List.foldr_cons, h]
      omega

theorem charDigit_digitChar (d : Nat) (hd : d < 10) : charDigit (digitChar d) = d := by
  interval_cases d <;> rfl

theorem map_charDigit_digitChar (l : List Nat) (hl : ∀ d ∈ l, d < 10) :
    (l.map digitChar).map charDigit = l := by
  induction l with
  | nil => rfl
  | cons a t ih =>
    simp only [List.map_cons, charDigit_digitChar a (hl a (List.mem_cons_self a t)),
      ih (fun d hd => hl d (List.mem_cons_of_mem a hd))]

theorem QString.number_injective : Function.Injective QString.number := by
  intro n m h
  have h1 : (decimalDigits (n + 1) n).reverse.map digitChar =
      (decimalDigits (m + 1) m).reverse.map digitChar := congrArg String.data h
  have h2 := congrArg (List.map charDigit) h1
  rw [map_charDigit_digitChar _ (fun d hd => decimalDigits_lt _ _ d (List.mem_reverse.mp hd)),
    map_charDigit_digitChar _ (fun d hd => decimalDigits_lt _ _ d (List.mem_reverse.mp hd))] at h2
  have h3 := List.reverse_injective h2
  have hn := decimalDigits_value (n + 1) n (Nat.lt_succ_self n)
  have hm := decimalDigits_value (m + 1) m (Nat.lt_succ_self m)
  rw [h3] at hn
  omega

theorem QString.append_number_injective (path : String) :
    Function.Injective (fun n => path ++ QString.number n) := by
  intro n m h
  have h2 := congrArg String.data h
  simp only [String.data_append] at h2
  have h3 := List.append_cancel_left h2
  exact QString.number_injective (String.ext h3)

theorem SessionManager.addProfileCounter_spec (types : QHash String Ptr) (path : String) :
    ∀ (fuel counter n : Nat),
      SessionManager.addProfileCounter types path fuel counter = some n →
      counter ≤ n ∧ n < counter + fuel ∧
      QHash.contains types (path ++ QString.number n) = false ∧
      ∀ m, counter ≤ m → m < n → QHash.contains types (path ++ QString.number m) = true := by
  intro fuel
  induction fuel with
  | zero => intro c n h; simp [SessionManager.addProfileCounter] at h
  | succ fuel ih =>
    intro c n h
    rw [SessionManager.addProfileCounter] at h
    split at h
    · rename_i hc
      simp only [Option.some.injEq] at h
      subst h
      refine ⟨le_refl _, by omega, by simpa using hc, ?_⟩
      intro m h1 h2
      omega
    · rename_i hc
      obtain ⟨h1, h2, h3, h4⟩ := ih _ _ h
      refine ⟨by omega, by omega, h3, ?_⟩
      intro m hm1 hm2
      by_cases hm : m = c
      · subst hm
        simpa using hc
      · exact h4 m (by omega) hm2

theorem SessionManager.addProfileCounter_complete (types : QHash String Ptr) (path : String) :
    ∀ (fuel counter m : Nat), counter ≤ m → m < counter + fuel →
      QHash.contains types (path ++ QString.number m) = false →
      (SessionManager.addProfileCounter types path fuel counter).isSome = true := by
  intro fuel
  induction fuel with
  | zero => intro c m h1 h2; omega
  | succ fuel ih =>
    intro c m h1 h2 h3
    rw [SessionManager.addProfileCounter]
    split
    · rfl
    · rename_i hc
      have hmc : m ≠ c := by
        intro e
        subst e
        simp [h3] at hc
      exact ih (c + 1) m (by omega) (by omega) h3

theorem SessionManager.exists_unused_counter (types : QHash String Ptr) (path : String) :
    ∃ m, m < QHash.count types + 1 ∧
      QHash.contains types (path ++ QString.number m) = false := by
  by_contra hcon
  simp only [not_exists, not_and, Bool.not_eq_false] at hcon
  have hnd : ((List.range (QHash.count types + 1)).map
      (fun n => path ++ QString.number n)).Nodup :=
    (List.nodup_range _).map (QString.append_number_injective path)
  have hsub : (List.range (QHash.count types + 1)).map (fun n => path ++ QString.number n) ⊆
      QHash.keys types := by
    intro k hk
    obtain ⟨n, hn, rfl⟩ := List.mem_map.mp hk
    exact (QHash.contains_iff_mem_keys types _).mp (hcon n (List.mem_range.mp hn))
  have hle := (List.subperm_of_subset hnd hsub).length_le
  simp [QHash.keys, QHash.count] at hle

/-- The loop of `addProfile` terminates within one iteration more than there are entries. -/
theorem SessionManager.addProfileCounter_isSome (types : QHash String Ptr) (path : String) :
    (SessionManager.addProfileCounter types path (QHash.count types + 1) 0).isSome = true := by
  obtain ⟨m, hm, hu⟩ := SessionManager.exists_unused_counter types path
  exact SessionManager.addProfileCounter_complete types path _ 0 m (Nat.zero_le m) (by omega) hu

theorem QHash.remove_of_not_contains {κ ν : Type} [DecidableEq κ] (h : QHash κ ν) (k : κ)
    (hk : QHash.contains h k = false) : QHash.remove h k = h := by
  have hmem : k ∉ QHash.keys h := by
    intro hm
    have := (QHash.contains_iff_mem_keys h k).mpr hm
    simp [hk] at this
  simp only [QHash.remove, List.filter_eq_self]
  intro e he
  have : e.1 ≠ k := by
    intro e1
    exact hmem (e1 ▸ List.mem_map_of_mem Prod.fst he)
  simpa using this

theorem SessionManager.addProfile_eq (s : SessionManager) (type : Ptr) (path : String) (n : Nat)
    (hpath : Profile.path s.profiles type = .ok path)
    (hn : SessionManager.addProfileCounter s._types path (QHash.count s._types + 1) 0 = some n) :
    SessionManager.addProfile s type = .ok (path ++ QString.number n,
      { s with
        _defaultProfile :=
          if QHash.isEmpty s._types then path ++ QString.number n else s._defaultProfile,
        _types := QHash.insert s._types (path ++ QString.number n) type,
        emitted := s.emitted ++ [.profileAdded (path ++ QString.number n)] }) := by
  unfold SessionManager.addProfile
  simp only [hpath, bind, Except.bind, hn]
  by_cases he : QHash.isEmpty s._types = true
  · simp [he, pure, Except.pure]
  · simp [he, pure, Except.pure]

theorem SessionManager.addProfile_ok (s s' : SessionManager) (type : Ptr) (key : String)
    (h : SessionManager.addProfile s type = .ok (key, s')) :
    ∃ path n, Profile.path s.profiles type = .ok path ∧
      SessionManager.addProfileCounter s._types path (QHash.count s._types + 1) 0 = some n ∧
      key = path ++ QString.number n ∧
      s' = { s with
        _defaultProfile := if QHash.isEmpty s._types then key else s._defaultProfile,
        _types := QHash.insert s._types key type,
        emitted := s.emitted ++ [.profileAdded key] } := by
  cases hpath : Profile.path s.profiles type with
  | error f => simp [SessionManager.addProfile, hpath, bind, Except.bind] at h
  | ok path =>
    have hsome := SessionManager.addProfileCounter_isSome s._types path
    obtain ⟨n, hn⟩ := Option.isSome_iff_exists.mp hsome
    rw [SessionManager.addProfile_eq s type path n hpath hn] at h
    simp only [Except.ok.injEq, Prod.mk.injEq] at h
    obtain ⟨rfl, rfl⟩ := h
    exact ⟨path, n, rfl, hn, rfl, rfl⟩

/-- C8: for every registry state and every pointer to a live profile whose `path()` is
`path`, `addProfile` returns `path` followed by the decimal form of the least counter n for
which that string is not a key; the key was not a key before, afterwards it maps to the
profile, every earlier entry is still there with the same profile, and the number of entries
has grown by exactly one. -/
theorem C8_addProfile_fresh_key (s : SessionManager) (type : Ptr) (path : String)
    (hpath : Profile.path s.profiles type = .ok path) :
    ∃ (n : Nat) (s' : SessionManager),
      SessionManager.addProfile s type = .ok (path ++ QString.number n, s') ∧
      QHash.contains s._types (path ++ QString.number n) = false ∧
      (∀ m, m < n → QHash.contains s._types (path ++ QString.number m) = true) ∧
      List.lookup (path ++ QString.number n) s'._types = some type ∧
      (∀ k, QHash.contains s._types k = true →
        List.lookup k s'._types = List.lookup k s._types) ∧
      (∀ e, e ∈ s._types → e ∈ s'._types) ∧
      QHash.count s'._types = QHash.count s._types + 1 ∧
      s'.profiles = s.profiles := by
  have hsome := SessionManager.addProfileCounter_isSome s._types path
  obtain ⟨n, hn⟩ := Option.isSome_iff_exists.mp hsome
  obtain ⟨-, -, hfree, hleast⟩ := SessionManager.addProfileCounter_spec _ _ _ _ _ hn
  refine ⟨n, _, SessionManager.addProfile_eq s type path n hpath hn, hfree,
    fun m hm => hleast m (Nat.zero_le m) hm, ?_, ?_, ?_, ?_, rfl⟩
  · exact QHash.lookup_insert_self _ _ _
  · intro k hk
    have hne : k ≠ path ++ QString.number n := by
      intro e
      rw [e, hfree] at hk
      cases hk
    exact QHash.lookup_insert_ne _ _ hne
  · intro e he
    simp only [QHash.insert, QHash.remove_of_not_contains _ _ hfree]
    exact List.mem_cons_of_mem _ he
  · simp only [QHash.insert, QHash.remove_of_not_contains _ _ hfree, QHash.count,
      List.length_cons]

theorem SessionManager.deleteProfileFile_frame (s s' : SessionManager) (type : Ptr)
    (h : SessionManager.deleteProfileFile s type = .ok s') :
    s' = { s with world := s'.world } := by
  unfold SessionManager.deleteProfileFile at h
  simp only [bind_eq_ok] at h
  obtain ⟨P, -, h⟩ := h
  split at h
  · simp only [bind_eq_ok] at h
    obtain ⟨p, -, h⟩ := h
    split at h
    · simp only [pure_eq_ok] at h
      subst h
      rfl
    · simp only [pure_eq_ok] at h
      subst h
      rfl
  · simp only [pure_eq_ok] at h
    subst h
    rfl

theorem SessionManager.deleteProfileRemove_registry (s s' : SessionManager) (key : String)
    (type : Ptr) (h : SessionManager.deleteProfileRemove s key type = .ok s') :
    s'._types = (if type ≠ 0 then QHash.remove s._types key else s._types) ∧
      s'._defaultProfile = s._defaultProfile ∧ s'._favorites = s._favorites := by
  unfold SessionManager.deleteProfileRemove at h
  split at h
  · rename_i ht
    simp only [bind_eq_ok, pure_eq_ok] at h
    obtain ⟨s1, h1, rfl⟩ := h
    rw [SessionManager.deleteProfileFile_frame _ _ _ h1]
    simp [ht]
  · rename_i ht
    simp only [pure_eq_ok] at h
    subst h
    simp [ht]

theorem SessionManager.deleteProfileDefault_registry (s s' : SessionManager) (wasDefault : Bool)
    (h : SessionManager.deleteProfileDefault s wasDefault = .ok s') :
    s'._types = s._types ∧ s'._favorites = s._favorites ∧
      (wasDefault = true → ∃ rest, QHash.keys s._types = s'._defaultProfile :: rest) ∧
      (wasDefault = false → s'._defaultProfile = s._defaultProfile) := by
  unfold SessionManager.deleteProfileDefault at h
  split at h
  · rename_i hw
    split at h
    · cases h
    · rename_i first rest hk
      rw [SessionManager.setDefaultProfile_frame _ _ _ h]
      exact ⟨rfl, rfl, fun _ => ⟨rest, hk⟩, fun hf => by simp [hw] at hf⟩
  · rename_i hw
    simp only [pure_eq_ok] at h
    subst h
    exact ⟨rfl, rfl, fun ht => absurd ht hw, fun _ => rfl⟩

theorem SessionManager.deleteProfile_registry (s s' : SessionManager) (key : String)
    (h : SessionManager.deleteProfile s key = .ok s') :
    s'._types = (if SessionManager.profile s key ≠ 0 then QHash.remove s._types key
      else s._types) ∧
    (SessionManager.profile s key = SessionManager.defaultProfile s →
      ∃ rest, QHash.keys s'._types = s'._defaultProfile :: rest) ∧
    (SessionManager.profile s key ≠ SessionManager.defaultProfile s →
      s'._defaultProfile = s._defaultProfile) := by
  unfold SessionManager.deleteProfile at h
  simp only [bind_eq_ok, pure_eq_ok] at h
  obtain ⟨s1, hfav, s2, h2, s3, h3, rfl⟩ := h
  obtain ⟨f1, f2, -, -, -⟩ := SessionManager.setFavorite_frame _ _ _ _ hfav
  obtain ⟨r1, r2, -⟩ := SessionManager.deleteProfileRemove_registry _ _ _ _ h2
  obtain ⟨d1, -, d3, d4⟩ := SessionManager.deleteProfileDefault_registry _ _ _ h3
  have hdef : SessionManager.defaultProfile s1 = SessionManager.defaultProfile s := by
    simp only [SessionManager.defaultProfile, f1, f2]
  rw [hdef] at d3 d4
  refine ⟨?_, ?_, ?_⟩
  · simp only [d1, r1, f1]
  · intro hd
    obtain ⟨rest, hr⟩ := d3 (by simpa using hd)
    exact ⟨rest, by simpa only [d1] using hr⟩
  · intro hd
    have := d4 (by simpa using hd)
    simp only [this, r2, f2]

/-! ## The default key stays a key of the mapping -/

theorem Profile.path_ok_ne_null (h : Heap Profile) (p : Ptr) (path : String)
    (hp : Profile.path h p = .ok path) : p ≠ 0 := by
  intro e
  subst e
  simp [Profile.path, Profile.stringProperty, Profile.property, Profile.propertyFuel,
    Heap.get] at hp

theorem QHash.contains_insert {κ ν : Type} [DecidableEq κ] (h : QHash κ ν) (k j : κ) (v : ν) :
    QHash.contains (QHash.insert h k v) j = (decide (j = k) || QHash.contains h j) := by
  by_cases hj : j = k
  · subst hj
    simp [QHash.contains, QHash.lookup_insert_self]
  · simp [QHash.contains, QHash.lookup_insert_ne _ _ hj, hj]

theorem QHash.contains_remove {κ ν : Type} [DecidableEq κ] (h : QHash κ ν) (k j : κ) :
    QHash.contains (QHash.remove h k) j = (!decide (j = k) && QHash.contains h j) := by
  by_cases hj : j = k
  · subst hj
    simp [QHash.contains, QHash.lookup_remove_self]
  · simp [QHash.contains, QHash.lookup_remove_ne _ hj, hj]

theorem QHash.mem_insert {κ ν : Type} [DecidableEq κ] (h : QHash κ ν) (k : κ) (v : ν)
    (e : κ × ν) (he : e ∈ QHash.insert h k v) : e = (k, v) ∨ e ∈ h := by
  simp only [QHash.insert, QHash.remove, List.mem_cons, List.mem_filter] at he
  rcases he with he | he
  · exact Or.inl he
  · exact Or.inr he.1

theorem SessionManager.addProfile_consistent (s s' : SessionManager) (type : Ptr)
    (key : String) (h : SessionManager.addProfile s type = .ok (key, s'))
    (hs : s._types = [] ∨ QHash.contains s._types s._defaultProfile = true)
    (hv : ∀ e ∈ s._types, e.2 ≠ 0) :
    QHash.contains s'._types key = true ∧
      QHash.contains s'._types s'._defaultProfile = true ∧ ∀ e ∈ s'._types, e.2 ≠ 0 := by
  obtain ⟨path, n, hpath, -, -, rfl⟩ := SessionManager.addProfile_ok _ _ _ _ h
  refine ⟨by simp [QHash.contains_insert], ?_, ?_⟩
  · by_cases he : QHash.isEmpty s._types = true
    · simp [he, QHash.contains_insert]
    · rcases hs with hs | hs
      · simp [hs, QHash.isEmpty] at he
      · simp [he, QHash.contains_insert, hs]
  · intro e he
    rcases QHash.mem_insert _ _ _ _ he with rfl | he
    · exact Profile.path_ok_ne_null _ _ _ hpath
    · exact hv e he

theorem SessionManager.loadProfile_cases (env : Platform) (s s' : SessionManager)
    (path key : String) (h : SessionManager.loadProfile env s path = .ok (key, s')) :
    (key = "" ∧ s'._types = s._types ∧ s'._defaultProfile = s._defaultProfile ∧
      s'._favorites = s._favorites) ∨
    ∃ (hp : Heap Profile) (type : Ptr),
      SessionManager.addProfile { s with profiles := hp } type = .ok (key, s') := by
  unfold SessionManager.loadProfile at h
  simp only [bind_eq_ok] at h
  obtain ⟨found, -, h⟩ := h
  split at h
  · simp only [pure_eq_ok, Prod.mk.injEq] at h
    obtain ⟨rfl, rfl⟩ := h
    exact Or.inl ⟨rfl, rfl, rfl, rfl⟩
  · split at h
    · simp only [pure_eq_ok, Prod.mk.injEq] at h
      obtain ⟨rfl, rfl⟩ := h
      exact Or.inl ⟨rfl, rfl, rfl, rfl⟩
    · split at h
      · exact Or.inr ⟨_, _, h⟩
      · simp only [pure_eq_ok, Prod.mk.injEq] at h
        obtain ⟨rfl, rfl⟩ := h
        exact Or.inl ⟨rfl, rfl, rfl, rfl⟩

theorem SessionManager.loadProfile_consistent (env : Platform) (s s' : SessionManager)
    (path key : String) (h : SessionManager.loadProfile env s path = .ok (key, s'))
    (hs : QHash.contains s._types s._defaultProfile = true)
    (hv : ∀ e ∈ s._types, e.2 ≠ 0) :
    (key ≠ "" → QHash.contains s'._types key = true) ∧
      QHash.contains s'._types s'._defaultProfile = true ∧ ∀ e ∈ s'._types, e.2 ≠ 0 := by
  rcases SessionManager.loadProfile_cases env s s' path key h with ⟨hk, h1, h2, -⟩ | ⟨hp, type, ha⟩
  · rw [h1, h2]
    exact ⟨fun hne => absurd hk hne, hs, hv⟩
  · obtain ⟨a1, a2, a3⟩ := SessionManager.addProfile_consistent _ _ _ _ ha (Or.inr hs) hv
    exact ⟨fun _ => a1, a2, a3⟩

theorem SessionManager.new_consistent (env : Platform) (world : World) (s : SessionManager)
    (h : SessionManager.new env world = .ok s) :
    QHash.contains s._types s._defaultProfile = true ∧ ∀ e ∈ s._types, e.2 ≠ 0 := by
  unfold SessionManager.new at h
  simp only [bind_eq_ok] at h
  obtain ⟨⟨k1, s1⟩, h1, h⟩ := h
  obtain ⟨-, c1, c2⟩ := SessionManager.addProfile_consistent _ _ _ _ h1 (Or.inl rfl)
    (by intro e he; cases he)
  split at h
  · simp only [bind_eq_ok] at h
    obtain ⟨⟨key, s2⟩, h2, h⟩ := h
    obtain ⟨l1, l2, l3⟩ := SessionManager.loadProfile_consistent _ _ _ _ _ h2 c1 c2
    split at h
    · rename_i hk
      simp only [pure_eq_ok] at h
      subst h
      refine ⟨l1 ?_, l3⟩
      intro e
      subst e
      simp [QString.isEmpty] at hk
    · simp only [pure_eq_ok] at h
      subst h
      exact ⟨l2, l3⟩
  · simp only [pure_eq_ok] at h
    subst h
    exact ⟨c1, c2⟩

theorem SessionManager.profile_eq_default_of_key (s : SessionManager)
    (hs : QHash.contains s._types s._defaultProfile = true) :
    SessionManager.profile s s._defaultProfile = SessionManager.defaultProfile s := by
  unfold SessionManager.profile
  split
  · rfl
  · simp [hs, SessionManager.defaultProfile]

theorem QHash.value_ne_of_mem {ν : Type} [DecidableEq ν] (h : QHash String ν) (k : String)
    (dflt : ν) (hk : QHash.contains h k = true) (hv : ∀ e ∈ h, e.2 ≠ dflt) :
    QHash.value h k dflt ≠ dflt := by
  simp only [QHash.contains, QHash.value] at hk ⊢
  cases hl : List.lookup k h with
  | none => simp [hl] at hk
  | some v =>
    have hm : (k, v) ∈ h := by
      clear hk hv
      induction h with
      | nil => simp at hl
      | cons e t ih =>
        obtain ⟨a, b⟩ := e
        rw [QHash.lookup_cons_if] at hl
        by_cases hka : k = a
        · simp only [hka, if_true, Option.some.injEq] at hl
          simp [hka, hl]
        · simp only [hka, if_false] at hl
          exact List.mem_cons_of_mem _ (ih hl)
    simpa using hv _ hm

theorem SessionManager.deleteProfile_consistent (s s' : SessionManager) (key : String)
    (h : SessionManager.deleteProfile s key = .ok s')
    (hs : QHash.contains s._types s._defaultProfile = true)
    (hv : ∀ e ∈ s._types, e.2 ≠ 0) :
    QHash.contains s'._types s'._defaultProfile = true ∧ ∀ e ∈ s'._types, e.2 ≠ 0 := by
  obtain ⟨ht, hd1, hd2⟩ := SessionManager.deleteProfile_registry s s' key h
  have hsub : ∀ e ∈ s'._types, e ∈ s._types := by
    intro e he
    rw [ht] at he
    split at he
    · exact (List.mem_filter.mp he).1
    · exact he
  refine ⟨?_, fun e he => hv e (hsub e he)⟩
  by_cases hw : SessionManager.profile s key = SessionManager.defaultProfile s
  · obtain ⟨rest, hr⟩ := hd1 hw
    refine (QHash.contains_iff_mem_keys _ _).mpr ?_
    rw [hr]
    exact List.mem_cons_self _ _
  · rw [hd2 hw, ht]
    have hkey : s._defaultProfile ≠ key := by
      intro e
      apply hw
      rw [← e]
      exact SessionManager.profile_eq_default_of_key s hs
    split
    · simp [QHash.contains_remove, hkey, hs]
    · exact hs

theorem SessionManager.reachable_consistent (env : Platform) (world : World)
    (s : SessionManager) (h : SessionManager.Reachable env world s) :
    QHash.contains s._types s._defaultProfile = true ∧ ∀ e ∈ s._types, e.2 ≠ 0 := by
  induction h with
  | constructed s hs => exact SessionManager.new_consistent env world s hs
  | newProfile s P _ ih => exact ih
  | addProfile s s' type key _ hs ih =>
    exact (SessionManager.addProfile_consistent _ _ _ _ hs (Or.inr ih.1) ih.2).2
  | loadProfile s s' path key _ hs ih =>
    exact (SessionManager.loadProfile_consistent _ _ _ _ _ hs ih.1 ih.2).2
  | changeProfile s s' key propertyMap _ hs ih =>
    obtain ⟨h1, h2, -, -⟩ := SessionManager.changeProfile_frame _ _ _ _ _ hs
    rw [h1, h2]
    exact ih
  | setFavorite s s' key favorite _ hs ih =>
    obtain ⟨h1, h2, -, -, -⟩ := SessionManager.setFavorite_frame _ _ _ _ hs
    rw [h1, h2]
    exact ih
  | setDefaultProfile s s' key _ hk hs ih =>
    rw [SessionManager.setDefaultProfile_frame _ _ _ hs]
    exact ⟨hk, ih.2⟩
  | deleteProfile s s' key _ hs ih =>
    exact SessionManager.deleteProfile_consistent _ _ _ hs ih.1 ih.2

/-- C4: in every registry state reached from the constructed `SessionManager` by any
sequence of `addProfile`, `loadProfile`, `changeProfile`, `setFavorite`, `setDefaultProfile`
with a key of the mapping and `deleteProfile` (and allocations of new profiles by the
caller), if the mapping is not empty then the default key is one of its keys and
`defaultProfile()` is not the null pointer. -/
theorem C4_default_key_is_live (env : Platform) (world : World) (s : SessionManager)
    (hreach : SessionManager.Reachable env world s)
    (_hnonempty : QHash.isEmpty s._types = false) :
    s.defaultProfileKey ∈ QHash.keys s._types ∧ s.defaultProfile ≠ 0 := by
  obtain ⟨h1, h2⟩ := SessionManager.reachable_consistent env world s hreach
  exact ⟨(QHash.contains_iff_mem_keys _ _).mp h1, QHash.value_ne_of_mem _ _ _ h1 h2⟩

/-! ## Deleting the default profile -/

theorem Profile.property_local (h : Heap Profile) (p : Ptr) (P : Profile) (x : Property)
    (hP : h.get p = .ok P) (hx : P.isPropertySet x = true) :
    Profile.property h p x = .ok (QHash.value P._propertyValues x .invalid) := by
  unfold Profile.property
  rw [Profile.propertyFuel]
  simp only [hP]
  simp only [Profile.isPropertySet] at hx
  simp [hx]

theorem SessionManager.deleteProfileFile_returns (s : SessionManager) (type : Ptr)
    (P : Profile) (hP : s.profiles.get type = .ok P) :
    ∃ w, SessionManager.deleteProfileFile s type = .ok { s with world := w } := by
  unfold SessionManager.deleteProfileFile
  simp only [hP, bind, Except.bind]
  by_cases hx : P.isPropertySet .Path = true
  · simp only [hx, if_true, Profile.path, Profile.stringProperty,
      Profile.property_local _ _ _ _ hP hx]
    split
    · exact ⟨_, rfl⟩
    · exact ⟨s.world, rfl⟩
  · simp only [hx]
    exact ⟨s.world, rfl⟩

theorem SessionManager.favoritePaths_returns (s : SessionManager) (l : List String)
    (hl : ∀ k ∈ l, ∃ p, Profile.path s.profiles (SessionManager.profile s k) = .ok p) :
    ∃ ps, SessionManager.favoritePaths s l = .ok ps := by
  induction l with
  | nil => exact ⟨[], rfl⟩
  | cons k rest ih =>
    obtain ⟨p, hp⟩ := hl k (List.mem_cons_self _ _)
    obtain ⟨ps, hps⟩ := ih (fun j hj => hl j (List.mem_cons_of_mem _ hj))
    refine ⟨p :: ps, ?_⟩
    simp only [SessionManager.favoritePaths, hp, hps, bind, Except.bind, pure, Except.pure]

theorem SessionManager.setFavorite_false_returns (s : SessionManager) (key : String)
    (hfav : ∀ k ∈ s._favorites,
      ∃ p, Profile.path s.profiles (SessionManager.profile s k) = .ok p) :
    ∃ s1, SessionManager.setFavorite s key false = .ok s1 := by
  unfold SessionManager.setFavorite
  simp only [Bool.false_and, Bool.false_eq_true, if_false, Bool.not_false, Bool.true_and]
  split
  · have hl : ∀ k ∈ s._favorites.filter (fun k => !decide (k = key)),
        ∃ p, Profile.path s.profiles (SessionManager.profile s k) = .ok p :=
      fun k hk => hfav k (List.mem_filter.mp hk).1
    obtain ⟨ps, hps⟩ := SessionManager.favoritePaths_returns
      { s with _favorites := s._favorites.filter (fun k => !decide (k = key)),
               emitted := s.emitted ++ [.favoriteStatusChanged key false] } _ hl
    exact ⟨_, by simp only [SessionManager.saveFavorites, hps, bind, Except.bind]; rfl⟩
  · exact ⟨s, rfl⟩

theorem SessionManager.profile_of_contains (s : SessionManager) (key : String)
    (hk : QHash.contains s._types key = true) :
    SessionManager.profile { s with _defaultProfile := key } key = QHash.value s._types key 0 := by
  unfold SessionManager.profile
  split
  · rfl
  · simp [hk]

theorem SessionManager.setDefaultProfile_returns (s : SessionManager) (key p : String)
    (hk : QHash.contains s._types key = true)
    (hp : Profile.path s.profiles (QHash.value s._types key 0) = .ok p) :
    ∃ w, SessionManager.setDefaultProfile s key =
      .ok { s with _defaultProfile := key, world := w } := by
  unfold SessionManager.setDefaultProfile
  simp only [SessionManager.profile_of_contains s key hk, hp, bind, Except.bind]
  exact ⟨_, rfl⟩

theorem QHash.keys_remove_eq {κ ν : Type} [DecidableEq κ] (h : QHash κ ν) (k : κ) :
    QHash.keys (QHash.remove h k) = (QHash.keys h).filter (fun j => !decide (j = k)) := by
  induction h with
  | nil => rfl
  | cons e t ih =>
    simp only [QHash.keys, QHash.remove] at ih
    by_cases he : e.1 = k
    · simp [QHash.keys, QHash.remove, List.filter_cons, he, ih]
    · simp [QHash.keys, QHash.remove, List.filter_cons, he, ih]

theorem QHash.exists_other_key {κ ν : Type} [DecidableEq κ] (h : QHash κ ν) (k : κ)
    (hnodup : (QHash.keys h).Nodup) (htwo : 2 ≤ QHash.count h) :
    ∃ j, j ∈ QHash.keys h ∧ j ≠ k := by
  match h, hnodup, htwo with
  | [], _, h2 => simp [QHash.count] at h2
  | [_], _, h2 => simp [QHash.count] at h2
  | a :: b :: t, hnd, _ =>
    simp only [QHash.keys, List.map_cons, List.nodup_cons, List.mem_cons, not_or] at hnd
    by_cases ha : a.1 = k
    · refine ⟨b.1, by simp [QHash.keys], ?_⟩
      intro hb
      exact hnd.1.1 (ha.trans hb.symm)
    · exact ⟨a.1, by simp [QHash.keys], ha⟩

theorem SessionManager.deleteProfileRemove_returns (s : SessionManager) (key : String)
    (type : Ptr) (P : Profile) (hP : s.profiles.get type = .ok P) :
    ∃ s2, SessionManager.deleteProfileRemove s key type = .ok s2 ∧
      s2._types = QHash.remove s._types key ∧ s2.profiles = s.profiles.free type ∧
      s2._defaultProfile = s._defaultProfile := by
  have hne : type ≠ 0 := by
    intro e
    rw [e] at hP
    simp [Heap.get] at hP
  obtain ⟨w, hw⟩ := SessionManager.deleteProfileFile_returns s type P hP
  refine ⟨{ ({ s with world := w } : SessionManager) with
      _types := QHash.remove s._types key, profiles := s.profiles.free type }, ?_, rfl, rfl, rfl⟩
  unfold SessionManager.deleteProfileRemove
  simp only [hne, ne_eq, not_false_eq_true, if_true, hw, bind, Except.bind]
  rfl

theorem SessionManager.deleteProfileDefault_returns (s : SessionManager) (first p : String)
    (rest : List String) (hkeys : QHash.keys s._types = first :: rest)
    (hp : Profile.path s.profiles (QHash.value s._types first 0) = .ok p) :
    ∃ s3, SessionManager.deleteProfileDefault s true = .ok s3 := by
  have hc : QHash.contains s._types first = true :=
    (QHash.contains_iff_mem_keys _ _).mpr (by rw [hkeys]; exact List.mem_cons_self _ _)
  obtain ⟨w, hw⟩ := SessionManager.setDefaultProfile_returns s first p hc hp
  refine ⟨{ s with _defaultProfile := first, world := w }, ?_⟩
  unfold SessionManager.deleteProfileDefault
  simp only [if_true, hkeys]
  exact hw

theorem SessionManager.deleteProfile_default_returns (s : SessionManager) (P : Profile)
    (hdefault : QHash.contains s._types s._defaultProfile = true)
    (hnodup : (QHash.keys s._types).Nodup)
    (htwo : 2 ≤ QHash.count s._types)
    (hlive : s.profiles.get s.defaultProfile = .ok P)
    (hfav : ∀ k ∈ s._favorites, ∃ p, Profile.path s.profiles (s.profile k) = .ok p)
    (hrest : ∀ k ∈ QHash.keys s._types, k ≠ s._defaultProfile →
      ∃ p, Profile.path (s.profiles.free s.defaultProfile) (QHash.value s._types k 0) = .ok p) :
    ∃ s', SessionManager.deleteProfile s s._defaultProfile = .ok s' := by
  obtain ⟨s1, hs1⟩ := SessionManager.setFavorite_false_returns s s._defaultProfile hfav
  obtain ⟨f1, f2, f3, -, -⟩ := SessionManager.setFavorite_frame _ _ _ _ hs1
  have htype := SessionManager.profile_eq_default_of_key s hdefault
  have hdef1 : SessionManager.defaultProfile s1 = SessionManager.defaultProfile s := by
    simp only [SessionManager.defaultProfile, f1, f2]
  obtain ⟨s2, hs2, r1, r2, -⟩ := SessionManager.deleteProfileRemove_returns s1 s._defaultProfile
    s.defaultProfile P (by rw [f3]; exact hlive)
  rw [f1] at r1
  rw [f3] at r2
  obtain ⟨j, hj, hjd⟩ := QHash.exists_other_key s._types s._defaultProfile hnodup htwo
  have hjmem : j ∈ QHash.keys s2._types := by
    rw [r1]
    exact (QHash.keys_remove _ _ _).mpr ⟨hj, hjd⟩
  cases hkeys : QHash.keys s2._types with
  | nil => rw [hkeys] at hjmem; cases hjmem
  | cons first rest =>
    have hfirst : first ∈ QHash.keys (QHash.remove s._types s._defaultProfile) := by
      rw [← r1, hkeys]; exact List.mem_cons_self _ _
    obtain ⟨hf1, hf2⟩ := (QHash.keys_remove _ _ _).mp hfirst
    obtain ⟨p, hp⟩ := hrest first hf1 hf2
    obtain ⟨s3, hs3⟩ := SessionManager.deleteProfileDefault_returns s2 first p rest hkeys
      (by
        rw [r1, r2]
        simp only [QHash.value, QHash.lookup_remove_ne _ hf2]
        exact hp)
    unfold SessionManager.deleteProfile
    simp only [bind_eq_ok, pure_eq_ok]
    refine ⟨_, s1, hs1, s2, ?_, s3, ?_, rfl⟩
    · rw [htype]
      exact hs2
    · rw [htype, hdef1]
      simpa using hs3

/-- In a registry with at least two entries whose default key is live, whose favourites
resolve and whose remaining profiles can still answer `path()` once the default profile is
deleted, `deleteProfile` on the default key returns; the keys afterwards are the old keys
without the deleted one and the new default key is one of them.  When the registry held
exactly the two keys A (the default) and B, the only key left is B and B is the default. -/
theorem SessionManager.deleteProfile_default_reassigned (s : SessionManager) (P : Profile)
    (hdefault : QHash.contains s._types s._defaultProfile = true)
    (hnodup : (QHash.keys s._types).Nodup)
    (htwo : 2 ≤ QHash.count s._types)
    (hlive : s.profiles.get s.defaultProfile = .ok P)
    (hfav : ∀ k ∈ s._favorites, ∃ p, Profile.path s.profiles (s.profile k) = .ok p)
    (hrest : ∀ k ∈ QHash.keys s._types, k ≠ s._defaultProfile →
      ∃ p, Profile.path (s.profiles.free s.defaultProfile) (QHash.value s._types k 0) = .ok p) :
    ∃ s', SessionManager.deleteProfile s s._defaultProfile = .ok s' ∧
      (∀ k, k ∈ QHash.keys s'._types ↔ k ∈ QHash.keys s._types ∧ k ≠ s._defaultProfile) ∧
      s'.defaultProfileKey ∈ QHash.keys s'._types ∧
      (∀ B, (∀ k, k ∈ QHash.keys s._types ↔ k = s._defaultProfile ∨ k = B) →
        QHash.keys s'._types = [B] ∧ s'.defaultProfileKey = B) := by
  obtain ⟨s', hs'⟩ := SessionManager.deleteProfile_default_returns s P hdefault hnodup htwo
    hlive hfav hrest
  obtain ⟨ht, hd1, -⟩ := SessionManager.deleteProfile_registry s s' _ hs'
  have htype := SessionManager.profile_eq_default_of_key s hdefault
  have hne : s.defaultProfile ≠ 0 := by
    intro e
    rw [e] at hlive
    simp [Heap.get] at hlive
  rw [htype] at ht
  simp only [hne, ne_eq, not_false_eq_true, if_true] at ht
  obtain ⟨rest, hr⟩ := hd1 htype
  have hkeys : ∀ k, k ∈ QHash.keys s'._types ↔
      k ∈ QHash.keys s._types ∧ k ≠ s._defaultProfile := by
    intro k
    rw [ht]
    exact QHash.keys_remove _ _ _
  have hmem : s'._defaultProfile ∈ QHash.keys s'._types := by
    rw [hr]; exact List.mem_cons_self _ _
  refine ⟨s', hs', hkeys, hmem, ?_⟩
  intro B hB
  have hall : ∀ k ∈ QHash.keys s'._types, k = B := by
    intro k hk
    obtain ⟨h1, h2⟩ := (hkeys k).mp hk
    rcases (hB k).mp h1 with h3 | h3
    · exact absurd h3 h2
    · exact h3
  have hnd' : (QHash.keys s'._types).Nodup := by
    rw [ht, QHash.keys_remove_eq]
    exact hnodup.filter _
  have hdB : s'._defaultProfile = B := hall _ hmem
  refine ⟨?_, hdB⟩
  rw [hr] at hall hnd' ⊢
  rw [hdB] at hall hnd' ⊢
  cases rest with
  | nil => rfl
  | cons c t =>
    have hc : c = B := hall c (by simp)
    simp [hc] at hnd'

/-- C1, at a concrete input: the child of the fallback at address 2 has no `Command` of its
own, so it answers with the `Command` of the fallback at address 1. -/
theorem C1_witness :
    Example.withA.profiles.get 2 = .ok Example.profileA ∧
      Profile.property Example.withA.profiles 2 .Command =
        Profile.property Example.withA.profiles 1 .Command ∧
      Profile.property Example.withA.profiles 1 .Command = .ok (.string "/bin/sh") :=
  ⟨rfl, C1_property_falls_back_to_parent Example.withA.profiles 2 1 Example.profileA .Command
    rfl rfl (by decide) rfl, rfl⟩

/-- C2, at a concrete input: the child at address 2 was given `Path` and nothing else;
setting `Name` and `Icon` on its parent at address 1 changes neither answer. -/
theorem C2_witness :
    Profile.isPropertySetAt
        (Example.withA.profiles.set 1
          (((FallbackProfile.new "/bin/sh").setProperty .Name (.string "Other")).setProperty
            .Icon (.string "konsole"))) 2 .Icon = .ok false ∧
      Profile.isPropertySetAt
        (Example.withA.profiles.set 1
          (((FallbackProfile.new "/bin/sh").setProperty .Name (.string "Other")).setProperty
            .Icon (.string "konsole"))) 2 .Path = .ok true :=
  ⟨C2_isPropertySet_is_local Example.withA.profiles _ 2 1 1
      [(.Path, .string "/x/a.profile")] [(.Name, .string "Other"), (.Icon, .string "konsole")]
      .Icon rfl (by decide) rfl,
    C2_isPropertySet_is_local Example.withA.profiles _ 2 1 1
      [(.Path, .string "/x/a.profile")] [(.Name, .string "Other"), (.Icon, .string "konsole")]
      .Path rfl (by decide) rfl⟩

/-- C3, at a concrete input: the child at address 2 overrides the `Command` of its parent. -/
theorem C3_witness :
    ∃ h' : Heap Profile,
      Profile.setPropertyAt Example.withA.profiles 2 .Command (.string "/bin/zsh") = .ok h' ∧
      Profile.property h' 2 .Command = .ok (.string "/bin/zsh") ∧
      (∀ y, y ≠ .Command →
        Profile.property h' 2 y = Profile.property Example.withA.profiles 2 y) ∧
      (∀ z, Profile.property h' Example.profileA._parent z =
        Profile.property Example.withA.profiles Example.profileA._parent z) ∧
      (∀ z, Profile.isPropertySetAt h' Example.profileA._parent z =
        Profile.isPropertySetAt Example.withA.profiles Example.profileA._parent z) :=
  C3_setProperty_frame Example.withA.profiles 2 Example.profileA .Command (.string "/bin/zsh")
    rfl (by decide)

/-- C4, at a concrete input: the registry built by the constructor, then `addProfile` of a
new profile, then `deleteProfile` of the fallback. -/
theorem C4_witness :
    SessionManager.Reachable Example.platform Example.world Example.onlyA ∧
      Example.onlyA.defaultProfileKey ∈ QHash.keys Example.onlyA._types ∧
      Example.onlyA.defaultProfile ≠ 0 :=
  have hreach : SessionManager.Reachable Example.platform Example.world Example.onlyA :=
    .deleteProfile Example.withA _ "0"
      (.addProfile Example.allocatedA _ 2 "/x/a.profile0"
        (.newProfile Example.fresh Example.profileA (.constructed _ rfl)) rfl) rfl
  ⟨hreach, C4_default_key_is_live Example.platform Example.world Example.onlyA hreach rfl⟩

/-- At a concrete input: the fallback under key `0` is the default, the other key is
`/x/a.profile0`, whose profile has a location of its own; after `deleteProfile("0")` that key
is the only one and the default. -/
theorem SessionManager.deleteProfile_default_reassigned_withA :
    ∃ s', SessionManager.deleteProfile Example.withA "0" = .ok s' ∧
      (∀ k, k ∈ QHash.keys s'._types ↔ k ∈ QHash.keys Example.withA._types ∧ k ≠ "0") ∧
      s'.defaultProfileKey ∈ QHash.keys s'._types ∧
      (∀ B, (∀ k, k ∈ QHash.keys Example.withA._types ↔ k = "0" ∨ k = B) →
        QHash.keys s'._types = [B] ∧ s'.defaultProfileKey = B) :=
  SessionManager.deleteProfile_default_reassigned Example.withA (FallbackProfile.new "/bin/sh") rfl (by decide)
    (by decide) rfl (by intro k hk; cases hk)
    (by
      intro k hk hne
      simp only [QHash.keys, Example.withA, List.map_cons, List.map_nil, List.mem_cons,
        List.mem_singleton, List.mem_nil_iff, or_false] at hk
      rcases hk with rfl | rfl
      · exact ⟨"/x/a.profile", rfl⟩
      · exact absurd rfl hne)

/-- C8, at a concrete input: the first profile with location `/x/a.profile` gets the key
`/x/a.profile0`. -/
theorem C8_witness :
    ∃ (n : Nat) (s' : SessionManager),
      SessionManager.addProfile Example.allocatedA 2 =
        .ok ("/x/a.profile" ++ QString.number n, s') ∧
      QHash.contains Example.allocatedA._types ("/x/a.profile" ++ QString.number n) = false ∧
      (∀ m, m < n →
        QHash.contains Example.allocatedA._types ("/x/a.profile" ++ QString.number m) = true) ∧
      List.lookup ("/x/a.profile" ++ QString.number n) s'._types = some 2 ∧
      (∀ k, QHash.contains Example.allocatedA._types k = true →
        List.lookup k s'._types = List.lookup k Example.allocatedA._types) ∧
      (∀ e, e ∈ Example.allocatedA._types → e ∈ s'._types) ∧
      QHash.count s'._types = QHash.count Example.allocatedA._types + 1 ∧
      s'.profiles = Example.allocatedA.profiles :=
  C8_addProfile_fresh_key Example.allocatedA 2 "/x/a.profile" rfl

/-! ## Where `deleteProfile` goes wrong -/

/-- C6: in a registry whose only profile is live and is the default, `deleteProfile` on its
key does not skip the reassignment of the default: it removes the entry and then takes
`_types.keys().first()` of the empty key list. -/
theorem C6_deleteProfile_sole_profile_faults (s : SessionManager) (key : String) (type : Ptr)
    (P : Profile) (hsole : s._types = [(key, type)]) (hdefault : s._defaultProfile = key)
    (hlive : s.profiles.get type = .ok P)
    (hfav : ∀ k ∈ s._favorites, ∃ p, Profile.path s.profiles (s.profile k) = .ok p) :
    SessionManager.deleteProfile s key = .error .firstOfEmptyList := by
  obtain ⟨s1, hs1⟩ := SessionManager.setFavorite_false_returns s key hfav
  obtain ⟨f1, f2, f3, -, -⟩ := SessionManager.setFavorite_frame _ _ _ _ hs1
  have hc : QHash.contains s._types s._defaultProfile = true := by
    simp [hsole, hdefault, QHash.contains, QHash.lookup_cons_if]
  have hdef : SessionManager.defaultProfile s = type := by
    simp [SessionManager.defaultProfile, hsole, hdefault, QHash.value, QHash.lookup_cons_if]
  have htype : SessionManager.profile s key = type := by
    have := SessionManager.profile_eq_default_of_key s hc
    rw [hdefault, hdef] at this
    exact this
  have hdef1 : SessionManager.defaultProfile s1 = type := by
    simp only [SessionManager.defaultProfile, f1, f2]
    exact hdef
  obtain ⟨s2, hs2, r1, -, -⟩ := SessionManager.deleteProfileRemove_returns s1 key type P
    (by rw [f3]; exact hlive)
  have hkeys : QHash.keys s2._types = [] := by
    rw [r1, f1, hsole]
    simp [QHash.remove, QHash.keys]
  unfold SessionManager.deleteProfile
  simp only [hs1, htype, hdef1, hs2, bind, Except.bind, decide_True,
    SessionManager.deleteProfileDefault, if_true, hkeys]

/-- C6, at a concrete input: the freshly constructed registry and the key `0` of its only
profile. -/
theorem C6_witness :
    SessionManager.new Example.platform Example.world = .ok Example.fresh ∧
      Example.fresh._types = [("0", 1)] ∧
      SessionManager.deleteProfile Example.fresh "0" = .error .firstOfEmptyList :=
  ⟨rfl, rfl, C6_deleteProfile_sole_profile_faults Example.fresh "0" 1
    (FallbackProfile.new "/bin/sh") rfl rfl rfl (by intro k hk; cases hk)⟩

/-- C7: the empty key is not a key of the registry holding the fallback under `0` (the
default) and a second profile under `/x/a.profile0`, yet `deleteProfile("")` returns with the
default key changed and with the object of the fallback deleted, while `0` still maps to
its address. -/
theorem C7_deleteProfile_empty_key_deletes_default :
    QHash.contains Example.withA._types "" = false ∧
      SessionManager.deleteProfile Example.withA "" = .ok Example.afterEmptyKey ∧
      Example.withA.defaultProfileKey = "0" ∧
      Example.afterEmptyKey.defaultProfileKey = "/x/a.profile0" ∧
      Example.afterEmptyKey._types = Example.withA._types ∧
      Example.withA.profiles.get (Example.withA.profile "0") =
        .ok (FallbackProfile.new "/bin/sh") ∧
      Example.afterEmptyKey.profiles.get (Example.afterEmptyKey.profile "0") =
        .error .nullDereference :=
  ⟨rfl, rfl, rfl, rfl, rfl, rfl, rfl⟩

/-- For a key that is neither empty nor a key of the mapping, in a registry whose default
key is live and whose favourites resolve, `deleteProfile` returns and leaves the mapping,
the profile objects and the default key as they were. -/
theorem SessionManager.deleteProfile_absent_key (s : SessionManager) (key : String)
    (hdefault : QHash.contains s._types s._defaultProfile = true)
    (hvalues : ∀ e ∈ s._types, e.2 ≠ 0)
    (hkey : QString.isEmpty key = false) (habsent : QHash.contains s._types key = false)
    (hfav : ∀ k ∈ s._favorites, ∃ p, Profile.path s.profiles (s.profile k) = .ok p) :
    ∃ s', SessionManager.deleteProfile s key = .ok s' ∧ s'._types = s._types ∧
      s'._defaultProfile = s._defaultProfile ∧ s'.profiles = s.profiles := by
  obtain ⟨s1, hs1⟩ := SessionManager.setFavorite_false_returns s key hfav
  obtain ⟨f1, f2, f3, -, -⟩ := SessionManager.setFavorite_frame _ _ _ _ hs1
  have htype : SessionManager.profile s key = 0 := by
    simp [SessionManager.profile, hkey, habsent]
  have hdef1 : SessionManager.defaultProfile s1 ≠ 0 := by
    simp only [SessionManager.defaultProfile, f1, f2]
    exact QHash.value_ne_of_mem _ _ _ hdefault hvalues
  refine ⟨{ s1 with emitted := s1.emitted ++ [.profileRemoved key] }, ?_, f1, f2, f3⟩
  unfold SessionManager.deleteProfile
  have hd : decide (0 = SessionManager.defaultProfile s1) = false := by
    simpa using fun e => hdef1 e.symm
  simp only [hs1, htype, bind, Except.bind, SessionManager.deleteProfileRemove, ne_eq,
    not_true_eq_false, if_false, pure, Except.pure, hd, SessionManager.deleteProfileDefault,
    Bool.false_eq_true]

/-! ## The constructor -/

theorem Heap.get_alloc {α : Type} (h : Heap α) (a : α) :
    (h.alloc a).2.get (h.alloc a).1 = .ok a := by
  simp [Heap.alloc, Heap.get, QHash.lookup_cons_if]

theorem QString.append_ne_zero (path suffix : String) (c : Char) (rest : List Char)
    (hpath : path.data = c :: rest) (hc : c ≠ '0') : path ++ suffix ≠ "0" := by
  intro h
  have h2 := congrArg String.data h
  rw [String.data_append, hpath] at h2
  exact hc (List.head_eq_of_cons_eq h2)

theorem QString.append_zero_ne_zero (path : String) (hpath : path ≠ "") :
    path ++ QString.number 0 ≠ "0" := by
  intro h
  have h2 := congrArg String.data h
  rw [String.data_append] at h2
  have h3 : path.data ++ ['0'] = [] ++ ['0'] := h2
  have h4 := List.append_cancel_right h3
  exact hpath (String.ext h4)

theorem Profile.setProperty_keeps (P : Profile) (x : Property) (v : QVariant)
    (hx : Property.Path ≠ x) :
    (P.setProperty x v)._parent = P._parent ∧ (P.setProperty x v)._hidden = P._hidden ∧
      List.lookup Property.Path (P.setProperty x v)._propertyValues =
        List.lookup Property.Path P._propertyValues :=
  ⟨rfl, rfl, QHash.lookup_insert_ne _ _ hx⟩

theorem readEntryIf_keeps (config : KConfig) (group key entry : String) (x : Property)
    (P : Profile) (hx : Property.Path ≠ x) :
    (readEntryIf config group key entry x P)._parent = P._parent ∧
      (readEntryIf config group key entry x P)._hidden = P._hidden ∧
      List.lookup Property.Path (readEntryIf config group key entry x P)._propertyValues =
        List.lookup Property.Path P._propertyValues := by
  unfold readEntryIf
  split
  · exact Profile.setProperty_keeps P x _ hx
  · exact ⟨rfl, rfl, rfl⟩

theorem KDE4ProfileReader.readCommand_keeps (env : Platform) (config : KConfig) (P : Profile) :
    (KDE4ProfileReader.readCommand env config P)._parent = P._parent ∧
      (KDE4ProfileReader.readCommand env config P)._hidden = P._hidden ∧
      List.lookup Property.Path (KDE4ProfileReader.readCommand env config P)._propertyValues =
        List.lookup Property.Path P._propertyValues := by
  unfold KDE4ProfileReader.readCommand
  split
  · obtain ⟨a1, a2, a3⟩ := Profile.setProperty_keeps P .Command
      (.string (env.shellCommandCommand (config.readEntry "General" "Command"))) (by decide)
    obtain ⟨b1, b2, b3⟩ := Profile.setProperty_keeps (P.setProperty .Command
      (.string (env.shellCommandCommand (config.readEntry "General" "Command")))) .Arguments
      (.stringList (env.shellCommandArguments (config.readEntry "General" "Command")))
      (by decide)
    exact ⟨b1.trans a1, b2.trans a2, b3.trans a3⟩
  · exact ⟨rfl, rfl, rfl⟩

theorem KDE4ProfileReader.readProfile_keeps (env : Platform) (config : KConfig) (P : Profile) :
    (KDE4ProfileReader.readProfile env config P).1 = config.hasKey "General" "Name" ∧
      (KDE4ProfileReader.readProfile env config P).2._parent = P._parent ∧
      (KDE4ProfileReader.readProfile env config P).2._hidden = P._hidden ∧
      List.lookup Property.Path (KDE4ProfileReader.readProfile env config P).2._propertyValues =
        List.lookup Property.Path P._propertyValues := by
  unfold KDE4ProfileReader.readProfile
  by_cases hn : config.hasKey "General" "Name" = true
  · simp only [hn, if_true]
    obtain ⟨a1, a2, a3⟩ := Profile.setProperty_keeps P .Name
      (.string (config.readEntry "General" "Name")) (by decide)
    obtain ⟨b1, b2, b3⟩ := KDE4ProfileReader.readCommand_keeps env config
      (P.setProperty .Name (.string (config.readEntry "General" "Name")))
    obtain ⟨c1, c2, c3⟩ := readEntryIf_keeps config "General" "Icon" "Icon" .Icon
      (KDE4ProfileReader.readCommand env config
        (P.setProperty .Name (.string (config.readEntry "General" "Name")))) (by decide)
    obtain ⟨d1, d2, d3⟩ := readEntryIf_keeps config "General" "LocalTabTitleFormat"
      "LocalTabTitleFormat" .LocalTabTitleFormat
      (readEntryIf config "General" "Icon" "Icon" .Icon
        (KDE4ProfileReader.readCommand env config
          (P.setProperty .Name (.string (config.readEntry "General" "Name"))))) (by decide)
    obtain ⟨e1, e2, e3⟩ := readEntryIf_keeps config "General" "RemoteTabTitleFormat"
      "RemoteTabTitleFormat" .RemoteTabTitleFormat
      (readEntryIf config "General" "LocalTabTitleFormat" "LocalTabTitleFormat"
        .LocalTabTitleFormat
        (readEntryIf config "General" "Icon" "Icon" .Icon
          (KDE4ProfileReader.readCommand env config
            (P.setProperty .Name (.string (config.readEntry "General" "Name"))))))
      (by decide)
    obtain ⟨f1, f2, f3⟩ := readEntryIf_keeps config "Appearence" "ColorScheme" "Color Scheme"
      .ColorScheme
      (readEntryIf config "General" "RemoteTabTitleFormat" "RemoteTabTitleFormat"
        .RemoteTabTitleFormat
        (readEntryIf config "General" "LocalTabTitleFormat" "LocalTabTitleFormat"
          .LocalTabTitleFormat
          (readEntryIf config "General" "Icon" "Icon" .Icon
            (KDE4ProfileReader.readCommand env config
              (P.setProperty .Name (.string (config.readEntry "General" "Name")))))))
      (by decide)
    obtain ⟨g1, g2, g3⟩ := readEntryIf_keeps config "Appearence" "Font" "Font" .Font
      (readEntryIf config "Appearence" "ColorScheme" "Color Scheme" .ColorScheme
        (readEntryIf config "General" "RemoteTabTitleFormat" "RemoteTabTitleFormat"
          .RemoteTabTitleFormat
          (readEntryIf config "General" "LocalTabTitleFormat" "LocalTabTitleFormat"
            .LocalTabTitleFormat
            (readEntryIf config "General" "Icon" "Icon" .Icon
              (KDE4ProfileReader.readCommand env config
                (P.setProperty .Name (.string (config.readEntry "General" "Name"))))))))
      (by decide)
    exact ⟨trivial, by rw [g1, f1, e1, d1, c1, b1, a1], by rw [g2, f2, e2, d2, c2, b2, a2],
      by rw [g3, f3, e3, d3, c3, b3, a3]⟩
  · simp [hn]

theorem Profile.lookup_setProperty_ne (P : Profile) (x y : Property) (v : QVariant)
    (hy : y ≠ x) :
    List.lookup y (P.setProperty x v)._propertyValues = List.lookup y P._propertyValues :=
  QHash.lookup_insert_ne _ _ hy

theorem readEntryIf_lookup_ne (config : KConfig) (group key entry : String) (x y : Property)
    (P : Profile) (hy : y ≠ x) :
    List.lookup y (readEntryIf config group key entry x P)._propertyValues =
      List.lookup y P._propertyValues := by
  unfold readEntryIf
  split
  · exact Profile.lookup_setProperty_ne P x y _ hy
  · rfl

theorem KDE4ProfileReader.readCommand_lookup_ne (env : Platform) (config : KConfig)
    (P : Profile) (y : Property) (h1 : y ≠ .Command) (h2 : y ≠ .Arguments) :
    List.lookup y (KDE4ProfileReader.readCommand env config P)._propertyValues =
      List.lookup y P._propertyValues := by
  unfold KDE4ProfileReader.readCommand
  split
  · rw [Profile.lookup_setProperty_ne _ _ _ _ h2, Profile.lookup_setProperty_ne _ _ _ _ h1]
  · rfl

theorem Profile.stringProperty_local (h : Heap Profile) (p : Ptr) (P : Profile) (x : Property)
    (v : QVariant) (hP : h.get p = .ok P) (hx : List.lookup x P._propertyValues = some v) :
    Profile.stringProperty h p x = .ok v.toQString := by
  have hset : P.isPropertySet x = true := by
    simp [Profile.isPropertySet, QHash.contains, hx]
  simp [Profile.stringProperty, Profile.property_local h p P x hP hset, QHash.value, hx]

theorem SessionManager.new_eq (env : Platform) (world : World) :
    SessionManager.new env world =
      if !(QString.isEmpty (SessionManager.storedDefaultPath env world)) then
        (SessionManager.loadProfile env (SessionManager.fallbackOnly env.shell world)
          (SessionManager.storedDefaultPath env world)) >>= fun r =>
          if !(QString.isEmpty r.1) then pure { r.2 with _defaultProfile := r.1 } else pure r.2
      else pure (SessionManager.fallbackOnly env.shell world) := by
  rfl

theorem SessionManager.loadProfileRead_path (env : Platform) (s : SessionManager)
    (path : String) :
    (SessionManager.loadProfileRead env s path).1 =
        KConfig.hasKey (QHash.value s.world.files path []) "General" "Name" ∧
      (SessionManager.loadProfileRead env s path).2._parent = s.defaultProfile ∧
      (SessionManager.loadProfileRead env s path).2._hidden = false ∧
      (SessionManager.loadProfileRead env s path).2.isPropertySet .Path = true ∧
      QHash.value (SessionManager.loadProfileRead env s path).2._propertyValues .Path .invalid =
        .string path := by
  obtain ⟨h1, h2, h3, h4⟩ := KDE4ProfileReader.readProfile_keeps env
    (QHash.value s.world.files path [])
    ((Profile.new (SessionManager.defaultProfile s)).setProperty .Path (.string path))
  have h5 : List.lookup Property.Path ((Profile.new (SessionManager.defaultProfile s)).setProperty
      .Path (.string path))._propertyValues = some (.string path) :=
    QHash.lookup_insert_self _ _ _
  unfold SessionManager.loadProfileRead
  refine ⟨h1, h2, h3, ?_, ?_⟩
  · simp only [Profile.isPropertySet, QHash.contains, h4, h5, Option.isSome_some]
  · have hv : ∀ m : QHash Property QVariant,
        List.lookup Property.Path m = some (.string path) →
        QHash.value m .Path .invalid = .string path := by
      intro m hm
      simp [QHash.value, hm]
    exact hv _ (h4.trans h5)

theorem SessionManager.loadProfile_fallbackOnly (env : Platform) (shell : String)
    (world : World) (path : String) (hpath : path ≠ "") :
    SessionManager.loadProfile env (SessionManager.fallbackOnly shell world) path =
      if QString.endsWith path ".desktop" then
        .ok ("", SessionManager.fallbackOnly shell world)
      else if KConfig.hasKey (QHash.value world.files path []) "General" "Name" then
        .ok (path ++ "0",
          { SessionManager.fallbackOnly shell world with
            _types := [(path ++ "0", 2), ("0", 1)],
            profiles := ⟨[(2, (SessionManager.loadProfileRead env
              (SessionManager.fallbackOnly shell world) path).2),
              (1, FallbackProfile.new shell)], 2⟩,
            emitted := [.profileAdded "0", .profileAdded (path ++ "0")] })
      else
        .ok ("", { SessionManager.fallbackOnly shell world with
          profiles := ⟨[(1, FallbackProfile.new shell)], 2⟩ }) := by
  have hfb : Profile.path (SessionManager.fallbackOnly shell world).profiles 1 = .ok "" := rfl
  have hne : ¬ ("" = path) := fun e => hpath e.symm
  have hfound : SessionManager.alreadyLoaded (SessionManager.fallbackOnly shell world).profiles
      path (SessionManager.fallbackOnly shell world)._types = .ok false := by
    show SessionManager.alreadyLoaded _ path [("0", 1)] = .ok false
    simp only [SessionManager.alreadyLoaded, hfb, bind, Except.bind, hne, if_false]
    rfl
  obtain ⟨r1, -, -, r4, r5⟩ := SessionManager.loadProfileRead_path env
    (SessionManager.fallbackOnly shell world) path
  unfold SessionManager.loadProfile
  simp only [hfound, bind, Except.bind, Bool.false_eq_true, if_false]
  by_cases hd : QString.endsWith path ".desktop" = true
  · simp only [hd, if_true]
    rfl
  · simp only [hd, Bool.false_eq_true, if_false, r1]
    by_cases hk : KConfig.hasKey (QHash.value world.files path []) "General" "Name" = true
    · have hk' : KConfig.hasKey (QHash.value (SessionManager.fallbackOnly shell world).world.files
          path []) "General" "Name" = true := hk
      simp only [hk, hk', if_true]
      have hp : Profile.path ({ SessionManager.fallbackOnly shell world with
          profiles := ((SessionManager.fallbackOnly shell world).profiles.alloc
            (SessionManager.loadProfileRead env (SessionManager.fallbackOnly shell world)
              path).2).2 } : SessionManager).profiles
          ((SessionManager.fallbackOnly shell world).profiles.alloc
            (SessionManager.loadProfileRead env (SessionManager.fallbackOnly shell world)
              path).2).1 = .ok path := by
        simp only [Profile.path, Profile.stringProperty,
          Profile.property_local _ _ _ .Path (Heap.get_alloc _ _) r4, r5]
        rfl
      have hz := QString.append_zero_ne_zero path hpath
      have hn : SessionManager.addProfileCounter [("0", 1)] path 2 0 = some 0 := by
        simp [SessionManager.addProfileCounter, QHash.contains, QHash.lookup_cons_if, hz]
      rw [SessionManager.addProfile_eq _ _ path 0 hp hn]
      have hz2 : ¬ ("0" = path ++ QString.number 0) := fun e => hz e.symm
      have hins : ∀ v : Ptr, QHash.insert [("0", 1)] (path ++ QString.number 0) v =
          [(path ++ QString.number 0, v), ("0", 1)] := by
        intro v
        simp [QHash.insert, QHash.remove, List.filter_cons, hz2]
      simp only [SessionManager.fallbackOnly, hins]
      rfl
    · have hk' : ¬ KConfig.hasKey (QHash.value (SessionManager.fallbackOnly shell world).world.files
          path []) "General" "Name" = true := hk
      simp only [hk, hk', if_false]
      rfl

/-- C10, as stated, fails where a stored default profile exists: the freshly constructed
registry then holds two profiles, and its default key resolves to the stored profile, named
`Stored` here, which is not hidden. -/
theorem C10_counterexample_stored_default :
    SessionManager.new Example.platformStored Example.worldStored = .ok Example.freshStored ∧
      QHash.count Example.freshStored._types = 2 ∧
      Profile.name Example.freshStored.profiles
        (Example.freshStored.profile Example.freshStored.defaultProfileKey) = .ok "Stored" ∧
      Profile.isHidden <$> Example.freshStored.profiles.get
        (Example.freshStored.profile Example.freshStored.defaultProfileKey) = .ok false :=
  ⟨rfl, rfl, rfl, rfl⟩

theorem QString.isEmpty_append_zero (path : String) : QString.isEmpty (path ++ "0") = false := by
  have hne : path ++ "0" ≠ "" := by
    intro h
    have h2 := congrArg String.data h
    rw [String.data_append] at h2
    have h3 : (path.data ++ ['0']).length = 0 := by rw [h2]; rfl
    simp at h3
  simp [QString.isEmpty, hne]

/-- C10, amended: the constructor returns, and the freshly constructed registry holds the
built-in fallback, hidden and named `Shell`, at address 1 under the key `0`.  When the
constructor loads no stored default profile the fallback is the only entry and the default;
when it loads one, the registry holds two profiles and the default key is the key of the
loaded profile, which is not hidden, has the fallback as parent, the stored path as
location and, as its name, the entry `Name` of the group `General` of the file at that
path. -/
theorem C10_fresh_registry_amended (env : Platform) (world : World) :
    ∃ s, SessionManager.new env world = .ok s ∧
      s.profile "0" = 1 ∧
      s.profiles.get 1 = .ok (FallbackProfile.new env.shell) ∧
      (FallbackProfile.new env.shell).isHidden = true ∧
      Profile.name s.profiles 1 = .ok "Shell" ∧
      (SessionManager.loadsStoredDefault env world = false →
        s._types = [("0", 1)] ∧ s.defaultProfileKey = "0") ∧
      (SessionManager.loadsStoredDefault env world = true →
        QHash.count s._types = 2 ∧
        s.defaultProfileKey = SessionManager.storedDefaultPath env world ++ "0" ∧
        s.profile s.defaultProfileKey = 2 ∧
        ∃ P, s.profiles.get 2 = .ok P ∧ P.isHidden = false ∧ P.parent = 1 ∧
          Profile.path s.profiles 2 = .ok (SessionManager.storedDefaultPath env world) ∧
          Profile.name s.profiles 2 = .ok (KConfig.readEntry
            (QHash.value world.files (SessionManager.storedDefaultPath env world) [])
            "General" "Name")) := by
  rw [SessionManager.new_eq]
  by_cases he : QString.isEmpty (SessionManager.storedDefaultPath env world) = true
  · refine ⟨SessionManager.fallbackOnly env.shell world, by simp [he]; rfl, rfl, rfl, rfl, rfl,
      fun _ => ⟨rfl, rfl⟩, ?_⟩
    intro hl
    simp [SessionManager.loadsStoredDefault, he] at hl
  · have hpath : SessionManager.storedDefaultPath env world ≠ "" := by
      simpa [QString.isEmpty] using he
    have he' : (!QString.isEmpty (SessionManager.storedDefaultPath env world)) = true := by
      simpa using he
    rw [if_pos he', SessionManager.loadProfile_fallbackOnly env _ world _ hpath]
    by_cases hd : QString.endsWith (SessionManager.storedDefaultPath env world) ".desktop" = true
    · refine ⟨SessionManager.fallbackOnly env.shell world, ?_, rfl, rfl, rfl, rfl,
        fun _ => ⟨rfl, rfl⟩, ?_⟩
      · simp only [hd, if_true, bind, Except.bind]
        rfl
      · intro hl
        simp [SessionManager.loadsStoredDefault, hd] at hl
    · by_cases hk : KConfig.hasKey
          (QHash.value world.files (SessionManager.storedDefaultPath env world) [])
          "General" "Name" = true
      · obtain ⟨-, r2, r3, r4, r5⟩ := SessionManager.loadProfileRead_path env
          (SessionManager.fallbackOnly env.shell world)
          (SessionManager.storedDefaultPath env world)
        have hz : ¬ ("0" = SessionManager.storedDefaultPath env world ++ "0") :=
          fun e => QString.append_zero_ne_zero _ hpath e.symm
        refine ⟨{ SessionManager.fallbackOnly env.shell world with
            _types := [(SessionManager.storedDefaultPath env world ++ "0", 2), ("0", 1)],
            _defaultProfile := SessionManager.storedDefaultPath env world ++ "0",
            profiles := ⟨[(2, (SessionManager.loadProfileRead env
              (SessionManager.fallbackOnly env.shell world)
              (SessionManager.storedDefaultPath env world)).2),
              (1, FallbackProfile.new env.shell)], 2⟩,
            emitted := [.profileAdded "0",
              .profileAdded (SessionManager.storedDefaultPath env world ++ "0")] },
          ?_, ?_, rfl, rfl, rfl, ?_, ?_⟩
        · simp only [hd, hk, Bool.false_eq_true, if_false, if_true, bind, Except.bind,
            QString.isEmpty_append_zero, Bool.not_false]
          rfl
        · simp [SessionManager.profile, QString.isEmpty, QHash.contains, QHash.value,
            QHash.lookup_cons_if, hz]
        · intro hl
          simp [SessionManager.loadsStoredDefault, he, hd, hk] at hl
        · intro _
          have hg : (⟨[(2, (SessionManager.loadProfileRead env
              (SessionManager.fallbackOnly env.shell world)
              (SessionManager.storedDefaultPath env world)).2),
              (1, FallbackProfile.new env.shell)], 2⟩ : Heap Profile).get 2 =
              .ok (SessionManager.loadProfileRead env
                (SessionManager.fallbackOnly env.shell world)
                (SessionManager.storedDefaultPath env world)).2 := rfl
          refine ⟨rfl, rfl, ?_, _, rfl, r3, r2, ?_, ?_⟩
          · simp [SessionManager.profile, SessionManager.defaultProfileKey,
              QString.isEmpty_append_zero, QHash.contains, QHash.value, QHash.lookup_cons_if]
          · simp only [Profile.path, Profile.stringProperty,
              Profile.property_local _ 2 _ .Path hg r4, r5]
            rfl
          · have hname : List.lookup Property.Name (SessionManager.loadProfileRead env
                (SessionManager.fallbackOnly env.shell world)
                (SessionManager.storedDefaultPath env world)).2._propertyValues =
                some (.string (KConfig.readEntry
                  (QHash.value world.files (SessionManager.storedDefaultPath env world) [])
                  "General" "Name")) := by
              have hk1 : KConfig.hasKey
                  (QHash.value (SessionManager.fallbackOnly env.shell world).world.files
                    (SessionManager.storedDefaultPath env world) []) "General" "Name" = true := hk
              unfold SessionManager.loadProfileRead KDE4ProfileReader.readProfile
              simp only [hk1, if_true]
              rw [readEntryIf_lookup_ne _ _ _ _ _ _ _ (by decide),
                readEntryIf_lookup_ne _ _ _ _ _ _ _ (by decide),
                readEntryIf_lookup_ne _ _ _ _ _ _ _ (by decide),
                readEntryIf_lookup_ne _ _ _ _ _ _ _ (by decide),
                readEntryIf_lookup_ne _ _ _ _ _ _ _ (by decide),
                KDE4ProfileReader.readCommand_lookup_ne _ _ _ _ (by decide) (by decide)]
              exact QHash.lookup_insert_self _ _ _
            rw [Profile.name, Profile.stringProperty_local _ 2 _ .Name _ hg hname]
            rfl
      · refine ⟨{ SessionManager.fallbackOnly env.shell world with
            profiles := ⟨[(1, FallbackProfile.new env.shell)], 2⟩ }, ?_, rfl, rfl, rfl, rfl,
          fun _ => ⟨rfl, rfl⟩, ?_⟩
        · simp only [hd, hk, Bool.false_eq_true, if_false, bind, Except.bind]
          rfl
        · intro hl
          simp [SessionManager.loadsStoredDefault, hk] at hl

/-- C10 amended, at the two concrete worlds: without a stored default profile the fallback
is alone and the default; with the stored profile `Shell.profile` there are two entries and
the default is the loaded profile, named `Stored` as the file says. -/
theorem C10_witness :
    (∃ s, SessionManager.new Example.platform Example.world = .ok s ∧
      s._types = [("0", 1)] ∧ s.defaultProfileKey = "0" ∧
      Profile.name s.profiles (s.profile s.defaultProfileKey) = .ok "Shell") ∧
    (∃ s, SessionManager.new Example.platformStored Example.worldStored = .ok s ∧
      QHash.count s._types = 2 ∧
      s.defaultProfileKey = "/usr/share/apps/konsole/Shell.profile0" ∧
      Profile.name s.profiles (s.profile s.defaultProfileKey) = .ok "Stored") := by
  obtain ⟨s, h1, h2, -, -, h5, h6, -⟩ :=
    C10_fresh_registry_amended Example.platform Example.world
  obtain ⟨t, g1, -, -, -, -, -, g7⟩ :=
    C10_fresh_registry_amended Example.platformStored Example.worldStored
  obtain ⟨c1, c2, c3, P, -, -, -, -, c8⟩ := g7 rfl
  refine ⟨⟨s, h1, (h6 rfl).1, (h6 rfl).2, ?_⟩, ⟨t, g1, c1, c2, ?_⟩⟩
  · rw [(h6 rfl).2, h2]
    exact h5
  · rw [c3, c8]
    rfl

/-! ## The default key and `addProfile` -/

theorem SessionManager.new_default_without_stored (env : Platform) (world : World)
    (s0 : SessionManager) (hnew : SessionManager.new env world = .ok s0)
    (hl : SessionManager.loadsStoredDefault env world = false) :
    s0._defaultProfile = "0" := by
  rw [SessionManager.new_eq] at hnew
  by_cases he : QString.isEmpty (SessionManager.storedDefaultPath env world) = true
  · simp only [he, Bool.not_true, Bool.false_eq_true, if_false, pure_eq_ok] at hnew
    rw [← hnew]
    rfl
  · have hpath : SessionManager.storedDefaultPath env world ≠ "" := by
      simpa [QString.isEmpty] using he
    have he' : (!QString.isEmpty (SessionManager.storedDefaultPath env world)) = true := by
      simpa using he
    rw [if_pos he', SessionManager.loadProfile_fallbackOnly env _ world _ hpath] at hnew
    by_cases hd : QString.endsWith (SessionManager.storedDefaultPath env world) ".desktop" = true
    · simp only [hd, if_true, bind, Except.bind] at hnew
      have h2 : SessionManager.fallbackOnly env.shell world = s0 := by
        simpa [QString.isEmpty, pure, Except.pure] using hnew
      rw [← h2]
      rfl
    · have hk : KConfig.hasKey
          (QHash.value world.files (SessionManager.storedDefaultPath env world) [])
          "General" "Name" = false := by
        simpa [SessionManager.loadsStoredDefault, he, hd] using hl
      simp only [hd, hk, Bool.false_eq_true, if_false, bind, Except.bind] at hnew
      have h2 : ({ SessionManager.fallbackOnly env.shell world with
          profiles := ⟨[(1, FallbackProfile.new env.shell)], 2⟩ } : SessionManager) = s0 := by
        simpa [QString.isEmpty, pure, Except.pure] using hnew
      rw [← h2]
      rfl

/-- C9, as stated, fails where the constructor has loaded a stored default profile: the
fresh registry then has that profile, not the fallback, as its default, and it is still the
default after `addProfile` of a profile with location `/x/a.profile`. -/
theorem C9_counterexample_default_is_not_fallback :
    SessionManager.new Example.platformStored Example.worldStored = .ok Example.freshStored ∧
      SessionManager.addProfile Example.allocatedAStored 3 =
        .ok ("/x/a.profile0", Example.withAStored) ∧
      Example.withAStored.defaultProfileKey = "/usr/share/apps/konsole/Shell.profile0" ∧
      Example.withAStored.profile "0" = 1 ∧
      Example.withAStored.profiles.get 1 = .ok (FallbackProfile.new "/bin/sh") ∧
      Example.withAStored.defaultProfile = 2 ∧
      Profile.name Example.withAStored.profiles Example.withAStored.defaultProfile =
        .ok "Stored" ∧
      Profile.isHidden <$> Example.withAStored.profiles.get Example.withAStored.defaultProfile =
        .ok false :=
  ⟨rfl, rfl, rfl, rfl, rfl, rfl, rfl, rfl⟩

/-- C9, amended: `addProfile` makes the returned key the default exactly when the mapping
is empty at the call; in a registry reached from the constructor the mapping is never
empty, so there the default key is unchanged and differs from the returned key; adding a
profile with location `/x/a.profile` to a freshly constructed registry returns a key other
than the key `0` of the fallback and leaves as default what the constructor made the
default, which is the fallback when the constructor loaded no stored default profile. -/
theorem C9_addProfile_default_amended :
    (∀ (s s' : SessionManager) (type : Ptr) (key : String),
      SessionManager.addProfile s type = .ok (key, s') →
      s'.defaultProfileKey = if QHash.isEmpty s._types then key else s.defaultProfileKey) ∧
    (∀ (env : Platform) (world : World) (s s' : SessionManager) (type : Ptr) (key : String),
      SessionManager.Reachable env world s →
      SessionManager.addProfile s type = .ok (key, s') →
      QHash.isEmpty s._types = false ∧ s'.defaultProfileKey = s.defaultProfileKey ∧
        key ≠ s.defaultProfileKey) ∧
    (∀ (env : Platform) (world : World) (s0 : SessionManager) (P : Profile),
      SessionManager.new env world = .ok s0 →
      P.isPropertySet .Path = true →
      QHash.value P._propertyValues .Path .invalid = .string "/x/a.profile" →
      ∃ (n : Nat) (s' : SessionManager),
        SessionManager.addProfile { s0 with profiles := (s0.profiles.alloc P).2 }
          (s0.profiles.alloc P).1 = .ok ("/x/a.profile" ++ QString.number n, s') ∧
        "/x/a.profile" ++ QString.number n ≠ "0" ∧
        s'.defaultProfileKey = s0.defaultProfileKey ∧
        (SessionManager.loadsStoredDefault env world = false →
          s'.defaultProfileKey = "0")) := by
  refine ⟨?_, ?_, ?_⟩
  · intro s s' type key h
    obtain ⟨path, n, -, -, -, rfl⟩ := SessionManager.addProfile_ok _ _ _ _ h
    rfl
  · intro env world s s' type key hreach h
    obtain ⟨hc, -⟩ := SessionManager.reachable_consistent env world s hreach
    obtain ⟨path, n, -, hn, rfl, rfl⟩ := SessionManager.addProfile_ok _ _ _ _ h
    have hne : QHash.isEmpty s._types = false := by
      cases ht : s._types with
      | nil => rw [ht] at hc; simp [QHash.contains] at hc
      | cons e t => rfl
    refine ⟨hne, by simp [SessionManager.defaultProfileKey, hne], ?_⟩
    intro e
    obtain ⟨-, -, hfree, -⟩ := SessionManager.addProfileCounter_spec _ _ _ _ _ hn
    rw [e] at hfree
    simp only [SessionManager.defaultProfileKey] at hfree
    rw [hc] at hfree
    cases hfree
  · intro env world s0 P hnew hset hval
    have hc := (SessionManager.new_consistent env world s0 hnew).1
    have hne : QHash.isEmpty s0._types = false := by
      cases ht : s0._types with
      | nil => rw [ht] at hc; simp [QHash.contains] at hc
      | cons e t => rfl
    have hpath : Profile.path ({ s0 with profiles := (s0.profiles.alloc P).2 } :
        SessionManager).profiles (s0.profiles.alloc P).1 = .ok "/x/a.profile" := by
      simp only [Profile.path, Profile.stringProperty,
        Profile.property_local _ _ P .Path (Heap.get_alloc s0.profiles P) hset, hval]
      rfl
    obtain ⟨n, hn⟩ := Option.isSome_iff_exists.mp
      (SessionManager.addProfileCounter_isSome s0._types "/x/a.profile")
    have hadd := SessionManager.addProfile_eq
      { s0 with profiles := (s0.profiles.alloc P).2 } _ "/x/a.profile" n hpath hn
    have hd : ∀ k : String, (if QHash.isEmpty s0._types = true then k
        else s0._defaultProfile) = s0._defaultProfile := by
      intro k
      simp [hne]
    refine ⟨n, _, hadd, QString.append_ne_zero _ _ '/' _ rfl (by decide), hd _, ?_⟩
    intro hl
    exact (hd _).trans (SessionManager.new_default_without_stored env world s0 hnew hl)

/-- C9 amended, at concrete inputs: on the registry built without a stored default profile
the returned key is `/x/a.profile0` and the default stays `0`, the fallback. -/
theorem C9_witness :
    ∃ (n : Nat) (s' : SessionManager),
      SessionManager.addProfile
        { Example.fresh with profiles := (Example.fresh.profiles.alloc Example.profileA).2 }
        (Example.fresh.profiles.alloc Example.profileA).1 =
          .ok ("/x/a.profile" ++ QString.number n, s') ∧
      "/x/a.profile" ++ QString.number n ≠ "0" ∧
      s'.defaultProfileKey = "0" :=
  have h := C9_addProfile_default_amended.2.2 Example.platform Example.world Example.fresh
    Example.profileA rfl rfl rfl
  h.imp fun _ hn => hn.imp fun _ hs => ⟨hs.1, hs.2.1, hs.2.2.2 rfl⟩

/-! ## Loading a profile -/

theorem QString.number_ne_empty (n : Nat) : (QString.number n).data ≠ [] := by
  intro h
  have h1 : ((decimalDigits (n + 1) n).reverse.map digitChar).length = 0 := by
    have h2 : (QString.number n).data = (decimalDigits (n + 1) n).reverse.map digitChar := rfl
    rw [← h2, h]
    rfl
  rw [decimalDigits] at h1
  split at h1 <;> simp at h1

theorem QString.append_number_ne_empty (path : String) (n : Nat) :
    path ++ QString.number n ≠ "" := by
  intro h
  have h2 := congrArg String.data h
  rw [String.data_append] at h2
  have h3 : path.data ++ (QString.number n).data = [] := h2
  exact QString.number_ne_empty n (List.append_eq_nil.mp h3).2

theorem SessionManager.loadProfile_reads (env : Platform) (s : SessionManager) (loc : String)
    (hscan : SessionManager.alreadyLoaded s.profiles loc s._types = .ok false)
    (hdesktop : QString.endsWith loc ".desktop" = false)
    (hread : (SessionManager.loadProfileRead env s loc).1 = true) :
    ∃ n, SessionManager.addProfileCounter s._types loc (QHash.count s._types + 1) 0 = some n ∧
      SessionManager.loadProfile env s loc = .ok (loc ++ QString.number n,
        { s with
          _defaultProfile :=
            if QHash.isEmpty s._types then loc ++ QString.number n else s._defaultProfile,
          _types := QHash.insert s._types (loc ++ QString.number n)
            (s.profiles.alloc (SessionManager.loadProfileRead env s loc).2).1,
          profiles := (s.profiles.alloc (SessionManager.loadProfileRead env s loc).2).2,
          emitted := s.emitted ++ [.profileAdded (loc ++ QString.number n)] }) := by
  obtain ⟨-, -, -, r4, r5⟩ := SessionManager.loadProfileRead_path env s loc
  have hp : Profile.path ({ s with profiles :=
      (s.profiles.alloc (SessionManager.loadProfileRead env s loc).2).2 } :
      SessionManager).profiles
      (s.profiles.alloc (SessionManager.loadProfileRead env s loc).2).1 = .ok loc := by
    simp only [Profile.path, Profile.stringProperty,
      Profile.property_local _ _ _ .Path (Heap.get_alloc _ _) r4, r5]
    rfl
  obtain ⟨n, hn⟩ := Option.isSome_iff_exists.mp
    (SessionManager.addProfileCounter_isSome s._types loc)
  refine ⟨n, hn, ?_⟩
  unfold SessionManager.loadProfile
  simp only [hscan, bind, Except.bind, Bool.false_eq_true, if_false, hdesktop, hread, if_true]
  exact SessionManager.addProfile_eq _ _ loc n hp hn

/-- C11: for every registry state and every location on which the first `loadProfile` gets
as far as the reader (no registered profile has that location, and it does not end in
`.desktop`) and the reader reports success, the first call returns a non-empty key, a second
`loadProfile` of the same location returns the empty key and changes nothing, and the
mapping has exactly one entry more than before the first call. -/
theorem C11_loadProfile_dedup (env : Platform) (s : SessionManager) (loc : String)
    (hscan : SessionManager.alreadyLoaded s.profiles loc s._types = .ok false)
    (hdesktop : QString.endsWith loc ".desktop" = false)
    (hread : (SessionManager.loadProfileRead env s loc).1 = true) :
    ∃ (key : String) (s1 : SessionManager),
      SessionManager.loadProfile env s loc = .ok (key, s1) ∧
      QString.isEmpty key = false ∧
      SessionManager.loadProfile env s1 loc = .ok ("", s1) ∧
      QHash.count s1._types = QHash.count s._types + 1 := by
  obtain ⟨n, hn, hload⟩ := SessionManager.loadProfile_reads env s loc hscan hdesktop hread
  obtain ⟨-, -, hfree, -⟩ := SessionManager.addProfileCounter_spec _ _ _ _ _ hn
  obtain ⟨-, -, -, r4, r5⟩ := SessionManager.loadProfileRead_path env s loc
  refine ⟨_, _, hload, ?_, ?_, ?_⟩
  · simp [QString.isEmpty, QString.append_number_ne_empty]
  · have hp : Profile.path (s.profiles.alloc (SessionManager.loadProfileRead env s loc).2).2
        (s.profiles.alloc (SessionManager.loadProfileRead env s loc).2).1 = .ok loc := by
      simp only [Profile.path, Profile.stringProperty,
        Profile.property_local _ _ _ .Path (Heap.get_alloc _ _) r4, r5]
      rfl
    unfold SessionManager.loadProfile
    simp only [QHash.insert, SessionManager.alreadyLoaded, hp, bind, Except.bind, if_true,
      pure, Except.pure]
  · simp only [QHash.insert, QHash.remove_of_not_contains _ _ hfree, QHash.count,
      List.length_cons]

/-- C12: for every registry state and location, when the scan of the registered profiles
returns and the reader fails on the location, `loadProfile` returns the empty key and the
mapping, the default key, the favourite set, the sessions, the files and the signals are
what they were: the profile it had allocated is deleted, not registered. -/
theorem C12_loadProfile_failure_leaves_registry (env : Platform) (s : SessionManager)
    (loc : String) (found : Bool)
    (hscan : SessionManager.alreadyLoaded s.profiles loc s._types = .ok found)
    (hread : (SessionManager.loadProfileRead env s loc).1 = false) :
    ∃ s', SessionManager.loadProfile env s loc = .ok ("", s') ∧
      s'._types = s._types ∧ s'._defaultProfile = s._defaultProfile ∧
      s'._favorites = s._favorites ∧ s'._sessions = s._sessions ∧ s'.world = s.world ∧
      s'.emitted = s.emitted ∧
      (s' = s ∨ s' = { s with profiles :=
        (Heap.free (s.profiles.alloc (SessionManager.loadProfileRead env s loc).2).2
          (s.profiles.alloc (SessionManager.loadProfileRead env s loc).2).1) }) := by
  unfold SessionManager.loadProfile
  simp only [hscan, bind, Except.bind, hread, Bool.false_eq_true, if_false]
  cases found with
  | true => exact ⟨s, rfl, rfl, rfl, rfl, rfl, rfl, rfl, Or.inl rfl⟩
  | false =>
    by_cases hd : QString.endsWith loc ".desktop" = true
    · exact ⟨s, by simp [hd]; rfl, rfl, rfl, rfl, rfl, rfl, rfl, Or.inl rfl⟩
    · exact ⟨{ s with profiles :=
          (Heap.free (s.profiles.alloc (SessionManager.loadProfileRead env s loc).2).2
            (s.profiles.alloc (SessionManager.loadProfileRead env s loc).2).1) },
        by simp [hd]; rfl, rfl, rfl, rfl, rfl, rfl, rfl, Or.inr rfl⟩

/-! ## Changing a profile and binding sessions -/

theorem SessionManager.applyProfileFields_eq (types : QHash String Ptr) (h : Heap Profile)
    (info : Ptr) (m : Bool) (S : Session) (P : Profile) (v : Property → QVariant)
    (hP : h.get info = .ok P) (hv : ∀ x, Profile.property h info x = .ok (v x)) :
    SessionManager.applyProfileFields types h info m S =
      .ok (SessionManager.boundSession types info P.isPropertySet v m S) := by
  unfold SessionManager.boundSession
  cases m
  · simp [SessionManager.applyProfileFields, SessionManager.applies, Profile.command,
      Profile.arguments, Profile.defaultWorkingDirectory, Profile.icon, Profile.stringProperty,
      hv, bind, Except.bind, pure, Except.pure]
  · simp only [SessionManager.applyProfileFields, SessionManager.applies,
      Profile.isPropertySetAt, Profile.command,
      Profile.arguments, Profile.defaultWorkingDirectory, Profile.icon, Profile.stringProperty,
      hv, hP, bind, Except.bind, pure, Except.pure]
    cases P.isPropertySet .Command <;> cases P.isPropertySet .Arguments <;>
    cases P.isPropertySet .Directory <;> cases P.isPropertySet .Icon <;>
    cases P.isPropertySet .KeyBindings <;> cases P.isPropertySet .LocalTabTitleFormat <;>
    cases P.isPropertySet .RemoteTabTitleFormat <;> simp

theorem Heap.get_set_live {α : Type} (h : Heap α) (p r : Ptr) (a b : α)
    (hr : h.get r = .ok b) : ∃ c, (h.set p a).get r = .ok c := by
  by_cases e : r = p
  · subst e
    exact ⟨a, Heap.get_set_self h r a b hr⟩
  · exact ⟨b, by rw [Heap.get_set_ne h p r a e]; exact hr⟩

theorem SessionManager.applyProfileToSession_eq (s : SessionManager) (session info : Ptr)
    (m : Bool) (S : Session) (P : Profile) (v : Property → QVariant)
    (hS : s.sessionObjects.get session = .ok S)
    (hP : s.profiles.get info = .ok P) (hv : ∀ x, Profile.property s.profiles info x = .ok (v x)) :
    SessionManager.applyProfileToSession s session info m =
      .ok { s with sessionObjects := (s.sessionObjects.set session
        (SessionManager.boundSession s._types info P.isPropertySet v m S)) } := by
  unfold SessionManager.applyProfileToSession
  simp only [hS, SessionManager.applyProfileFields_eq _ _ _ _ _ P v hP hv, bind, Except.bind]
  rfl

/-- The loop of `applyProfile` over sessions that are all live and pairwise distinct
returns; it touches no other object, and every session in the list whose type is `key` ends
up bound to the profile. -/
theorem SessionManager.applyProfileLoop_spec (types : QHash String Ptr) (h : Heap Profile)
    (key : String) (info : Ptr) (m : Bool) (P : Profile) (v : Property → QVariant)
    (hP : h.get info = .ok P) (hv : ∀ x, Profile.property h info x = .ok (v x))
    (l : List Ptr) (hnodup : l.Nodup) :
    ∀ s : SessionManager, s._types = types → s.profiles = h →
      (∀ p ∈ l, ∃ S, s.sessionObjects.get p = .ok S) →
      ∃ s', SessionManager.applyProfileLoop key info m s l = .ok s' ∧
        (∀ p, p ∉ l → s'.sessionObjects.get p = s.sessionObjects.get p) ∧
        (∀ p ∈ l, ∀ S, s.sessionObjects.get p = .ok S →
          s'.sessionObjects.get p = .ok (if S.type = key then
            SessionManager.boundSession types info P.isPropertySet v m S else S)) := by
  induction l with
  | nil =>
    intro s _ _ _
    exact ⟨s, rfl, fun _ _ => rfl, fun p hp => by cases hp⟩
  | cons next rest ih =>
    intro s ht hh hlive
    obtain ⟨hnext, hrest⟩ := List.nodup_cons.mp hnodup
    obtain ⟨S, hS⟩ := hlive next (List.mem_cons_self _ _)
    by_cases hk : S.type = key
    · have h1 := SessionManager.applyProfileToSession_eq s next info m S P v hS
        (by rw [hh]; exact hP) (by rw [hh]; exact hv)
      obtain ⟨s', hs', hout, hin⟩ := ih hrest
        { s with sessionObjects := (s.sessionObjects.set next
          (SessionManager.boundSession s._types info P.isPropertySet v m S)) } ht hh
        (by
          intro p hp
          obtain ⟨S2, hS2⟩ := hlive p (List.mem_cons_of_mem _ hp)
          exact Heap.get_set_live _ _ _ _ _ hS2)
      refine ⟨s', ?_, ?_, ?_⟩
      · simp only [SessionManager.applyProfileLoop, hS, bind, Except.bind, hk, if_true, h1]
        exact hs'
      · intro p hp
        have hp1 : p ≠ next := fun e => hp (e ▸ List.mem_cons_self _ _)
        have hp2 : p ∉ rest := fun e => hp (List.mem_cons_of_mem _ e)
        rw [hout p hp2]
        exact Heap.get_set_ne _ _ _ _ hp1
      · intro p hp S2 hS2
        rcases List.mem_cons.mp hp with rfl | hp
        · rw [hout p hnext]
          have e : S2 = S := by
            rw [hS] at hS2
            cases hS2
            rfl
          subst e
          simp only [hk, if_true, ← ht]
          exact Heap.get_set_self _ _ _ _ hS
        · have hp1 : p ≠ next := fun e => hnext (e ▸ hp)
          exact hin p hp S2 (by
            show (s.sessionObjects.set next _).get p = .ok S2
            rw [Heap.get_set_ne _ _ _ _ hp1]
            exact hS2)
    · obtain ⟨s', hs', hout, hin⟩ := ih hrest s ht hh
        (fun p hp => hlive p (List.mem_cons_of_mem _ hp))
      refine ⟨s', ?_, ?_, ?_⟩
      · simp only [SessionManager.applyProfileLoop, hS, bind, Except.bind, hk, if_false,
          pure, Except.pure]
        exact hs'
      · intro p hp
        exact hout p (fun e => hp (List.mem_cons_of_mem _ e))
      · intro p hp S2 hS2
        rcases List.mem_cons.mp hp with rfl | hp
        · rw [hout p hnext]
          have e : S2 = S := by
            rw [hS] at hS2
            cases hS2
            rfl
          subst e
          simp only [hk, if_false]
          exact hS
        · exact hin p hp S2 hS2

set_option maxHeartbeats 2000000 in
theorem KDE4ProfileWriter.entries_eq (env : Platform) (h : Heap Profile) (p : Ptr)
    (P : Profile) (v : Property → QVariant) (hP : h.get p = .ok P)
    (hv : ∀ x, P.isPropertySet x = true → Profile.property h p x = .ok (v x))
    (hc : (P.isPropertySet .Command || P.isPropertySet .Arguments) = true →
      Profile.property h p .Command = .ok (v .Command) ∧
      Profile.property h p .Arguments = .ok (v .Arguments)) :
    KDE4ProfileWriter.entries env h p = .ok (KDE4ProfileWriter.entriesOf env P.isPropertySet v) := by
  unfold KDE4ProfileWriter.entries KDE4ProfileWriter.entriesOf
  simp only [hP, bind, Except.bind, Profile.name, Profile.command, Profile.arguments,
    Profile.icon, Profile.colorScheme, Profile.font, Profile.stringProperty]
  cases h1 : P.isPropertySet .Name
  all_goals try rw [hv _ h1]
  all_goals simp only [Bool.false_eq_true, if_false, if_true, pure, Except.pure]
  all_goals cases h2 : P.isPropertySet .Command
  all_goals cases h3 : P.isPropertySet .Arguments
  all_goals simp only [h2, h3, Bool.or_self, Bool.or_true, Bool.true_or, Bool.or_false,
    forall_true_left, true_implies] at hc
  all_goals try rw [hc.1, hc.2]
  all_goals simp only [Bool.or_self, Bool.or_true, Bool.true_or, Bool.or_false,
    Bool.false_eq_true, if_false, if_true]
  all_goals cases h4 : P.isPropertySet .Icon
  all_goals try rw [hv _ h4]
  all_goals simp only [Bool.false_eq_true, if_false, if_true]
  all_goals cases h5 : P.isPropertySet .LocalTabTitleFormat
  all_goals try rw [hv _ h5]
  all_goals simp only [Bool.false_eq_true, if_false, if_true]
  all_goals cases h6 : P.isPropertySet .RemoteTabTitleFormat
  all_goals try rw [hv _ h6]
  all_goals simp only [Bool.false_eq_true, if_false, if_true]
  all_goals cases h7 : P.isPropertySet .ColorScheme
  all_goals try rw [hv _ h7]
  all_goals simp only [Bool.false_eq_true, if_false, if_true]
  all_goals cases h8 : P.isPropertySet .Font
  all_goals try rw [hv _ h8]
  all_goals simp only [Bool.false_eq_true, if_false, if_true]

theorem KDE4ProfileWriter.getPath_returns (env : Platform) (h : Heap Profile) (info : Ptr)
    (P : Profile) (hP : h.get info = .ok P)
    (hv : ∀ x, ∃ v, Profile.property h info x = .ok v) :
    ∃ p, KDE4ProfileWriter.getPath env h info = .ok p := by
  obtain ⟨vp, hvp⟩ := hv .Path
  obtain ⟨vn, hvn⟩ := hv .Name
  unfold KDE4ProfileWriter.getPath
  simp only [Profile.isPropertySetAt, hP, Profile.path, Profile.name, Profile.stringProperty,
    hvp, hvn, bind, Except.bind, pure, Except.pure]
  split_ifs <;> exact ⟨_, rfl⟩

theorem SessionManager.saveProfile_returns (env : Platform) (s : SessionManager)
    (path : String) (info : Ptr) (P : Profile) (hP : s.profiles.get info = .ok P)
    (hv : ∀ x, ∃ v, Profile.property s.profiles info x = .ok v) :
    ∃ s', SessionManager.saveProfile env s path info = .ok s' := by
  obtain ⟨p, hp⟩ := KDE4ProfileWriter.getPath_returns env s.profiles info P hP hv
  choose v hv' using hv
  have he := KDE4ProfileWriter.entries_eq env s.profiles info P v hP (fun x _ => hv' x)
    (fun _ => ⟨hv' _, hv' _⟩)
  unfold SessionManager.saveProfile
  by_cases hpath : QString.isEmpty path = true
  · simp only [hpath, if_true, hp, KDE4ProfileWriter.writeProfile, he, bind, Except.bind,
      pure, Except.pure]
    exact ⟨_, rfl⟩
  · simp only [hpath, Bool.false_eq_true, if_false, KDE4ProfileWriter.writeProfile, he, bind,
      Except.bind, pure, Except.pure]
    exact ⟨_, rfl⟩

theorem Profile.propertyFuel_congr (h h' : Heap Profile) (info : Ptr) (P P' : Profile)
    (x : Property) (hP : h.get info = .ok P) (hP' : h'.get info = .ok P')
    (hother : ∀ q, q ≠ info → h'.get q = h.get q) (hparent : P'._parent = P._parent)
    (hx : List.lookup x P'._propertyValues = List.lookup x P._propertyValues) :
    ∀ (n : Nat) (r : Ptr), Profile.propertyFuel h' n r x = Profile.propertyFuel h n r x := by
  intro n
  induction n with
  | zero => intro r; rfl
  | succ n ih =>
    intro r
    rw [Profile.propertyFuel, Profile.propertyFuel]
    by_cases hr : r = info
    · subst hr
      rw [hP, hP']
      simp only [QHash.contains, QHash.value, hx, hparent, ih]
    · rw [hother r hr]
      cases hg : h.get r with
      | error f => rfl
      | ok R => simp only [ih]

theorem SessionManager.changeProfileLoop_spec (U : QHash Property QVariant) (info : Ptr)
    (l : List Property) :
    ∀ (h : Heap Profile) (P : Profile), h.get info = .ok P →
      ∃ (h' : Heap Profile) (P' : Profile),
        SessionManager.changeProfileLoop U info h l = .ok h' ∧
        h'.get info = .ok P' ∧ P'._parent = P._parent ∧ P'._hidden = P._hidden ∧
        (∀ x, List.lookup x P'._propertyValues =
          if x ∈ l then some (QHash.value U x .invalid)
          else List.lookup x P._propertyValues) ∧
        (∀ q, q ≠ info → h'.get q = h.get q) ∧
        h'.cells.length = h.cells.length := by
  induction l with
  | nil =>
    intro h P hP
    exact ⟨h, P, rfl, hP, rfl, rfl, fun x => by simp, fun _ _ => rfl, rfl⟩
  | cons k rest ih =>
    intro h P hP
    obtain ⟨h', P', hl, hg, hpar, hhid, hlook, hoth, hlen⟩ :=
      ih (h.set info (P.setProperty k (QHash.value U k .invalid)))
        (P.setProperty k (QHash.value U k .invalid)) (Heap.get_set_self h info _ P hP)
    refine ⟨h', P', ?_, hg, hpar, hhid, ?_, ?_, ?_⟩
    · simp only [SessionManager.changeProfileLoop, Profile.setPropertyAt, hP, bind, Except.bind]
      exact hl
    · intro x
      rw [hlook x]
      by_cases hxr : x ∈ rest
      · simp [hxr]
      · by_cases hxk : x = k
        · subst hxk
          simp [hxr, Profile.setProperty, QHash.lookup_insert_self]
        · simp [hxr, hxk, Profile.setProperty, QHash.lookup_insert_ne _ _ hxk]
    · intro q hq
      rw [hoth q hq]
      exact Heap.get_set_ne h info q _ hq
    · rw [hlen]
      exact Heap.length_set h info _

theorem SessionManager.applyProfileLoop_returns (types : QHash String Ptr) (h : Heap Profile)
    (key : String) (info : Ptr) (m : Bool) (P : Profile) (v : Property → QVariant)
    (hP : h.get info = .ok P) (hv : ∀ x, Profile.property h info x = .ok (v x))
    (l : List Ptr) :
    ∀ s : SessionManager, s._types = types → s.profiles = h →
      (∀ p ∈ l, ∃ S, s.sessionObjects.get p = .ok S) →
      ∃ s', SessionManager.applyProfileLoop key info m s l = .ok s' := by
  induction l with
  | nil =>
    intro s _ _ _
    exact ⟨s, rfl⟩
  | cons next rest ih =>
    intro s ht hh hlive
    obtain ⟨S, hS⟩ := hlive next (List.mem_cons_self _ _)
    by_cases hk : S.type = key
    · have h1 := SessionManager.applyProfileToSession_eq s next info m S P v hS
        (by rw [hh]; exact hP) (by rw [hh]; exact hv)
      obtain ⟨s', hs'⟩ := ih
        { s with sessionObjects := (s.sessionObjects.set next
          (SessionManager.boundSession s._types info P.isPropertySet v m S)) } ht hh
        (by
          intro p hp
          obtain ⟨S2, hS2⟩ := hlive p (List.mem_cons_of_mem _ hp)
          exact Heap.get_set_live _ _ _ _ _ hS2)
      refine ⟨s', ?_⟩
      simp only [SessionManager.applyProfileLoop, hS, bind, Except.bind, hk, if_true, h1]
      exact hs'
    · obtain ⟨s', hs'⟩ := ih s ht hh (fun p hp => hlive p (List.mem_cons_of_mem _ hp))
      refine ⟨s', ?_⟩
      simp only [SessionManager.applyProfileLoop, hS, bind, Except.bind, hk, if_false,
        pure, Except.pure]
      exact hs'

theorem SessionManager.profile_of_live (s : SessionManager) (key : String)
    (hkey : QString.isEmpty key = false) (hlive : QHash.contains s._types key = true) :
    SessionManager.profile s key = QHash.value s._types key 0 := by
  simp [SessionManager.profile, hkey, hlive]

theorem SessionManager.changeProfileLoop_property (U : QHash Property QVariant) (info : Ptr)
    (l : List Property) (h h' : Heap Profile) (P P' : Profile) (hP : h.get info = .ok P)
    (hP' : h'.get info = .ok P') (hpar : P'._parent = P._parent)
    (hlook : ∀ x, List.lookup x P'._propertyValues =
      if x ∈ l then some (QHash.value U x .invalid) else List.lookup x P._propertyValues)
    (hoth : ∀ q, q ≠ info → h'.get q = h.get q) (hlen : h'.cells.length = h.cells.length)
    (x : Property) :
    (x ∈ l → Profile.property h' info x = .ok (QHash.value U x .invalid)) ∧
    (x ∉ l → Profile.property h' info x = Profile.property h info x ∧
      P'.isPropertySet x = P.isPropertySet x) := by
  constructor
  · intro hx
    have h1 := hlook x
    simp only [hx, if_true] at h1
    have h2 : P'.isPropertySet x = true := by simp [Profile.isPropertySet, QHash.contains, h1]
    rw [Profile.property_local h' info P' x hP' h2]
    simp [QHash.value, h1]
  · intro hx
    have h1 := hlook x
    simp only [hx, if_false] at h1
    refine ⟨?_, by simp [Profile.isPropertySet, QHash.contains, h1]⟩
    unfold Profile.property
    rw [hlen]
    exact Profile.propertyFuel_congr h h' info P P' x hP hP' hoth hpar h1 _ _

theorem SessionManager.changeProfile_spec (env : Platform) (s : SessionManager) (key : String)
    (U : QHash Property QVariant) (P : Profile)
    (hkey : QString.isEmpty key = false) (hlive : QHash.contains s._types key = true)
    (hP : s.profiles.get (QHash.value s._types key 0) = .ok P)
    (hchain : ∀ x, ∃ v, Profile.property s.profiles (QHash.value s._types key 0) x = .ok v)
    (hsess : ∀ p ∈ s._sessions, ∃ S, s.sessionObjects.get p = .ok S) :
    ∃ (s' : SessionManager) (h' : Heap Profile) (P' : Profile) (s2 : SessionManager),
      SessionManager.changeProfile env s key U = .ok s' ∧
      h'.get (QHash.value s._types key 0) = .ok P' ∧
      P'._parent = P._parent ∧
      (∀ x, List.lookup x P'._propertyValues =
        if x ∈ QHash.keys U then some (QHash.value U x .invalid)
        else List.lookup x P._propertyValues) ∧
      (∀ q, q ≠ QHash.value s._types key 0 → h'.get q = s.profiles.get q) ∧
      h'.cells.length = s.profiles.cells.length ∧
      SessionManager.applyProfileLoop key (QHash.value s._types key 0) true
        { s with profiles := h' } s._sessions = .ok s2 ∧
      s'.profiles = h' ∧ s'.sessionObjects = s2.sessionObjects ∧ s'._types = s._types ∧
      s'._sessions = s._sessions ∧ s'._defaultProfile = s._defaultProfile ∧
      s'._favorites = s._favorites := by
  have hprofile := SessionManager.profile_of_live s key hkey hlive
  have hne : QHash.value s._types key 0 ≠ 0 := by
    intro e
    rw [e] at hP
    simp [Heap.get] at hP
  obtain ⟨h', P', hloop, hP', hpar, -, hlook, hoth, hlen⟩ :=
    SessionManager.changeProfileLoop_spec U (QHash.value s._types key 0) (QHash.keys U)
      s.profiles P hP
  have hres : ∀ x, ∃ v, Profile.property h' (QHash.value s._types key 0) x = .ok v := by
    intro x
    obtain ⟨ha, hb⟩ := SessionManager.changeProfileLoop_property U _ _ _ _ P P' hP hP' hpar
      hlook hoth hlen x
    by_cases hx : x ∈ QHash.keys U
    · exact ⟨_, ha hx⟩
    · obtain ⟨v, hv⟩ := hchain x
      exact ⟨v, by rw [(hb hx).1]; exact hv⟩
  obtain ⟨vn, hvn⟩ := hchain .Name
  obtain ⟨vn', hvn'⟩ := hres .Name
  choose v hv using hres
  obtain ⟨s2, hs2⟩ := SessionManager.applyProfileLoop_returns s._types h' key
    (QHash.value s._types key 0) true P' v hP' hv s._sessions
    { s with profiles := h' } rfl rfl hsess
  have hf2 := SessionManager.applyProfileLoop_frame _ _ _ _ _ _ hs2
  have hs2p : s2.profiles = h' := by rw [hf2]
  obtain ⟨s', hs'⟩ : ∃ s', (if P'.isPropertySet .Path = true then
      (Profile.path h' (QHash.value s._types key 0) >>= fun p =>
        SessionManager.saveProfile env
          { s2 with emitted := s2.emitted ++ [.profileChanged key] } p
          (QHash.value s._types key 0))
      else SessionManager.saveProfile env
          { s2 with emitted := s2.emitted ++ [.profileChanged key] } ""
          (QHash.value s._types key 0)) = .ok s' := by
    by_cases hpath : P'.isPropertySet .Path = true
    · simp only [hpath, if_true, Profile.path, Profile.stringProperty, hv, bind, Except.bind]
      exact SessionManager.saveProfile_returns env _ _ _ P' (by rw [← hs2p] at hP'; exact hP')
        (fun x => ⟨v x, by
          show Profile.property s2.profiles _ x = .ok (v x)
          rw [hs2p]; exact hv x⟩)
    · simp only [hpath, Bool.false_eq_true, if_false]
      exact SessionManager.saveProfile_returns env _ _ _ P' (by rw [← hs2p] at hP'; exact hP')
        (fun x => ⟨v x, by
          show Profile.property s2.profiles _ x = .ok (v x)
          rw [hs2p]; exact hv x⟩)
  have hframe : s' = { ({ s2 with emitted := s2.emitted ++ [.profileChanged key] } :
      SessionManager) with world := s'.world } := by
    split at hs'
    · simp only [bind_eq_ok] at hs'
      obtain ⟨p, -, hs'⟩ := hs'
      exact SessionManager.saveProfile_frame _ _ _ _ _ hs'
    · exact SessionManager.saveProfile_frame _ _ _ _ _ hs'
  refine ⟨s', h', P', s2, ?_, hP', hpar, hlook, hoth, hlen, hs2, ?_, ?_, ?_, ?_, ?_, ?_⟩
  · have hprofile' : SessionManager.profile ({ s with profiles := h' } : SessionManager) key =
        QHash.value s._types key 0 :=
      SessionManager.profile_of_live { s with profiles := h' } key hkey hlive
    unfold SessionManager.changeProfile
    simp only [hprofile]
    rw [if_neg (by simp [hne, hkey])]
    simp only [Profile.name, Profile.stringProperty, hvn, hloop, hvn', bind, Except.bind,
      SessionManager.applyProfile, hprofile', hs2, Profile.isPropertySetAt, hs2p, hP']
    simp only [hs2p, bind, Except.bind] at hs'
    exact hs'
  all_goals (rw [hframe, hf2])

theorem QHash.contains_iff_keys_mem_bool {κ ν : Type} [DecidableEq κ] (h : QHash κ ν) (k : κ) :
    QHash.contains h k = false ↔ k ∉ QHash.keys h := by
  rw [← QHash.contains_iff_mem_keys]
  simp

/-- C13: for every non-empty key of a live profile P whose lookups return, in a registry
whose sessions are live, `changeProfile(key, U)` returns; afterwards `P.property(X)` is
`U[X]` for every X in U, `P.property(X)` and `P.isPropertySet(X)` are what they were for
every X not in U, and every other profile object is unchanged. -/
theorem C13_changeProfile_touches_named_properties (env : Platform) (s : SessionManager)
    (key : String) (U : QHash Property QVariant) (P : Profile)
    (hkey : QString.isEmpty key = false) (hlive : QHash.contains s._types key = true)
    (hP : s.profiles.get (s.profile key) = .ok P)
    (hchain : ∀ x, ∃ v, Profile.property s.profiles (s.profile key) x = .ok v)
    (hsess : ∀ p ∈ s._sessions, ∃ S, s.sessionObjects.get p = .ok S) :
    ∃ s', SessionManager.changeProfile env s key U = .ok s' ∧
      s'.profile key = s.profile key ∧
      (∀ x, QHash.contains U x = true →
        Profile.property s'.profiles (s.profile key) x = .ok (QHash.value U x .invalid)) ∧
      (∀ x, QHash.contains U x = false →
        Profile.property s'.profiles (s.profile key) x =
          Profile.property s.profiles (s.profile key) x ∧
        Profile.isPropertySetAt s'.profiles (s.profile key) x =
          Profile.isPropertySetAt s.profiles (s.profile key) x) ∧
      (∀ q, q ≠ s.profile key → s'.profiles.get q = s.profiles.get q) := by
  have hprofile := SessionManager.profile_of_live s key hkey hlive
  rw [hprofile] at hP hchain ⊢
  obtain ⟨s', h', P', s2, hs', hP', hpar, hlook, hoth, hlen, -, hprof, -, htypes, -, hdef, -⟩ :=
    SessionManager.changeProfile_spec env s key U P hkey hlive hP hchain hsess
  refine ⟨s', hs', ?_, ?_, ?_, ?_⟩
  · simp [SessionManager.profile, SessionManager.defaultProfile, htypes, hdef, hkey, hlive]
  · intro x hx
    rw [hprof]
    exact (SessionManager.changeProfileLoop_property U _ _ _ _ P P' hP hP' hpar hlook hoth
      hlen x).1 ((QHash.contains_iff_mem_keys U x).mp hx)
  · intro x hx
    rw [hprof]
    obtain ⟨h1, h2⟩ := (SessionManager.changeProfileLoop_property U _ _ _ _ P P' hP hP' hpar
      hlook hoth hlen x).2 ((QHash.contains_iff_keys_mem_bool U x).mp hx)
    refine ⟨h1, ?_⟩
    simp only [Profile.isPropertySetAt, hP, hP', h2]
  · intro q hq
    rw [hprof]
    exact hoth q hq

theorem SessionManager.changeProfile_session (env : Platform) (s : SessionManager)
    (key : String) (U : QHash Property QVariant) (P : Profile) (sess : Ptr) (S : Session)
    (hkey : QString.isEmpty key = false) (hlive : QHash.contains s._types key = true)
    (hP : s.profiles.get (QHash.value s._types key 0) = .ok P)
    (hchain : ∀ x, ∃ v, Profile.property s.profiles (QHash.value s._types key 0) x = .ok v)
    (hsess : ∀ p ∈ s._sessions, ∃ S, s.sessionObjects.get p = .ok S)
    (hnodup : s._sessions.Nodup) (hmem : sess ∈ s._sessions)
    (hS : s.sessionObjects.get sess = .ok S) (htype : S.type = key) :
    ∃ (s' : SessionManager) (isSet : Property → Bool) (v : Property → QVariant),
      SessionManager.changeProfile env s key U = .ok s' ∧
      s'.sessionObjects.get sess = .ok
        (SessionManager.boundSession s._types (QHash.value s._types key 0) isSet v true S) ∧
      (∀ x, x ∈ QHash.keys U → isSet x = true ∧ v x = QHash.value U x .invalid) ∧
      (∀ x, x ∉ QHash.keys U → isSet x = P.isPropertySet x ∧
        (P.isPropertySet x = true → v x = QHash.value P._propertyValues x .invalid)) := by
  obtain ⟨s', h', P', s2, hs', hP', hpar, hlook, hoth, hlen, hs2, -, hso, -, -, -, -⟩ :=
    SessionManager.changeProfile_spec env s key U P hkey hlive hP hchain hsess
  have hprop := SessionManager.changeProfileLoop_property U _ _ _ _ P P' hP hP' hpar hlook hoth
    hlen
  have hres : ∀ x, ∃ v, Profile.property h' (QHash.value s._types key 0) x = .ok v := by
    intro x
    by_cases hx : x ∈ QHash.keys U
    · exact ⟨_, (hprop x).1 hx⟩
    · obtain ⟨v, hv⟩ := hchain x
      exact ⟨v, by rw [((hprop x).2 hx).1]; exact hv⟩
  choose v hv using hres
  obtain ⟨s3, hs3, -, hin⟩ := SessionManager.applyProfileLoop_spec s._types h' key
    (QHash.value s._types key 0) true P' v hP' hv s._sessions hnodup
    { s with profiles := h' } rfl rfl hsess
  have e23 : s2 = s3 := by
    rw [hs2] at hs3
    cases hs3
    rfl
  refine ⟨s', P'.isPropertySet, v, hs', ?_, ?_, ?_⟩
  · rw [hso, e23, hin sess hmem S hS]
    simp [htype]
  · intro x hx
    have h1 := hlook x
    simp only [hx, if_true] at h1
    refine ⟨by simp [Profile.isPropertySet, QHash.contains, h1], ?_⟩
    have h2 := (hprop x).1 hx
    rw [hv x] at h2
    exact Except.ok.inj h2
  · intro x hx
    refine ⟨((hprop x).2 hx).2, ?_⟩
    intro hset
    have h2 := ((hprop x).2 hx).1
    rw [hv x, Profile.property_local _ _ P x hP hset] at h2
    exact Except.ok.inj h2

/-- C14, amended: for every live session whose type is the key of a live profile P,
`changeProfile(key, {Icon: x})` returns and sets the icon name of the session to x; every
other session field whose property is not locally set on P keeps its value, and every
other field whose property is locally set on P is set to the value P holds for it. -/
theorem C14_partial_apply_amended (env : Platform) (s : SessionManager) (key x : String)
    (P : Profile) (sess : Ptr) (S : Session)
    (hkey : QString.isEmpty key = false) (hlive : QHash.contains s._types key = true)
    (hP : s.profiles.get (s.profile key) = .ok P)
    (hchain : ∀ y, ∃ v, Profile.property s.profiles (s.profile key) y = .ok v)
    (hsess : ∀ p ∈ s._sessions, ∃ S, s.sessionObjects.get p = .ok S)
    (hnodup : s._sessions.Nodup) (hmem : sess ∈ s._sessions)
    (hS : s.sessionObjects.get sess = .ok S) (htype : S.type = key) :
    ∃ (s' : SessionManager) (S' : Session),
      SessionManager.changeProfile env s key [(.Icon, .string x)] = .ok s' ∧
      s'.sessionObjects.get sess = .ok S' ∧
      S'.iconName = x ∧
      S'.program = (if P.isPropertySet .Command then
        (QHash.value P._propertyValues .Command .invalid).toQString else S.program) ∧
      S'.arguments = (if P.isPropertySet .Arguments then
        (QHash.value P._propertyValues .Arguments .invalid).toQStringList else S.arguments) ∧
      S'.initialWorkingDirectory = (if P.isPropertySet .Directory then
        (QHash.value P._propertyValues .Directory .invalid).toQString
        else S.initialWorkingDirectory) ∧
      S'.keymap = (if P.isPropertySet .KeyBindings then
        (QHash.value P._propertyValues .KeyBindings .invalid).toQString else S.keymap) ∧
      S'.localTabTitleFormat = (if P.isPropertySet .LocalTabTitleFormat then
        (QHash.value P._propertyValues .LocalTabTitleFormat .invalid).toQString
        else S.localTabTitleFormat) ∧
      S'.remoteTabTitleFormat = (if P.isPropertySet .RemoteTabTitleFormat then
        (QHash.value P._propertyValues .RemoteTabTitleFormat .invalid).toQString
        else S.remoteTabTitleFormat) := by
  have hprofile := SessionManager.profile_of_live s key hkey hlive
  rw [hprofile] at hP hchain
  obtain ⟨s', isSet, v, hs', hget, hin, hout⟩ := SessionManager.changeProfile_session env s key
    [(.Icon, .string x)] P sess S hkey hlive hP hchain hsess hnodup hmem hS htype
  have hicon := hin .Icon (by simp [QHash.keys])
  have hother : ∀ y, y ≠ Property.Icon → isSet y = P.isPropertySet y ∧
      (P.isPropertySet y = true → v y = QHash.value P._propertyValues y .invalid) :=
    fun y hy => hout y (by simpa [QHash.keys] using hy)
  have field : ∀ (α : Type) (f : QVariant → α) (d : α) (y : Property), y ≠ Property.Icon →
      (if (!true || isSet y) = true then f (v y) else d) =
        if P.isPropertySet y = true then f (QHash.value P._propertyValues y .invalid)
        else d := by
    intro α f d y hy
    obtain ⟨h1, h2⟩ := hother y hy
    by_cases hs : P.isPropertySet y = true
    · simp [h1, hs, h2 hs]
    · simp [h1, hs]
  refine ⟨s', _, hs', hget, ?_, ?_, ?_, ?_, ?_, ?_, ?_⟩
  · simp [SessionManager.boundSession, hicon.1, hicon.2, QHash.value, QHash.lookup_cons_if,
      QVariant.toQString]
  · exact field _ QVariant.toQString _ .Command (by decide)
  · exact field _ QVariant.toQStringList _ .Arguments (by decide)
  · exact field _ QVariant.toQString _ .Directory (by decide)
  · exact field _ QVariant.toQString _ .KeyBindings (by decide)
  · exact field _ QVariant.toQString _ .LocalTabTitleFormat (by decide)
  · exact field _ QVariant.toQString _ .RemoteTabTitleFormat (by decide)

/-! ## Loading and changing profiles, at concrete inputs -/

/-- C11, at a concrete input: in the middle of the constructor, with the fallback alone,
the stored profile `Shell.profile` is loaded once and not a second time. -/
theorem C11_witness :
    ∃ (key : String) (s1 : SessionManager),
      SessionManager.loadProfile Example.platformStored
        (SessionManager.fallbackOnly "/bin/sh" Example.worldStored)
        "/usr/share/apps/konsole/Shell.profile" = .ok (key, s1) ∧
      QString.isEmpty key = false ∧
      SessionManager.loadProfile Example.platformStored s1
        "/usr/share/apps/konsole/Shell.profile" = .ok ("", s1) ∧
      QHash.count s1._types =
        QHash.count (SessionManager.fallbackOnly "/bin/sh" Example.worldStored)._types + 1 :=
  C11_loadProfile_dedup Example.platformStored
    (SessionManager.fallbackOnly "/bin/sh" Example.worldStored)
    "/usr/share/apps/konsole/Shell.profile" rfl rfl rfl

/-- C12, at a concrete input: there is no file at `/nowhere/b.profile`, so the reader fails
and the fresh registry keeps its one entry. -/
theorem C12_witness :
    ∃ s', SessionManager.loadProfile Example.platform Example.fresh "/nowhere/b.profile" =
        .ok ("", s') ∧
      s'._types = [("0", 1)] ∧ s'._defaultProfile = "0" ∧ s'._favorites = [] := by
  obtain ⟨s', h1, h2, h3, h4, -⟩ := C12_loadProfile_failure_leaves_registry Example.platform
    Example.fresh "/nowhere/b.profile" false rfl rfl
  exact ⟨s', h1, h2, h3, h4⟩

/-- C13, at a concrete input: renaming the profile under `/x/a.profile0` leaves its `Command`,
inherited from the fallback, and the fallback itself as they were. -/
theorem C13_witness :
    ∃ s', SessionManager.changeProfile Example.platform Example.withA "/x/a.profile0"
        [(.Name, .string "A")] = .ok s' ∧
      Profile.property s'.profiles 2 .Name = .ok (.string "A") ∧
      Profile.property s'.profiles 2 .Command = .ok (.string "/bin/sh") ∧
      Profile.isPropertySetAt s'.profiles 2 .Command = .ok false ∧
      s'.profiles.get 1 = .ok (FallbackProfile.new "/bin/sh") := by
  obtain ⟨s', h1, -, h3, h4, h5⟩ := C13_changeProfile_touches_named_properties Example.platform
    Example.withA "/x/a.profile0" [(.Name, .string "A")] Example.profileA rfl rfl rfl
    (fun x => by cases x <;> exact ⟨_, rfl⟩) (by intro p hp; cases hp)
  refine ⟨s', h1, h3 .Name rfl, ?_, ?_, ?_⟩
  · exact (h4 .Command rfl).1.trans rfl
  · exact (h4 .Command rfl).2.trans rfl
  · exact (h5 1 (by decide)).trans rfl

/-- C14 fails as stated: a session is created from the fallback under the key `0`, the caller
points it at `/usr/bin/top` with `setProgram`, and `changeProfile("0", {Icon: "x"})` then
sets the icon name and also puts the program back to the `/bin/sh` of the profile, because
`Command` is locally set on the fallback. -/
theorem C14_counterexample_program_reset :
    SessionManager.createSession Example.fresh "0" = .ok (1, Example.withSession) ∧
    Example.withProgram.sessionObjects.get 1 = .ok { Session.new with
      type := "0", program := "/usr/bin/top", arguments := ["/bin/sh"] } ∧
    QHash.contains Example.withProgram._types "0" = true ∧
    ∃ s', SessionManager.changeProfile Example.platform Example.withProgram "0"
        [(.Icon, .string "x")] = .ok s' ∧
      s'.sessionObjects.get 1 = .ok { Session.new with
        type := "0", program := "/bin/sh", arguments := ["/bin/sh"], iconName := "x" } :=
  ⟨rfl, rfl, rfl, _, rfl, rfl⟩

/-- C14 amended, at a concrete input: the session of the fallback whose program the caller
had set to `/usr/bin/top` gets the icon name `x` and the program of the fallback; its
initial working directory, which the fallback does not set, stays. -/
theorem C14_witness :
    ∃ (s' : SessionManager) (S' : Session),
      SessionManager.changeProfile Example.platform Example.withProgram "0"
        [(.Icon, .string "x")] = .ok s' ∧
      s'.sessionObjects.get 1 = .ok S' ∧ S'.iconName = "x" ∧ S'.program = "/bin/sh" ∧
      S'.initialWorkingDirectory = "" := by
  obtain ⟨s', S', h1, h2, h3, h4, -, h6, -⟩ := C14_partial_apply_amended Example.platform
    Example.withProgram "0" "x" (FallbackProfile.new "/bin/sh") 1
    { Session.new with type := "0", program := "/usr/bin/top", arguments := ["/bin/sh"] }
    rfl rfl rfl (fun y => by cases y <;> exact ⟨_, rfl⟩)
    (by
      intro p hp
      simp only [Example.withProgram, Example.withSession, List.mem_singleton] at hp
      subst hp
      exact ⟨_, rfl⟩)
    (by simp [Example.withProgram, Example.withSession])
    (by simp [Example.withProgram, Example.withSession]) rfl rfl
  exact ⟨s', S', h1, h2, h3, h4.trans rfl, h6.trans rfl⟩

/-! ## Creating sessions -/

theorem QHash.mem_of_lookup {κ ν : Type} [DecidableEq κ] (h : QHash κ ν) (k : κ) (v : ν)
    (hl : List.lookup k h = some v) : (k, v) ∈ h := by
  induction h with
  | nil => simp at hl
  | cons e t ih =>
    obtain ⟨j, w⟩ := e
    rw [QHash.lookup_cons_if] at hl
    by_cases hj : k = j
    · simp only [hj, if_true, Option.some.injEq] at hl
      simp [hj, hl]
    · simp only [hj, if_false] at hl
      exact List.mem_cons_of_mem _ (ih hl)

/-- When a value is stored under one key only, `QHash::key` finds that key. -/
theorem QHash.key_of_unique (h : QHash String Ptr) (key : String) (info : Ptr)
    (hl : List.lookup key h = some info) (huniq : ∀ e ∈ h, e.2 = info → e.1 = key) :
    QHash.key h info "" = key := by
  unfold QHash.key
  cases hf : h.find? (fun e => decide (e.2 = info)) with
  | none =>
    have := List.find?_eq_none.mp hf (key, info) (QHash.mem_of_lookup h key info hl)
    simp at this
  | some e =>
    have h1 := List.find?_some hf
    have h2 := List.mem_of_find?_eq_some hf
    exact huniq e h2 (by simpa using h1)

/-- C15, amended: for every non-empty key of a live profile P that is registered under no
other key and whose lookups return, `createSession(key)` returns a new session whose type is
the key and whose program, arguments, initial working directory, icon name, keymap and
tab-title formats are the values `P.property` resolves; the sessions afterwards are the old
ones with the new one appended, and the mapping is unchanged. -/
theorem C15_createSession_amended (s : SessionManager) (key : String) (P : Profile)
    (v : Property → QVariant)
    (hkey : QString.isEmpty key = false) (hlive : QHash.contains s._types key = true)
    (hP : s.profiles.get (s.profile key) = .ok P)
    (hv : ∀ x, Profile.property s.profiles (s.profile key) x = .ok (v x))
    (huniq : ∀ e ∈ s._types, e.2 = s.profile key → e.1 = key) :
    ∃ (session : Ptr) (s' : SessionManager),
      SessionManager.createSession s key = .ok (session, s') ∧
      s'.sessionObjects.get session = .ok
        { type := key,
          program := (v .Command).toQString,
          arguments := (v .Arguments).toQStringList,
          initialWorkingDirectory := (v .Directory).toQString,
          iconName := (v .Icon).toQString,
          keymap := (v .KeyBindings).toQString,
          localTabTitleFormat := (v .LocalTabTitleFormat).toQString,
          remoteTabTitleFormat := (v .RemoteTabTitleFormat).toQString } ∧
      s'._sessions = s._sessions ++ [session] ∧
      s'._types = s._types ∧
      s'.profiles = s.profiles ∧
      (∀ p, p ≠ session → s'.sessionObjects.get p = s.sessionObjects.get p) := by
  have hprofile := SessionManager.profile_of_live s key hkey hlive
  rw [hprofile] at hP hv huniq
  have hl : List.lookup key s._types = some (QHash.value s._types key 0) := by
    simp only [QHash.contains] at hlive
    cases hlk : List.lookup key s._types with
    | none => simp [hlk] at hlive
    | some a => simp [QHash.value, hlk]
  have hk := QHash.key_of_unique s._types key _ hl huniq
  have happly := SessionManager.applyProfileToSession_eq
    { s with sessionObjects := (s.sessionObjects.alloc { Session.new with type := key }).2 }
    (s.sessionObjects.alloc { Session.new with type := key }).1 (QHash.value s._types key 0)
    false { Session.new with type := key } P v (Heap.get_alloc _ _) hP hv
  refine ⟨(s.sessionObjects.alloc { Session.new with type := key }).1,
    { s with
      sessionObjects := ((s.sessionObjects.alloc { Session.new with type := key }).2.set
        (s.sessionObjects.alloc { Session.new with type := key }).1
        (SessionManager.boundSession s._types (QHash.value s._types key 0) P.isPropertySet v
          false { Session.new with type := key })),
      _sessions := s._sessions ++ [(s.sessionObjects.alloc { Session.new with type := key }).1] },
    ?_, ?_, rfl, rfl, rfl, ?_⟩
  · unfold SessionManager.createSession
    simp only [hkey, hlive, if_true, Bool.false_eq_true, if_false, happly, bind, Except.bind]
    rfl
  · simp only []
    rw [Heap.get_set_self _ _ _ _ (Heap.get_alloc _ _)]
    simp [SessionManager.boundSession, hk]
  · intro p hp
    simp only []
    rw [Heap.get_set_ne _ _ _ _ hp]
    simp only [Heap.alloc, Heap.get] at hp ⊢
    by_cases h0 : p = 0
    · simp [h0]
    · simp only [h0, if_false, QHash.lookup_cons_if, hp]

/-- C15 fails as stated, in two ways.  With the empty key, which `createSession` resolves to
the default profile, the session of the fresh registry gets the type `0`, not the empty
key.  And once `addProfile` has registered the same profile object under a second key, the
session created for one of the two keys has the other key as its type, whichever of the
two `_types.key(info)` meets first. -/
theorem C15_counterexample_type_is_not_key :
    (∃ s' S, SessionManager.createSession Example.fresh "" = .ok (1, s') ∧
      s'.sessionObjects.get 1 = .ok S ∧ S.type = "0") ∧
    SessionManager.addProfile Example.withA 2 = .ok ("/x/a.profile1", Example.twiceA) ∧
    (∃ s' S, SessionManager.createSession Example.twiceA "/x/a.profile0" = .ok (1, s') ∧
      s'.sessionObjects.get 1 = .ok S ∧ S.type = "/x/a.profile1") ∧
    (∃ s' S, SessionManager.createSession Example.twiceASwapped "/x/a.profile1" =
        .ok (1, s') ∧
      s'.sessionObjects.get 1 = .ok S ∧ S.type = "/x/a.profile0") :=
  ⟨⟨_, _, rfl, rfl, rfl⟩, rfl, ⟨_, _, rfl, rfl, rfl⟩, ⟨_, _, rfl, rfl, rfl⟩⟩

/-- C15 amended, at a concrete input: a session created for the key `/x/a.profile0` has that
type, and the program it inherits from the fallback. -/
theorem C15_witness :
    ∃ (session : Ptr) (s' : SessionManager) (S : Session),
      SessionManager.createSession Example.withA "/x/a.profile0" = .ok (session, s') ∧
      s'.sessionObjects.get session = .ok S ∧ S.type = "/x/a.profile0" ∧
      S.program = "/bin/sh" ∧ S.arguments = ["/bin/sh"] ∧
      s'._sessions = [session] := by
  obtain ⟨session, s', h1, h2, h3, -⟩ := C15_createSession_amended Example.withA
    "/x/a.profile0"
    Example.profileA (fun x => QHash.value (if x = .Path then Example.profileA._propertyValues
      else (FallbackProfile.new "/bin/sh")._propertyValues) x .invalid)
    rfl rfl rfl (fun x => by cases x <;> rfl)
    (by
      intro e he h2
      simp only [Example.withA, List.mem_cons, List.mem_singleton, List.mem_nil_iff,
        or_false] at he
      rcases he with rfl | rfl
      · rfl
      · exact absurd h2 (by decide))
  exact ⟨session, s', _, h1, h2, rfl, rfl, rfl, h3⟩

/-! ## Favourites -/

theorem SessionManager.favoritePaths_congr (s t : SessionManager) (l : List String)
    (h1 : t._types = s._types) (h2 : t._defaultProfile = s._defaultProfile)
    (h3 : t.profiles = s.profiles) :
    SessionManager.favoritePaths t l = SessionManager.favoritePaths s l := by
  induction l with
  | nil => rfl
  | cons k rest ih =>
    simp only [SessionManager.favoritePaths, SessionManager.profile,
      SessionManager.defaultProfile, h1, h2, h3, ih]

/-- C16: for every key k whose profile has a location, in a registry whose favourites have
one, and every flag b, `setFavorite(k, b)` returns; afterwards k is a favourite exactly when
b, every other key is a favourite exactly when it was, and if the membership of k did not
change the state is what it was (no signal, nothing saved), while if it changed the signal
`favoriteStatusChanged(k, b)` was emitted once and the paths of the favourites were saved;
a second `setFavorite(k, b)` returns the state unchanged. -/
theorem C16_setFavorite_transition (s : SessionManager) (k : String) (b : Bool)
    (hpaths : ∀ j ∈ k :: s._favorites,
      ∃ p, Profile.path s.profiles (SessionManager.profile s j) = .ok p) :
    ∃ s', SessionManager.setFavorite s k b = .ok s' ∧
      (k ∈ s'._favorites ↔ b = true) ∧
      (∀ j, j ≠ k → (j ∈ s'._favorites ↔ j ∈ s._favorites)) ∧
      ((k ∈ s._favorites ↔ b = true) → s' = s) ∧
      (¬(k ∈ s._favorites ↔ b = true) →
        s'.emitted = s.emitted ++ [.favoriteStatusChanged k b] ∧
        ∃ paths, SessionManager.favoritePaths s' s'._favorites = .ok paths ∧
          s'.world.appConfig.favorites = some paths) ∧
      SessionManager.setFavorite s' k b = .ok s' := by
  cases b with
  | true =>
    by_cases hmem : k ∈ s._favorites
    · refine ⟨s, ?_, by simp [hmem], fun _ _ => Iff.rfl, fun _ => rfl, fun h => ?_, ?_⟩
      · simp [SessionManager.setFavorite, hmem, pure, Except.pure]
      · exact absurd (by simp [hmem]) h
      · simp [SessionManager.setFavorite, hmem, pure, Except.pure]
    · obtain ⟨ps, hps0⟩ := SessionManager.favoritePaths_returns s (k :: s._favorites) hpaths
      have hps : SessionManager.favoritePaths
          { s with _favorites := k :: s._favorites,
                   emitted := s.emitted ++ [.favoriteStatusChanged k true] }
          (k :: s._favorites) = .ok ps :=
        (SessionManager.favoritePaths_congr s _ _ (by rfl) (by rfl) (by rfl)).trans hps0
      refine ⟨{ s with
          _favorites := k :: s._favorites,
          emitted := s.emitted ++ [.favoriteStatusChanged k true],
          world := { s.world with
            appConfig := { s.world.appConfig with favorites := some ps } } },
        ?_, by simp, ?_, fun h => ?_, fun _ => ⟨rfl, ps,
          (SessionManager.favoritePaths_congr s _ _ (by rfl) (by rfl) (by rfl)).trans hps0, rfl⟩, ?_⟩
      · simp [SessionManager.setFavorite, hmem, SessionManager.saveFavorites, hps, bind,
          Except.bind, pure, Except.pure]
      · intro j hj
        simp [hj]
      · exact absurd (h.mpr rfl) hmem
      · simp [SessionManager.setFavorite, pure, Except.pure]
  | false =>
    by_cases hmem : k ∈ s._favorites
    · have hl : ∀ j ∈ s._favorites.filter (fun j => !decide (j = k)),
          ∃ p, Profile.path s.profiles (SessionManager.profile s j) = .ok p :=
        fun j hj => hpaths j (List.mem_cons_of_mem _ (List.mem_filter.mp hj).1)
      obtain ⟨ps, hps0⟩ := SessionManager.favoritePaths_returns s _ hl
      have hps : SessionManager.favoritePaths
          { s with _favorites := s._favorites.filter (fun j => !decide (j = k)),
                   emitted := s.emitted ++ [.favoriteStatusChanged k false] }
          (s._favorites.filter (fun j => !decide (j = k))) = .ok ps :=
        (SessionManager.favoritePaths_congr s _ _ (by rfl) (by rfl) (by rfl)).trans hps0
      refine ⟨{ s with
          _favorites := s._favorites.filter (fun j => !decide (j = k)),
          emitted := s.emitted ++ [.favoriteStatusChanged k false],
          world := { s.world with
            appConfig := { s.world.appConfig with favorites := some ps } } },
        ?_, by simp [List.mem_filter], ?_, fun h => ?_, fun _ => ⟨rfl, ps,
          (SessionManager.favoritePaths_congr s _ _ (by rfl) (by rfl) (by rfl)).trans hps0, rfl⟩, ?_⟩
      · simp [SessionManager.setFavorite, hmem, SessionManager.saveFavorites, hps, bind,
          Except.bind, pure, Except.pure]
      · intro j hj
        simp [List.mem_filter, hj]
      · exact absurd (h.mp hmem) (by decide)
      · simp [SessionManager.setFavorite, List.mem_filter, pure, Except.pure]
    · refine ⟨s, ?_, by simp [hmem], fun _ _ => Iff.rfl, fun _ => rfl, fun h => ?_, ?_⟩
      · simp [SessionManager.setFavorite, hmem, pure, Except.pure]
      · exact absurd (by simp [hmem]) h
      · simp [SessionManager.setFavorite, hmem, pure, Except.pure]

theorem List.mem_eraseDups_loop (as bs : List String) (x : String) :
    x ∈ List.eraseDups.loop as bs ↔ x ∈ as ∨ x ∈ bs := by
  induction as generalizing bs with
  | nil => simp [List.eraseDups.loop]
  | cons a as ih =>
    unfold List.eraseDups.loop
    cases h : bs.elem a with
    | true =>
      simp only [ih]
      have ha : a ∈ bs := by simpa using h
      constructor
      · rintro (h1 | h1)
        · exact Or.inl (List.mem_cons_of_mem _ h1)
        · exact Or.inr h1
      · rintro (h1 | h1)
        · rcases List.mem_cons.mp h1 with rfl | h2
          · exact Or.inr ha
          · exact Or.inl h2
        · exact Or.inr h1
    | false =>
      simp only [ih, List.mem_cons]
      tauto

theorem List.mem_eraseDups_iff (l : List String) (x : String) : x ∈ l.eraseDups ↔ x ∈ l := by
  simp [List.eraseDups, List.mem_eraseDups_loop]

/-- The location of every path `saveFavorites` collects is the location of one of the keys,
and the other way round. -/
theorem SessionManager.favoritePaths_mem (s : SessionManager) (l : List String) :
    ∀ ps, SessionManager.favoritePaths s l = .ok ps →
      (∀ p ∈ ps, ∃ j ∈ l, Profile.path s.profiles (SessionManager.profile s j) = .ok p) ∧
      (∀ j ∈ l, ∃ p ∈ ps, Profile.path s.profiles (SessionManager.profile s j) = .ok p) := by
  induction l with
  | nil =>
    intro ps h
    cases h
    exact ⟨fun p hp => (by cases hp), fun j hj => (by cases hj)⟩
  | cons k rest ih =>
    intro ps h
    simp only [SessionManager.favoritePaths] at h
    obtain ⟨p, hp, h⟩ := (bind_eq_ok _ _ _).mp h
    obtain ⟨qs, hqs, h⟩ := (bind_eq_ok _ _ _).mp h
    have e := (pure_eq_ok _ _).mp h
    subst e
    obtain ⟨i1, i2⟩ := ih qs hqs
    constructor
    · intro q hq
      rcases List.mem_cons.mp hq with rfl | hq
      · exact ⟨k, List.mem_cons_self _ _, hp⟩
      · obtain ⟨j, hj, hjp⟩ := i1 q hq
        exact ⟨j, List.mem_cons_of_mem _ hj, hjp⟩
    · intro j hj
      rcases List.mem_cons.mp hj with rfl | hj
      · exact ⟨p, List.mem_cons_self _ _, hp⟩
      · obtain ⟨q, hq, hjq⟩ := i2 j hj
        exact ⟨q, List.mem_cons_of_mem _ hq, hjq⟩

/-- The first loop of `loadFavorites` over profiles that all have a location returns; it
keeps the favourites it started with, what is left of the working set matches no profile of
the list, and if `loc` was in the working set and only the key `K` has that location among
the profiles of the list, one of which has it, then `K` is a favourite afterwards. -/
theorem SessionManager.loadFavoritesLoaded_spec (h : Heap Profile) (K loc : String)
    (l : List (String × Ptr))
    (hpaths : ∀ e ∈ l, ∃ p, Profile.path h e.2 = .ok p)
    (hshare : ∀ e ∈ l, Profile.path h e.2 = .ok loc → e.1 = K) :
    ∀ (favorites favoriteSet : List String), ∃ favorites1 favoriteSet1,
      SessionManager.loadFavoritesLoaded h l favorites favoriteSet =
        .ok (favorites1, favoriteSet1) ∧
      (∀ k ∈ favorites, k ∈ favorites1) ∧
      (∀ p ∈ favoriteSet1, p ∈ favoriteSet ∧ ∀ e ∈ l, Profile.path h e.2 ≠ .ok p) ∧
      ((∃ e ∈ l, Profile.path h e.2 = .ok loc) → loc ∈ favoriteSet → K ∈ favorites1) := by
  induction l with
  | nil =>
    intro favorites favoriteSet
    exact ⟨favorites, favoriteSet, rfl, fun _ hk => hk,
      fun p hp => ⟨hp, fun e he => (by cases he)⟩, fun ⟨e, he, _⟩ _ => (by cases he)⟩
  | cons e rest ih =>
    intro favorites favoriteSet
    obtain ⟨p, hp⟩ := hpaths e (List.mem_cons_self _ _)
    have ih1 := ih (fun e1 he1 => hpaths e1 (List.mem_cons_of_mem _ he1))
      (fun e1 he1 => hshare e1 (List.mem_cons_of_mem _ he1))
    by_cases hc : p ∈ favoriteSet
    · obtain ⟨f1, t1, hrun, hmono, hleft, hfind⟩ :=
        ih1 (if favorites.contains e.1 then favorites else e.1 :: favorites)
          (favoriteSet.filter (fun q => !decide (q = p)))
      have hkey1 : e.1 ∈ f1 := by
        apply hmono
        by_cases hf : e.1 ∈ favorites
        · simp [hf]
        · simp [hf]
      refine ⟨f1, t1, ?_, ?_, ?_, ?_⟩
      · have hc1 : favoriteSet.contains p = true := by simpa using hc
        simp only [SessionManager.loadFavoritesLoaded, hp, bind, Except.bind, hc1, if_true]
        exact hrun
      · intro k hk
        apply hmono
        by_cases hf : favorites.contains e.1 = true
        · simp only [hf, if_true]
          exact hk
        · simp only [hf, if_false]
          exact List.mem_cons_of_mem _ hk
      · intro q hq
        obtain ⟨h1, h2⟩ := hleft q hq
        have h3 := List.mem_filter.mp h1
        refine ⟨h3.1, ?_⟩
        intro e1 he1
        rcases List.mem_cons.mp he1 with rfl | he1
        · rw [hp]
          intro hpq
          have : q = p := (Except.ok.inj hpq).symm
          simp [this] at h3
        · exact h2 e1 he1
      · rintro ⟨e1, he1, hpe1⟩ hloc
        by_cases hpl : p = loc
        · have := hshare e (List.mem_cons_self _ _) (by rw [hp, hpl])
          rw [← this]
          exact hkey1
        · apply hfind
          · rcases List.mem_cons.mp he1 with rfl | he1
            · rw [hp] at hpe1
              exact absurd (Except.ok.inj hpe1) hpl
            · exact ⟨e1, he1, hpe1⟩
          · exact List.mem_filter.mpr ⟨hloc, by simpa using fun h => hpl h.symm⟩
    · obtain ⟨f1, t1, hrun, hmono, hleft, hfind⟩ := ih1 favorites favoriteSet
      refine ⟨f1, t1, ?_, hmono, ?_, ?_⟩
      · have hc1 : favoriteSet.contains p = false := by simpa using hc
        simp only [SessionManager.loadFavoritesLoaded, hp, bind, Except.bind, hc1,
          Bool.false_eq_true, if_false]
        exact hrun
      · intro q hq
        obtain ⟨h1, h2⟩ := hleft q hq
        refine ⟨h1, ?_⟩
        intro e1 he1
        rcases List.mem_cons.mp he1 with rfl | he1
        · rw [hp]
          intro hpq
          exact hc ((Except.ok.inj hpq) ▸ h1)
        · exact h2 e1 he1
      · rintro ⟨e1, he1, hpe1⟩ hloc
        apply hfind _ hloc
        rcases List.mem_cons.mp he1 with rfl | he1
        · rw [hp] at hpe1
          exact absurd ((Except.ok.inj hpe1) ▸ hloc) hc
        · exact ⟨e1, he1, hpe1⟩

theorem SessionManager.profile_entry (s : SessionManager) (j : String)
    (hj : QString.isEmpty j = false) (hc : QHash.contains s._types j = true) :
    (j, SessionManager.profile s j) ∈ s._types := by
  rw [SessionManager.profile_of_live s j hj hc]
  apply QHash.mem_of_lookup
  simp only [QHash.contains] at hc
  cases hl : List.lookup j s._types with
  | none => simp [hl] at hc
  | some a => simp [QHash.value, hl]

/-- C17, amended: in a registry whose registered profiles all have a location and whose
favourites are non-empty live keys, for every non-empty live key K that is not yet a
favourite and whose location no other registered profile has, `setFavorite(K, true)`
returns with K a favourite, and `loadFavorites` on the state with the in-memory favourite
set cleared returns with K a favourite again. -/
theorem C17_favorite_round_trip_amended (env : Platform) (s : SessionManager) (K loc : String)
    (hkey : QString.isEmpty K = false) (hlive : QHash.contains s._types K = true)
    (hnew : K ∉ s._favorites)
    (hloc : Profile.path s.profiles (SessionManager.profile s K) = .ok loc)
    (hpaths : ∀ e ∈ s._types, ∃ p, Profile.path s.profiles e.2 = .ok p)
    (hfavs : ∀ j ∈ s._favorites,
      QString.isEmpty j = false ∧ QHash.contains s._types j = true)
    (hshare : ∀ e ∈ s._types, Profile.path s.profiles e.2 = .ok loc → e.1 = K) :
    ∃ s1 s2, SessionManager.setFavorite s K true = .ok s1 ∧ K ∈ s1._favorites ∧
      SessionManager.loadFavorites env { s1 with _favorites := [] } = .ok s2 ∧
      K ∈ s2._favorites := by
  have hlivefav : ∀ j ∈ K :: s._favorites,
      QString.isEmpty j = false ∧ QHash.contains s._types j = true := by
    intro j hj
    rcases List.mem_cons.mp hj with rfl | hj
    · exact ⟨hkey, hlive⟩
    · exact hfavs j hj
  have hall : ∀ j ∈ K :: s._favorites,
      ∃ p, Profile.path s.profiles (SessionManager.profile s j) = .ok p := fun j hj =>
    hpaths _ (SessionManager.profile_entry s j (hlivefav j hj).1 (hlivefav j hj).2)
  obtain ⟨ps, hps0⟩ := SessionManager.favoritePaths_returns s (K :: s._favorites) hall
  obtain ⟨m1, m2⟩ := SessionManager.favoritePaths_mem s _ ps hps0
  have hps : SessionManager.favoritePaths
      { s with _favorites := K :: s._favorites,
               emitted := s.emitted ++ [.favoriteStatusChanged K true] }
      (K :: s._favorites) = .ok ps :=
    (SessionManager.favoritePaths_congr s _ _ (by rfl) (by rfl) (by rfl)).trans hps0
  obtain ⟨f1, t1, hrun, -, hleft, hfind⟩ := SessionManager.loadFavoritesLoaded_spec s.profiles
    K loc s._types hpaths hshare [] ps.eraseDups
  have ht1 : t1 = [] := by
    apply List.eq_nil_iff_forall_not_mem.mpr
    intro q hq
    obtain ⟨h1, h2⟩ := hleft q hq
    obtain ⟨j, hj, hjq⟩ := m1 q ((List.mem_eraseDups_iff ps q).mp h1)
    exact h2 _ (SessionManager.profile_entry s j (hlivefav j hj).1 (hlivefav j hj).2) hjq
  have hK : K ∈ f1 := by
    apply hfind ⟨_, SessionManager.profile_entry s K hkey hlive, hloc⟩
    obtain ⟨p, hp, hKp⟩ := m2 K (List.mem_cons_self _ _)
    rw [hloc] at hKp
    rw [Except.ok.inj hKp]
    exact (List.mem_eraseDups_iff ps p).mpr hp
  subst ht1
  refine ⟨{ s with
      _favorites := K :: s._favorites,
      emitted := s.emitted ++ [.favoriteStatusChanged K true],
      world := { s.world with
        appConfig := { s.world.appConfig with favorites := some ps } } },
    { s with
      _favorites := f1,
      emitted := s.emitted ++ [.favoriteStatusChanged K true],
      world := { s.world with
        appConfig := { s.world.appConfig with favorites := some ps } } },
    ?_, List.mem_cons_self _ _, ?_, hK⟩
  · simp [SessionManager.setFavorite, hnew, SessionManager.saveFavorites, hps, bind,
      Except.bind, pure, Except.pure]
  · simp only [SessionManager.loadFavorites, hrun, bind, Except.bind,
      SessionManager.loadFavoritesRemaining]
    rfl

/-- C17 fails as stated, in two ways.  Favourites are saved and matched by location: the
fallback under `0` and its child under `1` both have the empty location, so after
`setFavorite("0", true)`, clearing and `loadFavorites`, the favourite is whichever of the
two keys the loop over the mapping meets first: `1` in one order, and in the other order
the same happens to the key `1`.  And `setFavorite(K, true)` saves nothing when K is a
favourite already: after `changeProfile` has moved the favourite `/x/a.profile0` to
`/y/b.profile`, the saved list still holds the old location, and reloading finds no
favourite at all. -/
theorem C17_counterexample_shared_location :
    SessionManager.addProfile Example.allocatedB 2 = .ok ("1", Example.withB) ∧
    (∃ s1 s2, SessionManager.setFavorite Example.withB "0" true = .ok s1 ∧
      s1._favorites = ["0"] ∧ s1.world.appConfig.favorites = some [""] ∧
      SessionManager.loadFavorites Example.platform { s1 with _favorites := [] } = .ok s2 ∧
      s2._favorites = ["1"]) ∧
    (∃ s1 s2, SessionManager.setFavorite Example.withBSwapped "1" true = .ok s1 ∧
      s1._favorites = ["1"] ∧ s1.world.appConfig.favorites = some [""] ∧
      SessionManager.loadFavorites Example.platform { s1 with _favorites := [] } = .ok s2 ∧
      s2._favorites = ["0"]) ∧
    (∃ s1 s2 s3, SessionManager.setFavorite Example.withA "/x/a.profile0" true = .ok s1 ∧
      SessionManager.changeProfile Example.platform s1 "/x/a.profile0"
        [(.Path, .string "/y/b.profile")] = .ok s2 ∧
      s2._favorites = ["/x/a.profile0"] ∧
      QHash.contains s2._types "/x/a.profile0" = true ∧
      SessionManager.setFavorite s2 "/x/a.profile0" true = .ok s2 ∧
      s2.world.appConfig.favorites = some ["/x/a.profile"] ∧
      SessionManager.loadFavorites Example.platform { s2 with _favorites := [] } = .ok s3 ∧
      s3._favorites = []) :=
  ⟨rfl, ⟨_, _, rfl, rfl, rfl, rfl, rfl⟩, ⟨_, _, rfl, rfl, rfl, rfl, rfl⟩,
    ⟨_, _, _, rfl, rfl, rfl, rfl, rfl, rfl, rfl, rfl⟩⟩

/-- C16, at a concrete input: the profile under `/x/a.profile0` becomes a favourite, the
signal is emitted and the saved list is that of the paths of the favourites; a second call
changes nothing. -/
theorem C16_witness :
    ∃ s', SessionManager.setFavorite Example.withA "/x/a.profile0" true = .ok s' ∧
      "/x/a.profile0" ∈ s'._favorites ∧
      s'.emitted = Example.withA.emitted ++ [.favoriteStatusChanged "/x/a.profile0" true] ∧
      (∃ paths, SessionManager.favoritePaths s' s'._favorites = .ok paths ∧
        s'.world.appConfig.favorites = some paths) ∧
      SessionManager.setFavorite s' "/x/a.profile0" true = .ok s' := by
  obtain ⟨s', h1, h2, -, -, h5, h6⟩ := C16_setFavorite_transition Example.withA
    "/x/a.profile0" true
    (by
      intro j hj
      simp only [Example.withA, Example.allocatedA, Example.fresh, List.mem_singleton] at hj
      subst hj
      exact ⟨"/x/a.profile", rfl⟩)
  have hchanged : ¬("/x/a.profile0" ∈ Example.withA._favorites ↔ true = true) := by
    simp [Example.withA, Example.allocatedA, Example.fresh]
  exact ⟨s', h1, h2.mpr rfl, (h5 hchanged).1, (h5 hchanged).2, h6⟩

/-- C17 amended, at a concrete input: the profile under `/x/a.profile0` is the only one with
the location `/x/a.profile`, and it is a favourite again after the round trip. -/
theorem C17_witness :
    ∃ s1 s2, SessionManager.setFavorite Example.withA "/x/a.profile0" true = .ok s1 ∧
      "/x/a.profile0" ∈ s1._favorites ∧
      SessionManager.loadFavorites Example.platform { s1 with _favorites := [] } = .ok s2 ∧
      "/x/a.profile0" ∈ s2._favorites :=
  C17_favorite_round_trip_amended Example.platform Example.withA "/x/a.profile0"
    "/x/a.profile" rfl rfl (by simp [Example.withA, Example.allocatedA, Example.fresh]) rfl
    (by
      intro e he
      simp only [Example.withA, List.mem_cons, List.mem_singleton, List.mem_nil_iff,
        or_false] at he
      rcases he with rfl | rfl
      · exact ⟨"/x/a.profile", rfl⟩
      · exact ⟨"", rfl⟩)
    (by
      intro j hj
      simp [Example.withA, Example.allocatedA, Example.fresh] at hj)
    (by
      intro e he hp
      simp only [Example.withA, List.mem_cons, List.mem_singleton, List.mem_nil_iff,
        or_false] at he
      rcases he with rfl | rfl
      · rfl
      · exact absurd hp (by
          intro h
          have h2 : Profile.path Example.withA.profiles 1 = .ok "" := rfl
          rw [h2] at h
          exact absurd (Except.ok.inj h) (by decide)))

/-! ## Favourites are keys of the mapping -/

theorem SessionManager.addProfile_favorites (s s' : SessionManager) (type : Ptr) (key : String)
    (h : SessionManager.addProfile s type = .ok (key, s')) :
    s'._favorites = s._favorites ∧ QHash.contains s'._types key = true ∧
      ∀ k, QHash.contains s._types k = true → QHash.contains s'._types k = true := by
  obtain ⟨path, n, -, -, -, rfl⟩ := SessionManager.addProfile_ok s s' type key h
  refine ⟨rfl, by simp [QHash.contains_insert], ?_⟩
  intro k hk
  simp [QHash.contains_insert, hk]

theorem SessionManager.loadProfile_favorites (env : Platform) (s s' : SessionManager)
    (path key : String) (h : SessionManager.loadProfile env s path = .ok (key, s')) :
    s'._favorites = s._favorites ∧
      (QString.isEmpty key = false → QHash.contains s'._types key = true) ∧
      ∀ k, QHash.contains s._types k = true → QHash.contains s'._types k = true := by
  rcases SessionManager.loadProfile_cases env s s' path key h with
    ⟨hk, h1, -, h3⟩ | ⟨hp, type, ha⟩
  · refine ⟨h3, ?_, ?_⟩
    · intro hne
      simp [QString.isEmpty, hk] at hne
    · intro k hc
      rw [h1]
      exact hc
  · obtain ⟨a1, a2, a3⟩ := SessionManager.addProfile_favorites _ _ _ _ ha
    exact ⟨a1, fun _ => a2, a3⟩

theorem SessionManager.new_favorites (env : Platform) (world : World) (s : SessionManager)
    (h : SessionManager.new env world = .ok s) : s._favorites = [] := by
  unfold SessionManager.new at h
  simp only [bind_eq_ok] at h
  obtain ⟨⟨k1, s1⟩, h1, h⟩ := h
  obtain ⟨c1, -, -⟩ := SessionManager.addProfile_favorites _ _ _ _ h1
  split at h
  · simp only [bind_eq_ok] at h
    obtain ⟨⟨key, s2⟩, h2, h⟩ := h
    obtain ⟨l1, -, -⟩ := SessionManager.loadProfile_favorites _ _ _ _ _ h2
    split at h
    · simp only [pure_eq_ok] at h
      subst h
      exact l1.trans c1
    · simp only [pure_eq_ok] at h
      subst h
      exact l1.trans c1
  · simp only [pure_eq_ok] at h
    subst h
    exact c1

theorem SessionManager.loadFavoritesLoaded_keys (h : Heap Profile) (l : List (String × Ptr)) :
    ∀ (favorites favoriteSet favorites1 favoriteSet1 : List String),
      SessionManager.loadFavoritesLoaded h l favorites favoriteSet =
        .ok (favorites1, favoriteSet1) →
      ∀ k ∈ favorites1, k ∈ favorites ∨ k ∈ QHash.keys l := by
  induction l with
  | nil =>
    intro favorites favoriteSet favorites1 favoriteSet1 hrun k hk
    simp only [SessionManager.loadFavoritesLoaded, pure_eq_ok, Prod.mk.injEq] at hrun
    rw [← hrun.1] at hk
    exact Or.inl hk
  | cons e rest ih =>
    intro favorites favoriteSet favorites1 favoriteSet1 hrun k hk
    simp only [SessionManager.loadFavoritesLoaded, bind_eq_ok] at hrun
    obtain ⟨p, -, hrun⟩ := hrun
    split at hrun
    · rcases ih _ _ _ _ hrun k hk with h1 | h1
      · split at h1
        · exact Or.inl h1
        · rcases List.mem_cons.mp h1 with rfl | h1
          · exact Or.inr (by simp [QHash.keys])
          · exact Or.inl h1
      · exact Or.inr (by
          simp only [QHash.keys, List.map_cons, List.mem_cons] at h1 ⊢
          exact Or.inr h1)
    · rcases ih _ _ _ _ hrun k hk with h1 | h1
      · exact Or.inl h1
      · exact Or.inr (by
          simp only [QHash.keys, List.map_cons, List.mem_cons] at h1 ⊢
          exact Or.inr h1)

theorem SessionManager.loadFavoritesRemaining_keys (env : Platform) (l : List String) :
    ∀ (s s' : SessionManager),
      SessionManager.loadFavoritesRemaining env s l = .ok s' →
      (∀ k ∈ s._favorites, QHash.contains s._types k = true) →
      ∀ k ∈ s'._favorites, QHash.contains s'._types k = true := by
  induction l with
  | nil =>
    intro s s' hrun hinv
    simp only [SessionManager.loadFavoritesRemaining, pure_eq_ok] at hrun
    subst hrun
    exact hinv
  | cons p rest ih =>
    intro s s' hrun hinv
    simp only [SessionManager.loadFavoritesRemaining, bind_eq_ok] at hrun
    obtain ⟨⟨key, s1⟩, hload, hrun⟩ := hrun
    obtain ⟨l1, l2, l3⟩ := SessionManager.loadProfile_favorites _ _ _ _ _ hload
    apply ih _ _ hrun
    have hold : ∀ j ∈ s1._favorites, QHash.contains s1._types j = true := by
      intro j hj
      rw [l1] at hj
      exact l3 j (hinv j hj)
    simp only []
    split
    · rename_i hc
      simp only [Bool.and_eq_true, Bool.not_eq_true_eq_eq_false] at hc
      intro k hk
      rcases List.mem_cons.mp hk with rfl | hk
      · exact l2 (by simpa using hc.1)
      · exact hold k hk
    · exact hold

theorem SessionManager.loadFavorites_keys (env : Platform) (s s' : SessionManager)
    (h : SessionManager.loadFavorites env s = .ok s')
    (hinv : ∀ k ∈ s._favorites, QHash.contains s._types k = true) :
    ∀ k ∈ s'._favorites, QHash.contains s'._types k = true := by
  unfold SessionManager.loadFavorites at h
  split at h
  · simp only [pure_eq_ok] at h
    subst h
    exact hinv
  · simp only [bind_eq_ok] at h
    obtain ⟨⟨favorites, favoriteSet⟩, h1, h2⟩ := h
    apply SessionManager.loadFavoritesRemaining_keys env _ _ _ h2
    intro k hk
    rcases SessionManager.loadFavoritesLoaded_keys _ _ _ _ _ _ h1 k hk with h3 | h3
    · exact hinv k h3
    · exact (QHash.contains_iff_mem_keys _ _).mpr h3

theorem SessionManager.setFavorite_favorites (s s' : SessionManager) (key : String) (b : Bool)
    (h : SessionManager.setFavorite s key b = .ok s') :
    (∀ k ∈ s'._favorites, k = key ∧ b = true ∨ k ∈ s._favorites) ∧
      (b = false → key ∉ s'._favorites) := by
  unfold SessionManager.setFavorite at h
  split at h
  · rename_i hc
    rw [SessionManager.saveFavorites_frame _ _ h]
    simp only [Bool.and_eq_true] at hc
    refine ⟨?_, fun hb => by simp [hb] at hc⟩
    intro k hk
    rcases List.mem_cons.mp hk with rfl | hk
    · exact Or.inl ⟨rfl, hc.1⟩
    · exact Or.inr hk
  · split at h
    · rw [SessionManager.saveFavorites_frame _ _ h]
      refine ⟨fun k hk => Or.inr (List.mem_filter.mp hk).1, fun _ hk => ?_⟩
      simpa using (List.mem_filter.mp hk).2
    · rename_i hc1 hc2
      simp only [pure_eq_ok] at h
      subst h
      refine ⟨fun k hk => Or.inr hk, fun hb hk => ?_⟩
      simp [hb, hk] at hc2

theorem SessionManager.deleteProfile_favorites (s s' : SessionManager) (key : String)
    (h : SessionManager.deleteProfile s key = .ok s') :
    ∀ k ∈ s'._favorites, k ∈ s._favorites ∧ k ≠ key := by
  unfold SessionManager.deleteProfile at h
  simp only [bind_eq_ok, pure_eq_ok] at h
  obtain ⟨s1, hfav, s2, h2, s3, h3, rfl⟩ := h
  obtain ⟨f1, f2⟩ := SessionManager.setFavorite_favorites _ _ _ _ hfav
  obtain ⟨-, -, r3⟩ := SessionManager.deleteProfileRemove_registry _ _ _ _ h2
  obtain ⟨-, d2, -, -⟩ := SessionManager.deleteProfileDefault_registry _ _ _ h3
  intro k hk
  simp only [d2, r3] at hk
  refine ⟨?_, ?_⟩
  · rcases f1 k hk with ⟨-, hb⟩ | hk1
    · cases hb
    · exact hk1
  · intro e
    subst e
    exact f2 rfl hk

theorem SessionManager.createSession_favorites (s s' : SessionManager) (key : String)
    (session : Ptr) (h : SessionManager.createSession s key = .ok (session, s')) :
    s'._favorites = s._favorites ∧
      ∀ k, QHash.contains s._types k = true → QHash.contains s'._types k = true := by
  unfold SessionManager.createSession at h
  by_cases hk : QString.isEmpty key = true
  · simp only [hk, if_true, bind_eq_ok, pure_eq_ok, Prod.mk.injEq] at h
    obtain ⟨s2, h2, -, rfl⟩ := h
    rw [SessionManager.applyProfileToSession_frame _ _ _ _ _ h2]
    exact ⟨rfl, fun k hc => hc⟩
  · by_cases hc : QHash.contains s._types key = true
    · simp only [hk, hc, if_true, Bool.false_eq_true, if_false, bind_eq_ok, pure_eq_ok,
        Prod.mk.injEq] at h
      obtain ⟨s2, h2, -, rfl⟩ := h
      rw [SessionManager.applyProfileToSession_frame _ _ _ _ _ h2]
      exact ⟨rfl, fun k hc => hc⟩
    · simp only [hk, hc, if_true, Bool.false_eq_true, if_false, bind_eq_ok, pure_eq_ok,
        Prod.mk.injEq] at h
      obtain ⟨s2, h2, -, rfl⟩ := h
      rw [SessionManager.applyProfileToSession_frame _ _ _ _ _ h2]
      refine ⟨rfl, fun k hc1 => ?_⟩
      simp [QHash.contains_insert, hc1]

theorem SessionManager.reachableFavorites_keys (env : Platform) (world : World)
    (s : SessionManager) (hr : SessionManager.ReachableFavorites env world s) :
    ∀ k ∈ s._favorites, QHash.contains s._types k = true := by
  induction hr with
  | constructed s h =>
    intro k hk
    rw [SessionManager.new_favorites env world s h] at hk
    cases hk
  | newProfile s P _ ih => exact ih
  | addProfile s s' type key _ h ih =>
    obtain ⟨a1, -, a3⟩ := SessionManager.addProfile_favorites _ _ _ _ h
    intro k hk
    rw [a1] at hk
    exact a3 k (ih k hk)
  | loadProfile s s' path key _ h ih =>
    obtain ⟨a1, -, a3⟩ := SessionManager.loadProfile_favorites _ _ _ _ _ h
    intro k hk
    rw [a1] at hk
    exact a3 k (ih k hk)
  | setFavorite s s' key favorite _ hlive h ih =>
    obtain ⟨f1, -⟩ := SessionManager.setFavorite_favorites _ _ _ _ h
    obtain ⟨t1, -⟩ := SessionManager.setFavorite_frame _ _ _ _ h
    intro k hk
    rw [t1]
    rcases f1 k hk with ⟨rfl, -⟩ | hk1
    · exact hlive
    · exact ih k hk1
  | loadFavorites s s' _ h ih => exact SessionManager.loadFavorites_keys env s s' h ih
  | findFavorites s s' favorites _ h ih =>
    by_cases he : s._favorites.isEmpty = true
    · simp only [SessionManager.findFavorites, he, if_true, bind_eq_ok, pure_eq_ok,
        Prod.mk.injEq] at h
      obtain ⟨s1, h1, -, rfl⟩ := h
      exact SessionManager.loadFavorites_keys env s s1 h1 ih
    · simp only [SessionManager.findFavorites, he, if_false, bind_eq_ok, pure_eq_ok,
        Prod.mk.injEq] at h
      obtain ⟨s1, h1, -, rfl⟩ := h
      exact ih
  | changeProfile s s' key propertyMap _ h ih =>
    obtain ⟨c1, -, c3, -⟩ := SessionManager.changeProfile_frame _ _ _ _ _ h
    rw [c1, c3]
    exact ih
  | setDefaultProfile s s' key _ h ih =>
    rw [SessionManager.setDefaultProfile_frame _ _ _ h]
    exact ih
  | createSession s s' key session _ h ih =>
    obtain ⟨c1, c2⟩ := SessionManager.createSession_favorites _ _ _ _ h
    intro k hk
    rw [c1] at hk
    exact c2 k (ih k hk)
  | deleteProfile s s' key _ h ih =>
    obtain ⟨r1, -, -⟩ := SessionManager.deleteProfile_registry _ _ _ h
    intro k hk
    obtain ⟨hk1, hne⟩ := SessionManager.deleteProfile_favorites _ _ _ h k hk
    rw [r1]
    split
    · simp [QHash.contains_remove, hne, ih k hk1]
    · exact ih k hk1

/-- C18: in every registry state reached from the constructed registry by calls that
returned of `addProfile`, `loadProfile`, `setFavorite` on a key of the mapping,
`loadFavorites`, `findFavorites`, `changeProfile`, `setDefaultProfile`, `createSession` and
`deleteProfile`, every favourite is a key of the mapping; and after `deleteProfile(k)` from
such a state the key k is not a favourite and not a key of the mapping when its profile was
not null, while every favourite is still a key of the mapping. -/
theorem C18_favorites_are_keys (env : Platform) (world : World) (s : SessionManager)
    (hr : SessionManager.ReachableFavorites env world s) :
    (∀ k ∈ s._favorites, QHash.contains s._types k = true) ∧
    ∀ (k : String) (s' : SessionManager), SessionManager.deleteProfile s k = .ok s' →
      k ∉ s'._favorites ∧
      (SessionManager.profile s k ≠ 0 → QHash.contains s'._types k = false) ∧
      ∀ j ∈ s'._favorites, QHash.contains s'._types j = true := by
  refine ⟨SessionManager.reachableFavorites_keys env world s hr, ?_⟩
  intro k s' h
  refine ⟨fun hk => (SessionManager.deleteProfile_favorites _ _ _ h k hk).2 rfl, ?_,
    SessionManager.reachableFavorites_keys env world s' (.deleteProfile s s' k hr h)⟩
  intro hne
  rw [(SessionManager.deleteProfile_registry _ _ _ h).1]
  simp [hne, QHash.contains_remove]

/-- C18, at a concrete input: with the profile under `/x/a.profile0` a favourite, the
favourite is a key of the mapping, and `deleteProfile` of that key leaves no favourite. -/
theorem C18_witness :
    SessionManager.ReachableFavorites Example.platform Example.world Example.favoriteA ∧
      Example.favoriteA._favorites = ["/x/a.profile0"] ∧
      (∀ k ∈ Example.favoriteA._favorites,
        QHash.contains Example.favoriteA._types k = true) ∧
      ∃ s', SessionManager.deleteProfile Example.favoriteA "/x/a.profile0" = .ok s' ∧
        "/x/a.profile0" ∉ s'._favorites ∧
        QHash.contains s'._types "/x/a.profile0" = false :=
  have hreach : SessionManager.ReachableFavorites Example.platform Example.world
      Example.favoriteA :=
    .setFavorite Example.withA _ "/x/a.profile0" true
      (.addProfile Example.allocatedA _ 2 "/x/a.profile0"
        (.newProfile Example.fresh Example.profileA (.constructed _ rfl)) rfl) rfl rfl
  have hall := C18_favorites_are_keys Example.platform Example.world Example.favoriteA hreach
  ⟨hreach, rfl, hall.1, _, rfl, (hall.2 "/x/a.profile0" _ rfl).1,
    (hall.2 "/x/a.profile0" _ rfl).2.1 (by decide)⟩

/-! ## What the writer writes -/

/-- C19, amended: for every profile on which `Command` and `Arguments` are both locally set
or both not, the entries `KDE4ProfileWriter::writeProfile` writes are those computed from
its own property map alone, so a second such profile with the same property map writes the
same entries whatever the parents are. -/
theorem C19_entries_local_amended (env : Platform) (h : Heap Profile) (p : Ptr) (P : Profile)
    (hP : h.get p = .ok P)
    (hboth : P.isPropertySet .Command = P.isPropertySet .Arguments) :
    KDE4ProfileWriter.entries env h p = .ok (KDE4ProfileWriter.localEntries env P) ∧
    (∀ config, KDE4ProfileWriter.writeProfile env h config p = .ok (true,
      (KDE4ProfileWriter.localEntries env P).foldl
        (fun c e => KConfig.writeEntry c e.1.1 e.1.2 e.2) config)) ∧
    ∀ (h2 : Heap Profile) (p2 : Ptr) (P2 : Profile), h2.get p2 = .ok P2 →
      P2._propertyValues = P._propertyValues →
      KDE4ProfileWriter.entries env h2 p2 = KDE4ProfileWriter.entries env h p := by
  have key : ∀ (h : Heap Profile) (p : Ptr) (P : Profile), h.get p = .ok P →
      P.isPropertySet .Command = P.isPropertySet .Arguments →
      KDE4ProfileWriter.entries env h p = .ok (KDE4ProfileWriter.localEntries env P) := by
    intro h p P hP hboth
    apply KDE4ProfileWriter.entries_eq env h p P _ hP
    · intro x hx
      exact Profile.property_local h p P x hP hx
    · intro hc
      have h1 : P.isPropertySet .Command = true := by
        cases hcmd : P.isPropertySet .Command
        · rw [← hboth, hcmd] at hc
          simp at hc
        · rfl
      exact ⟨Profile.property_local h p P _ hP h1,
        Profile.property_local h p P _ hP (hboth ▸ h1)⟩
  refine ⟨key h p P hP hboth, ?_, ?_⟩
  · intro config
    simp only [KDE4ProfileWriter.writeProfile, key h p P hP hboth, bind, Except.bind]
    rfl
  · intro h2 p2 P2 hP2 hsame
    have hset : ∀ x, P2.isPropertySet x = P.isPropertySet x := by
      intro x
      simp only [Profile.isPropertySet, hsame]
    rw [key h p P hP hboth, key h2 p2 P2 hP2 (by rw [hset, hset, hboth])]
    simp only [KDE4ProfileWriter.localEntries, hsame]
    have : P2.isPropertySet = P.isPropertySet := funext hset
    rw [this]

/-- C19 fails as stated: the two profiles at addresses 3 and 4 have the same property map,
with `Command` set to `/bin/zsh` and no `Arguments`, and parents whose `Arguments` differ;
the `Command` entry written for each is built from the `Arguments` of its parent, so the
two write different entries. -/
theorem C19_counterexample_inherited_arguments :
    (∃ P3 P4, Example.twoParents.get 3 = .ok P3 ∧ Example.twoParents.get 4 = .ok P4 ∧
      P3._propertyValues = P4._propertyValues ∧ P3._parent ≠ P4._parent ∧
      P3.isPropertySet .Arguments = false) ∧
    KDE4ProfileWriter.entries Example.platformJoin Example.twoParents 3 =
      .ok [(("General", "Command"), "/bin/zsh")] ∧
    KDE4ProfileWriter.entries Example.platformJoin Example.twoParents 4 =
      .ok [(("General", "Command"), "/bin/zsh -l")] :=
  ⟨⟨_, _, rfl, rfl, rfl, by decide, rfl⟩, rfl, rfl⟩

/-- C19 amended, at a concrete input: a profile with `Name`, `Command` and `Arguments` of
its own writes the same three values under either parent. -/
theorem C19_witness :
    KDE4ProfileWriter.entries Example.platformJoin
        (Example.twoParents.set 3 Example.profileZsh) 3 =
      .ok [(("General", "Name"), "Z"), (("General", "Command"), "/bin/zsh -l")] ∧
    KDE4ProfileWriter.entries Example.platformJoin
        (Example.twoParents.set 4 (Example.profileZsh.setParent 2)) 4 =
      KDE4ProfileWriter.entries Example.platformJoin
        (Example.twoParents.set 3 Example.profileZsh) 3 :=
  ⟨(C19_entries_local_amended Example.platformJoin
      (Example.twoParents.set 3 Example.profileZsh) 3 Example.profileZsh rfl rfl).1.trans rfl,
    (C19_entries_local_amended Example.platformJoin
      (Example.twoParents.set 3 Example.profileZsh) 3 Example.profileZsh rfl rfl).2.2
      (Example.twoParents.set 4 (Example.profileZsh.setParent 2)) 4
      (Example.profileZsh.setParent 2) rfl rfl⟩

/-! ## The names of the properties -/

theorem Profile.registerNames_contains (calls : List (Property × String)) (name : String) :
    ∀ init : QHash String Property,
      QHash.contains
        (calls.foldl (fun names c => Profile.registerName names c.1 c.2) init) name =
      (QHash.contains init name || calls.any (fun c => decide (c.2 = name))) := by
  induction calls with
  | nil =>
    intro init
    simp
  | cons c rest ih =>
    intro init
    rw [List.foldl_cons, ih]
    simp only [Profile.registerName, QHash.contains_insert, List.any_cons]
    by_cases hc : c.2 = name
    · simp [hc]
    · have : ¬ name = c.2 := fun e => hc e.symm
      simp [hc, this]

/-- C20: for a name that was never passed to `registerName`, `isNameRegistered` is false,
and `lookupByName` returns the value-initialised property and leaves a mapping that is not
the one it was called on: the name is a key of it, `isNameRegistered` is true for the name
from then on, and `namesForProperty` lists it. -/
theorem C20_lookupByName_registers_unknown_name (calls : List (Property × String))
    (name : String) (hnever : ∀ c ∈ calls, c.2 ≠ name) :
    Profile.isNameRegistered (Profile.registerNames calls) name = false ∧
    (Profile.lookupByName (Profile.registerNames calls) name).1 = Property.zero ∧
    (Profile.lookupByName (Profile.registerNames calls) name).2 ≠
      Profile.registerNames calls ∧
    Profile.isNameRegistered (Profile.lookupByName (Profile.registerNames calls) name).2
      name = true ∧
    name ∈ Profile.namesForProperty
      (Profile.lookupByName (Profile.registerNames calls) name).2 Property.zero := by
  have hfalse : QHash.contains (Profile.registerNames calls) name = false := by
    rw [Profile.registerNames, Profile.registerNames_contains]
    simp only [QHash.contains, List.lookup, Option.isSome, Bool.false_or]
    rw [Bool.eq_false_iff]
    intro hany
    obtain ⟨c, hc, hcn⟩ := List.any_eq_true.mp hany
    exact hnever c hc (by simpa using hcn)
  have htrue : Profile.isNameRegistered
      (Profile.lookupByName (Profile.registerNames calls) name).2 name = true := by
    simp [Profile.isNameRegistered, Profile.lookupByName, hfalse, QHash.contains_insert]
  refine ⟨hfalse, ?_, ?_, htrue, ?_⟩
  · simp [Profile.lookupByName, hfalse]
  · intro e
    rw [e] at htrue
    simp only [Profile.isNameRegistered, hfalse] at htrue
    cases htrue
  · simp [Profile.lookupByName, hfalse, Profile.namesForProperty, QHash.insert]

/-- C20, at a concrete input: after `registerName(Name, "Name")` alone, `lookupByName` of
`NoSuchName` makes that name registered. -/
theorem C20_witness :
    Profile.isNameRegistered (Profile.registerNames [(.Name, "Name")]) "NoSuchName" = false ∧
    Profile.isNameRegistered
      (Profile.lookupByName (Profile.registerNames [(.Name, "Name")]) "NoSuchName").2
      "NoSuchName" = true := by
  obtain ⟨h1, -, -, h4, -⟩ := C20_lookupByName_registers_unknown_name [(.Name, "Name")]
    "NoSuchName" (by
      intro c hc
      simp only [List.mem_singleton] at hc
      subst hc
      decide)
  exact ⟨h1, h4⟩

/-! ## The counter search of `addProfile` -/

/-- C21: for every registry and every profile with a location `path`, the counter search of
`addProfile` stops: there is a counter n, at most the number of entries of the mapping, such
that `path + QString::number(n)` is not a key while it is one for every smaller counter; the
loop stops at n however many iterations it is allowed beyond n and does not stop before n
iterations; `addProfile` returns that key; and distinct counters give distinct keys. -/
theorem C21_addProfile_counter_terminates (s : SessionManager) (type : Ptr) (path : String)
    (hpath : Profile.path s.profiles type = .ok path) :
    ∃ (n : Nat) (s' : SessionManager),
      n ≤ QHash.count s._types ∧
      QHash.contains s._types (path ++ QString.number n) = false ∧
      (∀ m, m < n → QHash.contains s._types (path ++ QString.number m) = true) ∧
      (∀ fuel, n < fuel → SessionManager.addProfileCounter s._types path fuel 0 = some n) ∧
      (∀ fuel, fuel ≤ n → SessionManager.addProfileCounter s._types path fuel 0 = none) ∧
      SessionManager.addProfile s type = .ok (path ++ QString.number n, s') ∧
      ∀ m k, path ++ QString.number m = path ++ QString.number k → m = k := by
  have hsome := SessionManager.addProfileCounter_isSome s._types path
  cases hn : SessionManager.addProfileCounter s._types path (QHash.count s._types + 1) 0 with
  | none => simp [hn] at hsome
  | some n =>
    obtain ⟨-, hlt, hfree, hused⟩ := SessionManager.addProfileCounter_spec _ _ _ _ _ hn
    have hrun : ∀ fuel, n < fuel →
        SessionManager.addProfileCounter s._types path fuel 0 = some n := by
      intro fuel hf
      have hs := SessionManager.addProfileCounter_complete s._types path fuel 0 n
        (Nat.zero_le n) (by omega) hfree
      cases hk : SessionManager.addProfileCounter s._types path fuel 0 with
      | none => simp [hk] at hs
      | some k =>
        obtain ⟨-, -, kfree, kused⟩ := SessionManager.addProfileCounter_spec _ _ _ _ _ hk
        rcases Nat.lt_trichotomy k n with h1 | h1 | h1
        · rw [hused k (Nat.zero_le k) h1] at kfree
          cases kfree
        · rw [h1]
        · rw [kused n (Nat.zero_le n) h1] at hfree
          cases hfree
    refine ⟨n, _, by omega, hfree, fun m hm => hused m (Nat.zero_le m) hm, hrun, ?_,
      SessionManager.addProfile_eq s type path n hpath hn, ?_⟩
    · intro fuel hf
      cases hk : SessionManager.addProfileCounter s._types path fuel 0 with
      | none => rfl
      | some k =>
        obtain ⟨-, klt, kfree, -⟩ := SessionManager.addProfileCounter_spec _ _ _ _ _ hk
        rw [hused k (Nat.zero_le k) (by omega)] at kfree
        cases kfree
    · intro m k hmk
      exact QString.append_number_injective path hmk

/-- C21, at a concrete input: the keys `/x/a.profile0` and `/x/a.profile1` are taken, so a
third `addProfile` of a profile with that location stops at a counter of at most 3, the
number of entries. -/
theorem C21_witness :
    ∃ (n : Nat) (s' : SessionManager),
      n ≤ 3 ∧
      QHash.contains Example.twiceA._types ("/x/a.profile" ++ QString.number n) = false ∧
      (∀ m, m < n →
        QHash.contains Example.twiceA._types ("/x/a.profile" ++ QString.number m) = true) ∧
      SessionManager.addProfile Example.twiceA 2 =
        .ok ("/x/a.profile" ++ QString.number n, s') := by
  obtain ⟨n, s', h1, h2, h3, -, -, h6, -⟩ := C21_addProfile_counter_terminates Example.twiceA 2
    "/x/a.profile" rfl
  exact ⟨n, s', h1, h2, h3, h6⟩

/-! ## Writing a profile and reading it back -/

theorem QHash.lookup_foldl_insert_absent {κ ν : Type} [DecidableEq κ] (es : List (κ × ν))
    (key : κ) (habs : ∀ e ∈ es, e.1 ≠ key) :
    ∀ c : QHash κ ν,
      List.lookup key (es.foldl (fun c e => QHash.insert c e.1 e.2) c) = List.lookup key c := by
  induction es with
  | nil => intro c; rfl
  | cons e rest ih =>
    intro c
    rw [List.foldl_cons, ih (fun e1 he1 => habs e1 (List.mem_cons_of_mem _ he1))]
    have hne : key ≠ e.1 := fun h => habs e (List.mem_cons_self _ _) h.symm
    exact QHash.lookup_insert_ne c e.2 hne

theorem QHash.lookup_foldl_insert_written {κ ν : Type} [DecidableEq κ] (es : List (κ × ν))
    (key : κ) (v : ν) (huniq : ∀ e ∈ es, e.1 = key → e.2 = v) :
    ∀ c : QHash κ ν, (List.lookup key c = some v ∨ (key, v) ∈ es) →
      List.lookup key (es.foldl (fun c e => QHash.insert c e.1 e.2) c) = some v := by
  induction es with
  | nil =>
    intro c h
    rcases h with h | h
    · exact h
    · cases h
  | cons e rest ih =>
    intro c h
    rw [List.foldl_cons]
    apply ih (fun e1 he1 => huniq e1 (List.mem_cons_of_mem _ he1))
    by_cases hk : e.1 = key
    · left
      have hv := huniq e (List.mem_cons_self _ _) hk
      rw [hk, hv]
      exact QHash.lookup_insert_self c key v
    · have hne : key ≠ e.1 := fun h => hk h.symm
      rcases h with h | h
      · left
        exact (QHash.lookup_insert_ne c e.2 hne).trans h
      · right
        rcases List.mem_cons.mp h with h1 | h1
        · exact absurd (congrArg Prod.fst h1).symm hk
        · exact h1

/-- The entries `writeProfile` passes to `writeEntry` end up in the configuration as a
sequence of insertions. -/
theorem KConfig.foldl_writeEntry (es : List ((String × String) × String)) (c : KConfig) :
    es.foldl (fun c e => KConfig.writeEntry c e.1.1 e.1.2 e.2) c =
      es.foldl (fun c e => QHash.insert c e.1 e.2) c := rfl

/-- What `readProfile` stores for `Name` and `ColorScheme` when the file has both keys: the
entry `Name`, and the entry under the key `Color Scheme`. -/
theorem KDE4ProfileReader.readProfile_name_colorScheme (env : Platform) (config : KConfig)
    (Q : Profile) (hn : config.hasKey "General" "Name" = true)
    (hcs : config.hasKey "Appearence" "ColorScheme" = true) :
    (KDE4ProfileReader.readProfile env config Q).1 = true ∧
    List.lookup .Name (KDE4ProfileReader.readProfile env config Q).2._propertyValues =
      some (.string (config.readEntry "General" "Name")) ∧
    List.lookup .ColorScheme (KDE4ProfileReader.readProfile env config Q).2._propertyValues =
      some (.string (config.readEntry "Appearence" "Color Scheme")) := by
  unfold KDE4ProfileReader.readProfile
  simp only [hn, if_true, true_and]
  constructor
  · rw [readEntryIf_lookup_ne _ _ _ _ _ _ _ (by decide),
      readEntryIf_lookup_ne _ _ _ _ _ _ _ (by decide),
      readEntryIf_lookup_ne _ _ _ _ _ _ _ (by decide),
      readEntryIf_lookup_ne _ _ _ _ _ _ _ (by decide),
      readEntryIf_lookup_ne _ _ _ _ _ _ _ (by decide),
      KDE4ProfileReader.readCommand_lookup_ne _ _ _ _ (by decide) (by decide)]
    exact QHash.lookup_insert_self _ _ _
  · rw [readEntryIf_lookup_ne _ _ _ _ _ _ _ (by decide)]
    simp only [readEntryIf, hcs, if_true]
    exact QHash.lookup_insert_self _ _ _

/-- C22: for every live profile with `Name` and `ColorScheme` locally set whose lookups
return, and every configuration without an entry `Color Scheme` in the group `Appearence`
(a new file has none), `writeProfile` returns true, and `readProfile` on what was written
returns true and yields a profile whose name is the original name and whose colour scheme
is the empty string, whatever the original colour scheme is. -/
theorem C22_round_trip_loses_colorScheme (env : Platform) (h : Heap Profile) (p : Ptr)
    (P Q : Profile) (config : KConfig)
    (hP : h.get p = .ok P)
    (hname : P.isPropertySet .Name = true) (hscheme : P.isPropertySet .ColorScheme = true)
    (hchain : ∀ x, ∃ v, Profile.property h p x = .ok v)
    (hfresh : KConfig.hasKey config "Appearence" "Color Scheme" = false) :
    ∃ (written : KConfig) (name scheme : String),
      Profile.name h p = .ok name ∧ Profile.colorScheme h p = .ok scheme ∧
      KDE4ProfileWriter.writeProfile env h config p = .ok (true, written) ∧
      KConfig.readEntry written "Appearence" "ColorScheme" = scheme ∧
      (KDE4ProfileReader.readProfile env written Q).1 = true ∧
      ∀ (h1 : Heap Profile) (q : Ptr),
        h1.get q = .ok (KDE4ProfileReader.readProfile env written Q).2 →
        Profile.name h1 q = .ok name ∧ Profile.colorScheme h1 q = .ok "" := by
  choose v hv using hchain
  have hentries := KDE4ProfileWriter.entries_eq env h p P v hP (fun x _ => hv x)
    (fun _ => ⟨hv _, hv _⟩)
  have hmemName : ((("General", "Name") : String × String), (v .Name).toQString) ∈
      KDE4ProfileWriter.entriesOf env P.isPropertySet v := by
    simp [KDE4ProfileWriter.entriesOf, hname]
  have hmemScheme : ((("Appearence", "ColorScheme") : String × String),
      (v .ColorScheme).toQString) ∈ KDE4ProfileWriter.entriesOf env P.isPropertySet v := by
    simp [KDE4ProfileWriter.entriesOf, hscheme]
  have hkeys : ∀ e ∈ KDE4ProfileWriter.entriesOf env P.isPropertySet v,
      (e.1 = ("General", "Name") → e.2 = (v .Name).toQString) ∧
      (e.1 = ("Appearence", "ColorScheme") → e.2 = (v .ColorScheme).toQString) ∧
      e.1 ≠ ("Appearence", "Color Scheme") := by
    intro e he
    simp only [KDE4ProfileWriter.entriesOf, List.mem_append, List.mem_ite_nil_right,
      List.mem_singleton] at he
    rcases he with
      (((((⟨-, rfl⟩ | ⟨-, rfl⟩) | ⟨-, rfl⟩) | ⟨-, rfl⟩) | ⟨-, rfl⟩) | ⟨-, rfl⟩) | ⟨-, rfl⟩
    all_goals simp
  have hwName := QHash.lookup_foldl_insert_written _ ("General", "Name") _
    (fun e he => (hkeys e he).1) config (Or.inr hmemName)
  have hwScheme := QHash.lookup_foldl_insert_written _ ("Appearence", "ColorScheme") _
    (fun e he => (hkeys e he).2.1) config (Or.inr hmemScheme)
  have hwOther := QHash.lookup_foldl_insert_absent _ ("Appearence", "Color Scheme")
    (fun e he => (hkeys e he).2.2) config
  rw [← KConfig.foldl_writeEntry] at hwName hwScheme hwOther
  have hfresh1 := hfresh
  simp only [KConfig.hasKey, QHash.contains] at hfresh1
  have hnone := Option.not_isSome_iff_eq_none.mp (Bool.eq_false_iff.mp hfresh1)
  obtain ⟨r1, r2, r3⟩ := KDE4ProfileReader.readProfile_name_colorScheme env
    ((KDE4ProfileWriter.entriesOf env P.isPropertySet v).foldl
      (fun c e => KConfig.writeEntry c e.1.1 e.1.2 e.2) config) Q
    (by simp [KConfig.hasKey, QHash.contains, hwName])
    (by simp [KConfig.hasKey, QHash.contains, hwScheme])
  refine ⟨_, (v .Name).toQString, (v .ColorScheme).toQString, ?_, ?_, ?_, ?_, r1, ?_⟩
  · simp [Profile.name, Profile.stringProperty, hv]
  · simp [Profile.colorScheme, Profile.stringProperty, hv]
  · simp only [KDE4ProfileWriter.writeProfile, hentries, bind, Except.bind]
    rfl
  · simp [KConfig.readEntry, QHash.value, hwScheme]
  · intro h1 q hq
    constructor
    · rw [Profile.name, Profile.stringProperty_local h1 q _ .Name _ hq r2]
      simp [KConfig.readEntry, QHash.value, hwName, QVariant.toQString]
    · rw [Profile.colorScheme, Profile.stringProperty_local h1 q _ .ColorScheme _ hq r3]
      simp [KConfig.readEntry, QHash.value, hwOther, hnone, QVariant.toQString]

/-- C22, at a concrete input: the profile named `Dark` with the colour scheme `Linux` is
written to a new file; the file holds `Linux` under `ColorScheme`, and the profile read back
is named `Dark` and has the empty colour scheme. -/
theorem C22_witness :
    ∃ written : KConfig,
      Profile.colorScheme Example.withLinux 2 = .ok "Linux" ∧
      KDE4ProfileWriter.writeProfile Example.platform Example.withLinux [] 2 =
        .ok (true, written) ∧
      KConfig.readEntry written "Appearence" "ColorScheme" = "Linux" ∧
      (KDE4ProfileReader.readProfile Example.platform written (Profile.new 1)).1 = true ∧
      ∀ (h1 : Heap Profile) (q : Ptr),
        h1.get q = .ok (KDE4ProfileReader.readProfile Example.platform written
          (Profile.new 1)).2 →
        Profile.name h1 q = .ok "Dark" ∧ Profile.colorScheme h1 q = .ok "" := by
  obtain ⟨written, name, scheme, h1, h2, h3, h4, h5, h6⟩ :=
    C22_round_trip_loses_colorScheme Example.platform Example.withLinux 2 Example.profileLinux
      (Profile.new 1) [] rfl rfl rfl (fun x => by cases x <;> exact ⟨_, rfl⟩) rfl
  have e1 : name = "Dark" := Except.ok.inj (h1.symm.trans rfl)
  have e2 : scheme = "Linux" := Except.ok.inj (h2.symm.trans rfl)
  subst e1 e2
  exact ⟨written, h2, h3, h4, h5, h6⟩

/-! ## Deleting the default profile while another profile inherits from it -/

theorem Heap.get_free_self {α : Type} (h : Heap α) (p : Ptr) :
    (h.free p).get p = .error .nullDereference := by
  unfold Heap.get
  by_cases hp : p = 0
  · simp [hp]
  · have hl : List.lookup p (h.free p).cells = none := by
      simp only [Heap.free]
      induction h.cells with
      | nil => rfl
      | cons c t ih =>
        obtain ⟨a, b⟩ := c
        by_cases ha : a = p
        · simp [List.filter_cons, ha, ih]
        · have hpa : (p == a) = false := by simpa using fun e => ha e.symm
          simp [List.filter_cons, ha, List.lookup_cons, hpa, ih]
    simp [hp, hl]

theorem Heap.get_free_ne {α : Type} (h : Heap α) (p q : Ptr) (hq : q ≠ p) :
    (h.free p).get q = h.get q := by
  unfold Heap.get
  have hl : List.lookup q (h.free p).cells = List.lookup q h.cells := by
    simp only [Heap.free]
    induction h.cells with
    | nil => rfl
    | cons c t ih =>
      obtain ⟨a, b⟩ := c
      by_cases ha : a = p
      · subst ha
        have hqa : (q == a) = false := by simpa using hq
        simp [List.filter_cons, List.lookup_cons, hqa, ih]
      · by_cases hqa : q = a
        · simp [List.filter_cons, ha, List.lookup_cons, hqa]
        · have hqa1 : (q == a) = false := by simpa using hqa
          simp [List.filter_cons, ha, List.lookup_cons, hqa1, ih]
  rw [hl]

/-- Once the parent of a profile without a property of its own is deleted, looking the
property up on the child dereferences the deleted object. -/
theorem Profile.property_dangling_parent (h : Heap Profile) (b d : Ptr) (B : Profile)
    (x : Property) (hB : h.get b = .ok B) (hbd : b ≠ d)
    (hx : B.isPropertySet x = false) (hparent : B._parent = d) (hd : d ≠ 0) :
    Profile.property (h.free d) b x = .error .nullDereference := by
  unfold Profile.property
  rw [Profile.propertyFuel]
  simp only [Heap.get_free_ne h d b hbd, hB]
  simp only [Profile.isPropertySet] at hx
  simp only [hx, Bool.false_eq_true, if_false, hparent, ne_eq, hd, not_false_eq_true, if_true]
  rw [Profile.propertyFuel]
  simp only [Heap.get_free_self]

/-- C5: in a registry whose default profile is live and whose favourites resolve, when the
first key left after removing the default key names a live profile that has no `Path` of its
own and has the default profile as parent, `deleteProfile` on the default key does not
return: it deletes the default's object and then, to reassign the default, asks the profile
of that first key for its `path()`, which goes through the deleted parent. -/
theorem C5_deleteProfile_default_dangling_parent (s : SessionManager) (P B : Profile)
    (first : String) (rest : List String)
    (hdefault : QHash.contains s._types s._defaultProfile = true)
    (hlive : s.profiles.get s.defaultProfile = .ok P)
    (hfav : ∀ k ∈ s._favorites, ∃ p, Profile.path s.profiles (s.profile k) = .ok p)
    (hkeys : QHash.keys (QHash.remove s._types s._defaultProfile) = first :: rest)
    (hB : s.profiles.get (QHash.value s._types first 0) = .ok B)
    (hother : QHash.value s._types first 0 ≠ s.defaultProfile)
    (hnopath : B.isPropertySet .Path = false)
    (hparent : B._parent = s.defaultProfile) :
    SessionManager.deleteProfile s s._defaultProfile = .error .nullDereference := by
  obtain ⟨s1, hs1⟩ := SessionManager.setFavorite_false_returns s s._defaultProfile hfav
  obtain ⟨f1, f2, f3, -, -⟩ := SessionManager.setFavorite_frame _ _ _ _ hs1
  have htype := SessionManager.profile_eq_default_of_key s hdefault
  have hdef1 : SessionManager.defaultProfile s1 = SessionManager.defaultProfile s := by
    simp only [SessionManager.defaultProfile, f1, f2]
  obtain ⟨s2, hs2, r1, r2, -⟩ := SessionManager.deleteProfileRemove_returns s1 s._defaultProfile
    s.defaultProfile P (by rw [f3]; exact hlive)
  rw [f1] at r1
  rw [f3] at r2
  have hne : s.defaultProfile ≠ 0 := by
    intro e
    rw [e] at hlive
    simp [Heap.get] at hlive
  have hfirst : first ∈ QHash.keys (QHash.remove s._types s._defaultProfile) := by
    rw [hkeys]; exact List.mem_cons_self _ _
  obtain ⟨-, hf2⟩ := (QHash.keys_remove _ _ _).mp hfirst
  have hc : QHash.contains s2._types first = true :=
    (QHash.contains_iff_mem_keys _ _).mpr (by rw [r1]; exact hfirst)
  have hval : QHash.value s2._types first 0 = QHash.value s._types first 0 := by
    rw [r1]
    simp only [QHash.value, QHash.lookup_remove_ne _ hf2]
  have hpath : Profile.path s2.profiles (QHash.value s2._types first 0) =
      .error .nullDereference := by
    rw [hval, r2]
    simp only [Profile.path, Profile.stringProperty,
      Profile.property_dangling_parent s.profiles _ _ B .Path hB hother hnopath hparent hne]
  have h3 : SessionManager.deleteProfileDefault s2 true = .error .nullDereference := by
    unfold SessionManager.deleteProfileDefault
    rw [← r1] at hkeys
    simp only [if_true, hkeys]
    unfold SessionManager.setDefaultProfile
    simp only [SessionManager.profile_of_contains s2 first hc, hpath, bind, Except.bind]
  unfold SessionManager.deleteProfile
  simp only [hs1, htype, hdef1, hs2, decide_True, h3, bind, Except.bind]

/-- C5, at a concrete input: the constructed registry with a second profile, a child of the
fallback without a location of its own, under the key `1`.  The state is reachable, both
profiles answer `path()`, and `deleteProfile("0")` on the default does not return. -/
theorem C5_witness :
    SessionManager.Reachable Example.platform Example.world Example.withB ∧
      QHash.keys Example.withB._types = ["1", "0"] ∧
      Example.withB.defaultProfileKey = "0" ∧
      Profile.path Example.withB.profiles (Example.withB.profile "0") = .ok "" ∧
      Profile.path Example.withB.profiles (Example.withB.profile "1") = .ok "" ∧
      SessionManager.deleteProfile Example.withB "0" = .error .nullDereference :=
  ⟨.addProfile Example.allocatedB _ 2 "1"
      (.newProfile Example.fresh (Profile.new 1) (.constructed _ rfl)) rfl,
    rfl, rfl, rfl, rfl,
    C5_deleteProfile_default_dangling_parent Example.withB (FallbackProfile.new "/bin/sh")
      (Profile.new 1) "1" [] rfl rfl (by intro k hk; cases hk) rfl rfl (by decide) rfl rfl⟩

end Konsole
